import Mathlib

/-!
# Verification of the ucow 8080 code generator (src/src/codegen.py)

This file shallowly embeds the `CodeGenerator` class of `src/src/codegen.py`
as a state-passing Lean development, and settles the frozen claims about it.

Conventions of the embedding:

* The generator object is the structure `CodeGenerator`; every method
  `self.f(...)` becomes a function `f ... (st : CodeGenerator) : CodeGenerator`
  (or returning a pair when the Python method returns a value).
* Python dictionaries (`self.variables`, `self.string_literals`) are modelled
  as insertion-ordered association lists with Python's update semantics:
  inserting an existing key replaces the value in place, keeping the key's
  original position; a new key is appended.  This matches CPython dict
  iteration order, which the data-segment emission relies on.
* The type checker is read-only input for the generator.  Its module
  (`types.py`) is not part of the sources, so it is modelled as an oracle
  structure `TypeChecker` of lookup functions, exactly as wide as the uses in
  `codegen.py` require (sizes, constants, subroutine signatures, record field
  tables, scope lookups).
* The mutually recursive lowering functions are totalised with a fuel
  parameter, decremented on every recursive call; fuel `0` returns the state
  unchanged.  All general theorems hold for every fuel value, and concrete
  evaluations use ample fuel.
* Python string formatting of counters is embedded by `natRepr`, a
  structurally-reducing decimal renderer proved equal to `Nat.digits 10`.
-/

namespace UCow

/-! ## The type universe and the checker oracle

Modelled from the spec (section 3, "Type universe") and from the uses of
`types.py` inside `codegen.py`: the codegen only pattern-matches on pointer,
array and record types and otherwise asks the checker for sizes. -/

inductive CowType where
  | int (name : String) (size : Nat)
  | ptr (target : CowType)
  | array (size : Nat) (element : CowType)
  | record (name : String)
  | intf (name : String)
deriving DecidableEq

/-- A record field as `codegen.py` reads it: a name and a byte offset. -/
structure RecordFieldInfo where
  name : String
  offset : Nat

structure RecordInfo where
  fields : List RecordFieldInfo

/-- A subroutine signature as stored in `checker.subroutines`. -/
structure SubroutineInfo where
  params : List (String × CowType)
  returns : List (String × CowType)

/-- Python-dict lookup on an insertion-ordered association list. -/
def dictGet {α : Type} (k : String) : List (String × α) → Option α
  | [] => none
  | (k', v) :: rest => if k' = k then some v else dictGet k rest

/-- Python-dict insertion: an existing key keeps its position and gets the
new value; a fresh key is appended at the end. -/
def dictInsert {α : Type} (k : String) (v : α) : List (String × α) → List (String × α)
  | [] => [(k, v)]
  | (k', v') :: rest =>
    if k' = k then (k, v) :: rest else (k', v') :: dictInsert k v rest

def dictContains {α : Type} (k : String) (m : List (String × α)) : Bool :=
  (dictGet k m).isSome

/-- Modelled from the spec: the external type checker (`types.py` is not in
the sources).  Only the queries `codegen.py` makes are modelled.  `type_size`
takes an `Option` because the code passes `expr.resolved_type`, which can be
absent, straight through to the checker. -/
structure TypeChecker where
  type_size : Option CowType → Nat
  constants : List (String × Int)
  subroutines : List (String × SubroutineInfo)
  records : List (String × RecordInfo)
  resolve_type : String → CowType
  lookup_var : String → Option CowType

/-! ## The AST

Modelled from the node classes of `ast.py` as consumed by `codegen.py`
(that module is also outside the sources): each constructor carries exactly
the fields the code generator reads.  Every expression node carries the
checker-written `resolved_type` annotation, so `Expr` is a wrapper
constructor `mk` around the node proper. -/

mutual
inductive Expr where
  | mk (rt : Option CowType) (node : ExprNode)

inductive ExprNode where
  | numberLiteral (value : Int)
  | stringLiteral (value : String)
  | nilLiteral
  | identifier (name : String)
  | binaryOp (op : String) (left right : Expr)
  | unaryOp (op : String) (operand : Expr)
  | comparison (op : String) (left right : Expr)
  | logicalOp (op : String) (left right : Expr)
  | notOp (operand : Expr)
  | castE (inner : Expr)
  | arrayAccess (array index : Expr)
  | fieldAccess (record : Expr) (fieldName : String)
  | dereference (pointer : Expr)
  | addressOf (operand : Expr)
  | call (target : Expr) (args : List Expr)
  | sizeOfE (target : Expr)
  | sizeOfT (typeName : String)
  | bytesOfE (target : Expr)
  | bytesOfT (typeName : String)
  | nextE (pointer : Expr)
  | prevE (pointer : Expr)
  | arrayInitializer (elements : List Expr)
  | otherExpr (kindName : String)
end

/-- The `resolved_type` annotation of an expression. -/
def Expr.rt : Expr → Option CowType
  | .mk rt _ => rt

/-- The node under the annotation. -/
def Expr.node : Expr → ExprNode
  | .mk _ n => n

mutual
inductive Stmt where
  | varDecl (name : String) (typeName : Option String) (rt : Option CowType)
      (init : Option Expr)
  | constDecl
  | assignment (target value : Expr)
  | multiAssignment (targets : List Expr) (value : Expr)
  | ifStmt (condition : Expr) (thenBody : List Stmt)
      (elseifs : List (Expr × List Stmt)) (elseBody : List Stmt)
  | whileStmt (condition : Expr) (body : List Stmt)
  | loopStmt (body : List Stmt)
  | breakStmt
  | continueStmt
  | returnStmt
  | caseStmt (scrutinee : Expr) (whens : List (List Expr × List Stmt))
      (elseBody : List Stmt)
  | exprStmt (e : Expr)
  | asmStmt (parts : List AsmPart)
  | nestedSubStmt (sub : SubDecl)
  | subDeclStmt (sub : SubDecl)
  | recordDecl
  | typedefDecl
  | otherStmt

/-- Inline-assembly fragment parts: literal strings or expressions
(`ast.Identifier` is a subclass of `ast.Expression`, so the Python
`isinstance` chain is: string, then identifier node, then other nodes). -/
inductive AsmPart where
  | strPart (s : String)
  | exprPart (e : Expr)

/-- A subroutine declaration.  `params`/`returns` are `(name, type-name)`
pairs, used only on the fallback path when the checker has no signature. -/
inductive SubDecl where
  | mk (name : String) (params : List (String × String))
      (returns : List (String × String)) (body : Option (List Stmt))
      (extern_name : Option String)
end

def SubDecl.name : SubDecl → String
  | .mk n _ _ _ _ => n

def SubDecl.params : SubDecl → List (String × String)
  | .mk _ p _ _ _ => p

def SubDecl.returns : SubDecl → List (String × String)
  | .mk _ _ r _ _ => r

def SubDecl.body : SubDecl → Option (List Stmt)
  | .mk _ _ _ b _ => b

def SubDecl.extern_name : SubDecl → Option String
  | .mk _ _ _ _ e => e

/-- A top-level declaration of `program.declarations`; `gen_program` only
acts on `SubDecl` entries. -/
inductive TopDecl where
  | sub (s : SubDecl)
  | otherDecl

structure Program where
  declarations : List TopDecl
  statements : List Stmt

/-! ## Decimal rendering

Python f-string formatting of the label counter and of sizes/offsets.
`natDigitsLE` is a structurally-reducing little-endian digit list, proved
equal to `Nat.digits 10` so that Mathlib's digit lemmas give injectivity. -/

def natDigitsLE : Nat → Nat → List Nat
  | _, 0 => []
  | 0, _ => []
  | f + 1, n => n % 10 :: natDigitsLE f (n / 10)

def digitChar (d : Nat) : Char := Char.ofNat (48 + d)

/-- Decimal rendering of a natural number, as Python `str`/f-strings do. -/
def natRepr (n : Nat) : String :=
  if n = 0 then "0" else String.mk (((natDigitsLE n n).map digitChar).reverse)

/-- Decimal rendering of a Python integer (used for constant substitution in
inline assembly, where the value can be negative). -/
def pyIntRepr (v : Int) : String :=
  if v < 0 then "-" ++ natRepr (-v).toNat else natRepr v.toNat

/-! ## The generator state (`CodeGenerator.__init__`) -/

/-- Variable allocation info (`@dataclass Variable`). -/
structure Variable where
  name : String
  type : CowType
  offset : Nat
  size : Nat
deriving DecidableEq

/-- The mutable state of the `CodeGenerator` object.  The read-only
`self.checker` is passed as a separate parameter to every function. -/
structure CodeGenerator where
  output : List String := []
  data : List String := []
  vars : List (String × Variable) := []  -- `self.variables` (a Lean keyword)
  string_literals : List (String × String) := []
  data_offset : Nat := 0
  label_counter : Nat := 0
  current_sub : Option String := none
  break_labels : List String := []
  continue_labels : List String := []
  nested_subs : List SubDecl := []

/-! ## Emitter and naming layer -/

def emit (st : CodeGenerator) (line : String) : CodeGenerator :=
  { st with output := st.output ++ [line] }

def emit_label (st : CodeGenerator) (label : String) : CodeGenerator :=
  emit st (label ++ ":")

def emit_data (st : CodeGenerator) (line : String) : CodeGenerator :=
  { st with data := st.data ++ [line] }

/-- `new_label`: bump the shared counter, append it to the prefix. -/
def new_label (pfx : String) (st : CodeGenerator) : String × CodeGenerator :=
  let st := { st with label_counter := st.label_counter + 1 }
  (pfx ++ natRepr st.label_counter, st)

def type_size (ck : TypeChecker) (t : Option CowType) : Nat :=
  ck.type_size t

/-- `allocate_var`: record the variable under its unmangled name (replacing
any previous entry for that name) and advance the data offset. -/
def allocate_var (ck : TypeChecker) (name : String) (typ : CowType)
    (st : CodeGenerator) : Variable × CodeGenerator :=
  let size := type_size ck (some typ)
  let var : Variable := ⟨name, typ, st.data_offset, size⟩
  (var, { st with vars := dictInsert name var st.vars,
                  data_offset := st.data_offset + size })

/-- `get_string_label`: intern a string literal value. -/
def get_string_label (value : String) (st : CodeGenerator) :
    String × CodeGenerator :=
  match dictGet value st.string_literals with
  | some l => (l, st)
  | none =>
    let (label, st) := new_label "STR" st
    let st := { st with string_literals := dictInsert value label st.string_literals }
    (label, st)

def mangle_name (name : String) : String := "v_" ++ name

/-- Python `name.upper()`; spelled through `data` so that the kernel can
evaluate it (`String.toUpper` itself is byte-position based). -/
def pyUpper (name : String) : String := String.mk (name.data.map Char.toUpper)

def mangle_sub_name (name : String) : String :=
  if ["A", "B", "C", "D", "E", "H", "L", "M", "SP", "PSW"].contains (pyUpper name)
  then "s_" ++ name else name

end UCow

namespace UCow

/-! ## Expression lowering (`gen_expr` and helpers)

One function per Python method, mutually recursive, totalised by fuel.
Each body mirrors the corresponding method of `codegen.py` statement by
statement; `let st := ...` chains correspond to successive `self.emit`
calls. -/

/-- The 8-bit operator dispatch of `gen_binop` (the `if op == ...` chain),
acting on the state after both operands are in `A`/`B`. -/
def binop8_op (op : String) (st : CodeGenerator) : CodeGenerator :=
  if op = "+" then emit st "\tADD\tB"
  else if op = "-" then emit st "\tSUB\tB"
  else if op = "&" then emit st "\tANA\tB"
  else if op = "|" then emit st "\tORA\tB"
  else if op = "^" then emit st "\tXRA\tB"
  else if op = "*" then emit st "\tCALL\t_mul8"
  else if op = "/" then emit st "\tCALL\t_div8"
  else if op = "%" then emit st "\tCALL\t_mod8"
  else if op = "<<" then
    let (label, st) := new_label "SHL" st
    let (endl, st) := new_label "SHLE" st
    let st := emit_label st label
    let st := emit st "\tMOV\tC,A"
    let st := emit st "\tMOV\tA,B"
    let st := emit st "\tORA\tA"
    let st := emit st ("\tJZ\t" ++ endl)
    let st := emit st "\tDCR\tB"
    let st := emit st "\tMOV\tA,C"
    let st := emit st "\tADD\tA"
    let st := emit st ("\tJMP\t" ++ label)
    emit_label st endl
  else if op = ">>" then
    let (label, st) := new_label "SHR" st
    let (endl, st) := new_label "SHRE" st
    let st := emit_label st label
    let st := emit st "\tMOV\tC,A"
    let st := emit st "\tMOV\tA,B"
    let st := emit st "\tORA\tA"
    let st := emit st ("\tJZ\t" ++ endl)
    let st := emit st "\tDCR\tB"
    let st := emit st "\tMOV\tA,C"
    let st := emit st "\tORA\tA"
    let st := emit st "\tRAR"
    let st := emit st ("\tJMP\t" ++ label)
    emit_label st endl
  else st

/-- The 16-bit operator dispatch of `gen_binop`, acting on the state after
`HL` holds the left operand and `DE` the right. -/
def binop16_op (op : String) (st : CodeGenerator) : CodeGenerator :=
  if op = "+" then emit st "\tDAD\tD"
  else if op = "-" then
    let st := emit st "\tMOV\tA,L"
    let st := emit st "\tSUB\tE"
    let st := emit st "\tMOV\tL,A"
    let st := emit st "\tMOV\tA,H"
    let st := emit st "\tSBB\tD"
    emit st "\tMOV\tH,A"
  else if op = "&" then
    let st := emit st "\tMOV\tA,L"
    let st := emit st "\tANA\tE"
    let st := emit st "\tMOV\tL,A"
    let st := emit st "\tMOV\tA,H"
    let st := emit st "\tANA\tD"
    emit st "\tMOV\tH,A"
  else if op = "|" then
    let st := emit st "\tMOV\tA,L"
    let st := emit st "\tORA\tE"
    let st := emit st "\tMOV\tL,A"
    let st := emit st "\tMOV\tA,H"
    let st := emit st "\tORA\tD"
    emit st "\tMOV\tH,A"
  else if op = "^" then
    let st := emit st "\tMOV\tA,L"
    let st := emit st "\tXRA\tE"
    let st := emit st "\tMOV\tL,A"
    let st := emit st "\tMOV\tA,H"
    let st := emit st "\tXRA\tD"
    emit st "\tMOV\tH,A"
  else if op = "*" then emit st "\tCALL\t_mul16"
  else if op = "/" then emit st "\tCALL\t_div16"
  else if op = "%" then emit st "\tCALL\t_mod16"
  else if op = "<<" then emit st "\tCALL\t_shl16"
  else if op = ">>" then emit st "\tCALL\t_shr16"
  else st

/-- The label/flag tail of `gen_comparison`: allocate `TRUE`/`END`/`FALSE`
labels, emit the flag-dependent jumps for `op`, then the 0/1 blocks. -/
def cmp_finish (op : String) (st : CodeGenerator) : CodeGenerator :=
  let (true_label, st) := new_label "TRUE" st
  let (end_label, st) := new_label "END" st
  let (false_label, st) := new_label "FALSE" st
  let st :=
    if op = "==" then emit st ("\tJZ\t" ++ true_label)
    else if op = "!=" then emit st ("\tJNZ\t" ++ true_label)
    else if op = "<" then emit st ("\tJC\t" ++ true_label)
    else if op = ">=" then emit st ("\tJNC\t" ++ true_label)
    else if op = ">" then
      emit (emit st ("\tJZ\t" ++ false_label)) ("\tJNC\t" ++ true_label)
    else if op = "<=" then
      emit (emit st ("\tJZ\t" ++ true_label)) ("\tJC\t" ++ true_label)
    else st
  let st := emit_label st false_label
  let st := emit st "\tXRA\tA"
  let st := emit st ("\tJMP\t" ++ end_label)
  let st := emit_label st true_label
  let st := emit st "\tMVI\tA,1"
  emit_label st end_label

/-- The caller cleanup of `gen_call` (`if expr.args:` and the
`stack_bytes` dispatch). -/
def call_cleanup (args : List Expr) (st : CodeGenerator) : CodeGenerator :=
  if args.isEmpty then st
  else
    let stack_bytes := args.length * 2
    if stack_bytes = 2 then emit st "\tPOP\tD"
    else if stack_bytes = 4 then emit (emit st "\tPOP\tD") "\tPOP\tD"
    else
      let st := emit st "\tPUSH\tH"
      let st := emit st ("\tLXI\tH," ++ natRepr (stack_bytes + 2))
      let st := emit st "\tDAD\tSP"
      let st := emit st "\tSPHL"
      emit st "\tPOP\tH"

/-- The result-narrowing tail of `gen_call`
(`if target == 'A' and expr.resolved_type:`). -/
def call_narrow (ck : TypeChecker) (rt : Option CowType) (target : String)
    (st : CodeGenerator) : CodeGenerator :=
  if target = "A" then
    match rt with
    | some t => if type_size ck (some t) > 1 then emit st "\tMOV\tA,L" else st
    | none => st
  else st

section ExprGen

variable (ck : TypeChecker)

mutual

/-- `gen_expr(expr, target)` — evaluate an expression into `target`
(`"HL"` or `"A"`). -/
def gen_expr : Nat → Expr → String → CodeGenerator → CodeGenerator
  | 0, _, _, st => st
  | fuel + 1, .mk rt node, target, st =>
    match node with
    | .numberLiteral value =>
      if target = "A" then emit st ("\tMVI\tA," ++ pyIntRepr (value.emod 256))
      else emit st ("\tLXI\tH," ++ pyIntRepr (value.emod 65536))
    | .stringLiteral value =>
      let (label, st) := get_string_label value st
      emit st ("\tLXI\tH," ++ label)
    | .nilLiteral =>
      if target = "A" then emit st "\tXRA\tA" else emit st "\tLXI\tH,0"
    | .identifier name =>
      match dictGet name st.vars with
      | some var =>
        let mangled := mangle_name name
        if var.size = 1 then
          let st := emit st ("\tLDA\t" ++ mangled)
          if target = "HL" then emit (emit st "\tMOV\tL,A") "\tMVI\tH,0" else st
        else
          let st := emit st ("\tLHLD\t" ++ mangled)
          if target = "A" then emit st "\tMOV\tA,L" else st
      | none =>
        if dictContains name ck.constants then
          let value := (dictGet name ck.constants).getD 0
          if target = "A" then emit st ("\tMVI\tA," ++ pyIntRepr (value.emod 256))
          else emit st ("\tLXI\tH," ++ pyIntRepr (value.emod 65536))
        else if dictContains name ck.subroutines then
          emit st ("\tLXI\tH," ++ mangle_sub_name name)
        else
          emit st ("\tLXI\tH," ++ name)
    | .binaryOp op left right => gen_binop fuel op left right rt target st
    | .unaryOp op operand =>
      if op = "-" then
        let st := gen_expr fuel operand target st
        if target = "A" then emit (emit st "\tCMA") "\tINR\tA"
        else
          let st := emit st "\tMOV\tA,L"
          let st := emit st "\tCMA"
          let st := emit st "\tMOV\tL,A"
          let st := emit st "\tMOV\tA,H"
          let st := emit st "\tCMA"
          let st := emit st "\tMOV\tH,A"
          emit st "\tINX\tH"
      else if op = "~" then
        let st := gen_expr fuel operand target st
        if target = "A" then emit st "\tCMA"
        else
          let st := emit st "\tMOV\tA,L"
          let st := emit st "\tCMA"
          let st := emit st "\tMOV\tL,A"
          let st := emit st "\tMOV\tA,H"
          let st := emit st "\tCMA"
          emit st "\tMOV\tH,A"
      else st
    | .comparison op left right =>
      let st := gen_comparison fuel op left right st
      if target = "HL" then emit (emit st "\tMOV\tL,A") "\tMVI\tH,0" else st
    | .logicalOp op left right =>
      let st := gen_logical fuel op left right st
      if target = "HL" then emit (emit st "\tMOV\tL,A") "\tMVI\tH,0" else st
    | .notOp operand =>
      let st := gen_expr fuel operand "A" st
      let st := emit st "\tORA\tA"
      let st := emit st "\tMVI\tA,0"
      let st := emit st "\tJNZ\t$+4"
      let st := emit st "\tMVI\tA,1"
      if target = "HL" then emit (emit st "\tMOV\tL,A") "\tMVI\tH,0" else st
    | .castE inner => gen_expr fuel inner target st
    | .arrayAccess array index => gen_array_access fuel array index rt target st
    | .fieldAccess record fieldName =>
      gen_field_access fuel record fieldName rt target st
    | .dereference pointer =>
      let st := gen_expr fuel pointer "HL" st
      if type_size ck rt = 1 then
        let st := emit st "\tMOV\tA,M"
        if target = "HL" then emit (emit st "\tMOV\tL,A") "\tMVI\tH,0" else st
      else
        emit (emit (emit (emit st "\tMOV\tE,M") "\tINX\tH") "\tMOV\tD,M") "\tXCHG"
    | .addressOf operand =>
      match operand with
      | .mk _ (.identifier name) =>
        match dictGet name st.vars with
        | some _ => emit st ("\tLXI\tH," ++ mangle_name name)
        | none => st
      | .mk _ (.fieldAccess record fieldName) =>
        gen_field_address fuel record fieldName st
      | .mk _ (.arrayAccess array index) => gen_array_address fuel array index st
      | _ => st
    | .call targetE args => gen_call fuel targetE args rt target st
    | .sizeOfE targetE =>
      match targetE.rt with
      | some (.array n _) =>
        if target = "A" then emit st ("\tMVI\tA," ++ natRepr (n % 256))
        else emit st ("\tLXI\tH," ++ natRepr n)
      | _ => st
    | .sizeOfT _ => st
    | .bytesOfE targetE =>
      let size := type_size ck targetE.rt
      if target = "A" then emit st ("\tMVI\tA," ++ natRepr (size % 256))
      else emit st ("\tLXI\tH," ++ natRepr size)
    | .bytesOfT typeName =>
      let size := type_size ck (some (ck.resolve_type typeName))
      if target = "A" then emit st ("\tMVI\tA," ++ natRepr (size % 256))
      else emit st ("\tLXI\tH," ++ natRepr size)
    | .nextE pointer =>
      let st := gen_expr fuel pointer "HL" st
      match rt with
      | some (.ptr tgt) =>
        let size := type_size ck (some tgt)
        if size = 1 then emit st "\tINX\tH"
        else emit (emit st ("\tLXI\tD," ++ natRepr size)) "\tDAD\tD"
      | _ => st
    | .prevE pointer =>
      let st := gen_expr fuel pointer "HL" st
      match rt with
      | some (.ptr tgt) =>
        let size := type_size ck (some tgt)
        if size = 1 then emit st "\tDCX\tH"
        else emit (emit st ("\tLXI\tD,-" ++ natRepr size)) "\tDAD\tD"
      | _ => st
    | .arrayInitializer _ => st
    | .otherExpr kindName => emit st ("\t; TODO: " ++ kindName)

/-- `gen_binop(expr, target)` with `expr`'s fields passed explicitly. -/
def gen_binop : Nat → String → Expr → Expr → Option CowType → String →
    CodeGenerator → CodeGenerator
  | 0, _, _, _, _, _, st => st
  | fuel + 1, op, left, right, rt, target, st =>
    if type_size ck rt = 1 then
      let st := gen_expr fuel left "A" st
      let st := emit st "\tPUSH\tPSW"
      let st := gen_expr fuel right "A" st
      let st := emit st "\tMOV\tB,A"
      let st := emit st "\tPOP\tPSW"
      let st := binop8_op op st
      if target = "HL" then emit (emit st "\tMOV\tL,A") "\tMVI\tH,0" else st
    else
      let st := gen_expr fuel left "HL" st
      let st := emit st "\tPUSH\tH"
      let st := gen_expr fuel right "HL" st
      let st := emit st "\tXCHG"
      let st := emit st "\tPOP\tH"
      let st := binop16_op op st
      if target = "A" then emit st "\tMOV\tA,L" else st

/-- `gen_comparison(expr)` — result 0/1 in `A`. -/
def gen_comparison : Nat → String → Expr → Expr → CodeGenerator → CodeGenerator
  | 0, _, _, _, st => st
  | fuel + 1, op, left, right, st =>
    let st := gen_expr fuel left "HL" st
    let st := emit st "\tPUSH\tH"
    let st := gen_expr fuel right "HL" st
    let st := emit st "\tXCHG"
    let st := emit st "\tPOP\tH"
    let st := emit st "\tMOV\tA,H"
    let st := emit st "\tCMP\tD"
    let st := emit st "\tJNZ\t$+6"
    let st := emit st "\tMOV\tA,L"
    let st := emit st "\tCMP\tE"
    cmp_finish op st

/-- `gen_logical(expr)` — short-circuit `and`/`or`, result in `A`. -/
def gen_logical : Nat → String → Expr → Expr → CodeGenerator → CodeGenerator
  | 0, _, _, _, st => st
  | fuel + 1, op, left, right, st =>
    if op = "and" then
      let (false_label, st) := new_label "FALSE" st
      let (end_label, st) := new_label "END" st
      let st := gen_expr fuel left "A" st
      let st := emit st "\tORA\tA"
      let st := emit st ("\tJZ\t" ++ false_label)
      let st := gen_expr fuel right "A" st
      let st := emit st "\tORA\tA"
      let st := emit st ("\tJZ\t" ++ false_label)
      let st := emit st "\tMVI\tA,1"
      let st := emit st ("\tJMP\t" ++ end_label)
      let st := emit_label st false_label
      let st := emit st "\tXRA\tA"
      emit_label st end_label
    else if op = "or" then
      let (true_label, st) := new_label "TRUE" st
      let (end_label, st) := new_label "END" st
      let st := gen_expr fuel left "A" st
      let st := emit st "\tORA\tA"
      let st := emit st ("\tJNZ\t" ++ true_label)
      let st := gen_expr fuel right "A" st
      let st := emit st "\tORA\tA"
      let st := emit st ("\tJNZ\t" ++ true_label)
      let st := emit st "\tXRA\tA"
      let st := emit st ("\tJMP\t" ++ end_label)
      let st := emit_label st true_label
      let st := emit st "\tMVI\tA,1"
      emit_label st end_label
    else st

/-- `gen_array_access(expr, target)`. -/
def gen_array_access : Nat → Expr → Expr → Option CowType → String →
    CodeGenerator → CodeGenerator
  | 0, _, _, _, _, st => st
  | fuel + 1, array, index, rt, target, st =>
    let st := gen_array_address fuel array index st
    if type_size ck rt = 1 then
      let st := emit st "\tMOV\tA,M"
      if target = "HL" then emit (emit st "\tMOV\tL,A") "\tMVI\tH,0" else st
    else
      let st := emit (emit (emit (emit st "\tMOV\tE,M") "\tINX\tH") "\tMOV\tD,M") "\tXCHG"
      if target = "A" then emit st "\tMOV\tA,L" else st

/-- `gen_array_address(expr)` — address of `array[index]` in `HL`. -/
def gen_array_address : Nat → Expr → Expr → CodeGenerator → CodeGenerator
  | 0, _, _, st => st
  | fuel + 1, array, index, st =>
    let elem_size :=
      match array.rt with
      | some (.array _ element) => type_size ck (some element)
      | some (.ptr tgt) => type_size ck (some tgt)
      | _ => 1
    let st := gen_expr fuel index "HL" st
    let st :=
      if elem_size > 1 then
        emit (emit st ("\tLXI\tD," ++ natRepr elem_size)) "\tCALL\t_mul16"
      else st
    let st := emit st "\tPUSH\tH"
    let st :=
      match array with
      | .mk _ (.identifier name) =>
        match dictGet name st.vars with
        | some _ => emit st ("\tLXI\tH," ++ mangle_name name)
        | none => emit st ("\tLXI\tH," ++ name)
      | _ => gen_expr fuel array "HL" st
    let st := emit st "\tPOP\tD"
    emit st "\tDAD\tD"

/-- `gen_field_access(expr, target)`. -/
def gen_field_access : Nat → Expr → String → Option CowType → String →
    CodeGenerator → CodeGenerator
  | 0, _, _, _, _, st => st
  | fuel + 1, record, fieldName, rt, target, st =>
    let st := gen_field_address fuel record fieldName st
    if type_size ck rt = 1 then
      let st := emit st "\tMOV\tA,M"
      if target = "HL" then emit (emit st "\tMOV\tL,A") "\tMVI\tH,0" else st
    else
      let st := emit (emit (emit (emit st "\tMOV\tE,M") "\tINX\tH") "\tMOV\tD,M") "\tXCHG"
      if target = "A" then emit st "\tMOV\tA,L" else st

/-- `gen_field_address(expr)` — address of `record.field` in `HL`. -/
def gen_field_address : Nat → Expr → String → CodeGenerator → CodeGenerator
  | 0, _, _, st => st
  | fuel + 1, record, fieldName, st =>
    let record_type : Option CowType :=
      match record.rt with
      | some (.ptr tgt) => some tgt
      | other => other
    let st :=
      match record.rt with
      | some (.ptr _) => gen_expr fuel record "HL" st
      | _ =>
        match record with
        | .mk _ (.identifier name) =>
          match dictGet name st.vars with
          | some _ => emit st ("\tLXI\tH," ++ mangle_name name)
          | none => emit st ("\tLXI\tH," ++ name)
        | _ => gen_expr fuel record "HL" st
    match record_type with
    | some (.record rname) =>
      match dictGet rname ck.records with
      | some info =>
        match info.fields.find? (fun f => f.name = fieldName) with
        | some f =>
          if f.offset > 0 then
            emit (emit st ("\tLXI\tD," ++ natRepr f.offset)) "\tDAD\tD"
          else st
        | none => st
      | none => st
    | _ => st

/-- `gen_call(expr, target)`. -/
def gen_call : Nat → Expr → List Expr → Option CowType → String →
    CodeGenerator → CodeGenerator
  | 0, _, _, _, _, st => st
  | fuel + 1, targetE, args, rt, target, st =>
    let st := args.reverse.foldl
      (fun s arg => emit (gen_expr fuel arg "HL" s) "\tPUSH\tH") st
    let st :=
      match targetE with
      | .mk _ (.identifier name) =>
        if dictContains name ck.subroutines then
          emit st ("\tCALL\t" ++ mangle_sub_name name)
        else
          let st :=
            match dictGet name st.vars with
            | some _ => emit st ("\tLHLD\t" ++ mangle_name name)
            | none => emit st ("\tLXI\tH," ++ name)
          emit st "\tCALL\t_callhl"
      | _ =>
        let st := gen_expr fuel targetE "HL" st
        emit st "\tCALL\t_callhl"
    let st := call_cleanup args st
    call_narrow ck rt target st

end

end ExprGen

end UCow

namespace UCow

/-! ## Inline assembly rendering (`gen_asm`)

The rendered line depends only on the checker, so it is a pure function. -/

/-- Python `str.isspace()` on the single characters that can occur here. -/
def pyIsSpace (c : Char) : Bool :=
  c = ' ' || c = '\t' || c = '\n' || c = '\r' || c = '\x0b' || c = '\x0c'

/-- Identifier substitution inside `asm`: constant value, mangled subroutine
name, or mangled variable name. -/
def asm_ident (ck : TypeChecker) (name : String) : String :=
  if dictContains name ck.constants then
    pyIntRepr ((dictGet name ck.constants).getD 0)
  else if dictContains name ck.subroutines then mangle_sub_name name
  else mangle_name name

/-- One fragment part as a string (the `parts` list built by `gen_asm`). -/
def asm_part (ck : TypeChecker) : AsmPart → String
  | .strPart s => s
  | .exprPart (.mk _ (.identifier name)) => asm_ident ck name
  | .exprPart _ => "???"

/-- The joining loop of `gen_asm`: a separating tab is inserted only between
two adjacent fragments that both end/begin in non-whitespace. -/
def asm_join_step (acc : String × Bool) (part : String) : String × Bool :=
  let asm_line := acc.1
  let asm_line :=
    if acc.2 && part ≠ "" && !pyIsSpace part.front && asm_line ≠ "" &&
        !pyIsSpace asm_line.back
    then asm_line ++ "\t" ++ part
    else asm_line ++ part
  (asm_line, true)

def asm_join (parts : List String) : String :=
  (parts.foldl asm_join_step ("", false)).1

/-- The full line `gen_asm` emits (one leading tab). -/
def render_asm (ck : TypeChecker) (parts : List AsmPart) : String :=
  "\t" ++ asm_join (parts.map (asm_part ck))

def gen_asm (ck : TypeChecker) (parts : List AsmPart) (st : CodeGenerator) :
    CodeGenerator :=
  emit st (render_asm ck parts)

/-- `UINT16` of `types.py` (modelled from the spec: 2-byte scalar), the
fallback type of `gen_var_decl`. -/
def UINT16 : CowType := .int "uint16" 2

/-- The variable-type resolution at the top of `gen_var_decl`: the declared
resolved type, else the resolved type name, else the initializer's type,
defaulting to `UINT16`. -/
def var_decl_type (ck : TypeChecker) (typeName : Option String)
    (rt : Option CowType) (init : Option Expr) : CowType :=
  let init_rt : Option CowType :=
    match init with
    | some e => e.rt
    | none => none
  let var_type : Option CowType :=
    match rt with
    | some t => some t
    | none =>
      match typeName with
      | some tn => if tn = "" then init_rt else some (ck.resolve_type tn)
      | none => init_rt
  var_type.getD UINT16

/-- Data-segment variable line: `v_<name>:\tDS\t<size>`. -/
def ds_line (nv : String × Variable) : String :=
  mangle_name nv.1 ++ ":\tDS\t" ++ natRepr nv.2.size

/-- The comma-separated byte ordinals of a string literal. -/
def db_bytes (value : String) : String :=
  String.intercalate "," (value.data.map fun c => natRepr c.toNat)

/-- Data-segment string line: `<label>:\tDB\t<bytes>,0` (or `DB 0` when the
value is empty). -/
def db_line (vl : String × String) : String :=
  if db_bytes vl.1 ≠ "" then vl.2 ++ ":\tDB\t" ++ db_bytes vl.1 ++ ",0"
  else vl.2 ++ ":\tDB\t0"

/-- The `extern_name` block at the head of `gen_sub`: a `PUBLIC` directive
and a label when an external name is declared and non-empty. -/
def extern_block (st : CodeGenerator) (e : Option String) : CodeGenerator :=
  match e with
  | some en =>
    if en = "" then st
    else emit_label (emit st ("\tPUBLIC\t" ++ en)) en
  | none => st

/-- The parameter-copy prologue of `gen_sub`: for each parameter, compute
`SP + offset`, load at the parameter width, store to its data label
(offset starts at 2 for the return address and advances by 2 per found
parameter). -/
def sub_prologue (params : List (String × CowType)) (st : CodeGenerator) :
    CodeGenerator :=
  (params.foldl (fun (acc : CodeGenerator × Nat) p =>
    let st := acc.1
    let offset := acc.2
    match dictGet p.1 st.vars with
    | some var =>
      let mangled := mangle_name p.1
      let st := emit st ("\tLXI\tH," ++ natRepr offset)
      let st := emit st "\tDAD\tSP"
      let st :=
        if var.size = 1 then
          emit (emit st "\tMOV\tA,M") ("\tSTA\t" ++ mangled)
        else
          emit (emit (emit (emit (emit st "\tMOV\tE,M") "\tINX\tH")
            "\tMOV\tD,M") "\tXCHG") ("\tSHLD\t" ++ mangled)
      (st, offset + 2)
    | none => (st, offset)) (st, 2)).1

/-- The epilogue of `gen_sub`: load the first return slot into `HL`
(widening a 1-byte slot), when any return is declared. -/
def sub_epilogue (returns : List (String × CowType)) (st : CodeGenerator) :
    CodeGenerator :=
  match returns with
  | [] => st
  | (ret_var, _) :: _ =>
    let mangled_ret := mangle_name ret_var
    match dictGet ret_var st.vars with
    | some var =>
      if var.size = 1 then
        emit (emit (emit st ("\tLDA\t" ++ mangled_ret)) "\tMOV\tL,A")
          "\tMVI\tH,0"
      else emit st ("\tLHLD\t" ++ mangled_ret)
    | none => emit st ("\tLHLD\t" ++ mangled_ret)

/-! ## Statement lowering (`gen_stmt` and helpers) -/


section StmtGen

variable (ck : TypeChecker)

mutual

/-- `gen_stmt(stmt)`. -/
def gen_stmt : Nat → Stmt → CodeGenerator → CodeGenerator
  | 0, _, st => st
  | fuel + 1, stmt, st =>
    match stmt with
    | .varDecl name typeName rt init => gen_var_decl fuel name typeName rt init st
    | .constDecl => st
    | .assignment target value => gen_assignment fuel target value st
    | .multiAssignment targets value => gen_multi_assignment fuel targets value st
    | .ifStmt condition thenBody elseifs elseBody =>
      gen_if fuel condition thenBody elseifs elseBody st
    | .whileStmt condition body => gen_while fuel condition body st
    | .loopStmt body => gen_loop fuel body st
    | .breakStmt =>
      match st.break_labels.getLast? with
      | some l => emit st ("\tJMP\t" ++ l)
      | none => st
    | .continueStmt =>
      match st.continue_labels.getLast? with
      | some l => emit st ("\tJMP\t" ++ l)
      | none => st
    | .returnStmt => emit st "\tRET"
    | .caseStmt scrutinee whens elseBody => gen_case fuel scrutinee whens elseBody st
    | .exprStmt e => gen_expr ck fuel e "HL" st
    | .asmStmt parts => gen_asm ck parts st
    | .nestedSubStmt sub => { st with nested_subs := st.nested_subs ++ [sub] }
    | .subDeclStmt sub => gen_sub fuel sub st
    | .recordDecl => st
    | .typedefDecl => st
    | .otherStmt => st

/-- The statement-list loops `for s in ...: self.gen_stmt(s)`. -/
def gen_stmts : Nat → List Stmt → CodeGenerator → CodeGenerator
  | 0, _, st => st
  | fuel + 1, stmts, st => stmts.foldl (fun s stm => gen_stmt fuel stm s) st

/-- `gen_var_decl(stmt)`. -/
def gen_var_decl : Nat → String → Option String → Option CowType →
    Option Expr → CodeGenerator → CodeGenerator
  | 0, _, _, _, _, st => st
  | fuel + 1, name, typeName, rt, init, st =>
    let var_type := var_decl_type ck typeName rt init
    match dictGet name st.vars with
    | some _ => st
    | none =>
      let (var, st) := allocate_var ck name var_type st
      match init with
      | none => st
      | some initE =>
        let mangled := mangle_name name
        match initE with
        | .mk _ (.arrayInitializer elements) => gen_array_init fuel var elements st
        | .mk _ (.stringLiteral value) =>
          let (label, st) := get_string_label value st
          emit (emit st ("\tLXI\tH," ++ label)) ("\tSHLD\t" ++ mangled)
        | _ =>
          let st := gen_expr ck fuel initE "HL" st
          if var.size = 1 then
            emit (emit st "\tMOV\tA,L") ("\tSTA\t" ++ mangled)
          else emit st ("\tSHLD\t" ++ mangled)

/-- `gen_array_init(var, init)`. -/
def gen_array_init : Nat → Variable → List Expr → CodeGenerator → CodeGenerator
  | 0, _, _, st => st
  | fuel + 1, var, elements, st =>
    let elem_size :=
      match var.type with
      | .array _ element => type_size ck (some element)
      | _ => 1
    let mangled := mangle_name var.name
    (elements.foldl (fun (acc : CodeGenerator × Nat) elem =>
      let s := gen_expr ck fuel elem "HL" acc.1
      let s :=
        if elem_size = 1 then
          emit (emit s "\tMOV\tA,L") ("\tSTA\t" ++ mangled ++ "+" ++ natRepr acc.2)
        else emit s ("\tSHLD\t" ++ mangled ++ "+" ++ natRepr acc.2)
      (s, acc.2 + elem_size)) (st, 0)).1

/-- `gen_assignment(stmt)`. -/
def gen_assignment : Nat → Expr → Expr → CodeGenerator → CodeGenerator
  | 0, _, _, st => st
  | fuel + 1, target, value, st =>
    let st := gen_expr ck fuel value "HL" st
    match target with
    | .mk _ (.identifier name) =>
      match dictGet name st.vars with
      | some var =>
        let mangled := mangle_name name
        if var.size = 1 then
          emit (emit st "\tMOV\tA,L") ("\tSTA\t" ++ mangled)
        else emit st ("\tSHLD\t" ++ mangled)
      | none => st
    | .mk trt (.arrayAccess array index) =>
      let st := emit st "\tPUSH\tH"
      let st := gen_array_address ck fuel array index st
      let st := emit st "\tXCHG"
      let st := emit st "\tPOP\tH"
      if type_size ck trt = 1 then
        emit (emit st "\tMOV\tA,L") "\tSTAX\tD"
      else
        emit (emit (emit (emit st "\tXCHG") "\tMOV\tM,E") "\tINX\tH") "\tMOV\tM,D"
    | .mk trt (.fieldAccess record fieldName) =>
      let st := emit st "\tPUSH\tH"
      let st := gen_field_address ck fuel record fieldName st
      let st := emit st "\tXCHG"
      let st := emit st "\tPOP\tH"
      if type_size ck trt = 1 then
        emit (emit st "\tMOV\tA,L") "\tSTAX\tD"
      else
        emit (emit (emit (emit st "\tXCHG") "\tMOV\tM,E") "\tINX\tH") "\tMOV\tM,D"
    | .mk trt (.dereference pointer) =>
      let st := emit st "\tPUSH\tH"
      let st := gen_expr ck fuel pointer "HL" st
      let st := emit st "\tXCHG"
      let st := emit st "\tPOP\tH"
      if type_size ck trt = 1 then
        emit (emit st "\tMOV\tA,L") "\tSTAX\tD"
      else
        emit (emit (emit (emit st "\tXCHG") "\tMOV\tM,E") "\tINX\tH") "\tMOV\tM,D"
    | _ => st

/-- `gen_multi_assignment(stmt)`. -/
def gen_multi_assignment : Nat → List Expr → Expr → CodeGenerator → CodeGenerator
  | 0, _, _, st => st
  | fuel + 1, targets, value, st =>
    let st := gen_expr ck fuel value "HL" st
    (targets.foldl (fun (acc : CodeGenerator × Bool) target =>
      let st := acc.1
      let st := if acc.2 then emit st "\tPOP\tH" else st
      let st :=
        match target with
        | .mk _ (.identifier name) =>
          let var := dictGet name st.vars
          let mangled := mangle_name name
          match var with
          | some v =>
            if v.size = 1 then
              emit (emit st "\tMOV\tA,L") ("\tSTA\t" ++ mangled)
            else emit st ("\tSHLD\t" ++ mangled)
          | none => emit st ("\tSHLD\t" ++ mangled)
        | _ => st
      (st, true)) (st, false)).1

/-- `gen_if(stmt)`. -/
def gen_if : Nat → Expr → List Stmt → List (Expr × List Stmt) → List Stmt →
    CodeGenerator → CodeGenerator
  | 0, _, _, _, _, st => st
  | fuel + 1, condition, thenBody, elseifs, elseBody, st =>
    let (else_label, st) := new_label "ELSE" st
    let (end_label, st) := new_label "ENDIF" st
    let st := gen_expr ck fuel condition "A" st
    let st := emit st "\tORA\tA"
    let hasMore := !elseifs.isEmpty || !elseBody.isEmpty
    let st :=
      if hasMore then emit st ("\tJZ\t" ++ else_label)
      else emit st ("\tJZ\t" ++ end_label)
    let st := gen_stmts fuel thenBody st
    let st := if hasMore then emit st ("\tJMP\t" ++ end_label) else st
    let (else_label, st) :=
      gen_elseifs fuel elseifs (!elseBody.isEmpty) else_label end_label st
    let st :=
      if !elseBody.isEmpty then
        let st := emit_label st else_label
        gen_stmts fuel elseBody st
      else st
    emit_label st end_label

/-- The `for i, (cond, body) in enumerate(stmt.elseifs)` loop of `gen_if`;
returns the final value of the shifting `else_label`. -/
def gen_elseifs : Nat → List (Expr × List Stmt) → Bool → String → String →
    CodeGenerator → String × CodeGenerator
  | 0, _, _, else_label, _, st => (else_label, st)
  | _fuel + 1, [], _, else_label, _, st => (else_label, st)
  | fuel + 1, (cond, body) :: rest, hasElseBody, else_label, end_label, st =>
    let st := emit_label st else_label
    let (next_label, st) :=
      if !rest.isEmpty || hasElseBody then new_label "ELIF" st
      else (end_label, st)
    let st := gen_expr ck fuel cond "A" st
    let st := emit st "\tORA\tA"
    let st := emit st ("\tJZ\t" ++ next_label)
    let st := gen_stmts fuel body st
    let st := emit st ("\tJMP\t" ++ end_label)
    gen_elseifs fuel rest hasElseBody next_label end_label st

/-- `gen_while(stmt)`. -/
def gen_while : Nat → Expr → List Stmt → CodeGenerator → CodeGenerator
  | 0, _, _, st => st
  | fuel + 1, condition, body, st =>
    let (loop_label, st) := new_label "WHILE" st
    let (end_label, st) := new_label "ENDW" st
    let st := { st with break_labels := st.break_labels ++ [end_label],
                        continue_labels := st.continue_labels ++ [loop_label] }
    let st := emit_label st loop_label
    let st := gen_expr ck fuel condition "A" st
    let st := emit st "\tORA\tA"
    let st := emit st ("\tJZ\t" ++ end_label)
    let st := gen_stmts fuel body st
    let st := emit st ("\tJMP\t" ++ loop_label)
    let st := emit_label st end_label
    { st with break_labels := st.break_labels.dropLast,
              continue_labels := st.continue_labels.dropLast }

/-- `gen_loop(stmt)`. -/
def gen_loop : Nat → List Stmt → CodeGenerator → CodeGenerator
  | 0, _, st => st
  | fuel + 1, body, st =>
    let (loop_label, st) := new_label "LOOP" st
    let (end_label, st) := new_label "ENDL" st
    let st := { st with break_labels := st.break_labels ++ [end_label],
                        continue_labels := st.continue_labels ++ [loop_label] }
    let st := emit_label st loop_label
    let st := gen_stmts fuel body st
    let st := emit st ("\tJMP\t" ++ loop_label)
    let st := emit_label st end_label
    { st with break_labels := st.break_labels.dropLast,
              continue_labels := st.continue_labels.dropLast }

/-- `gen_case(stmt)`. -/
def gen_case : Nat → Expr → List (List Expr × List Stmt) → List Stmt →
    CodeGenerator → CodeGenerator
  | 0, _, _, _, st => st
  | fuel + 1, scrutinee, whens, elseBody, st =>
    let (end_label, st) := new_label "ENDC" st
    let st := gen_expr ck fuel scrutinee "HL" st
    let st := emit st "\tPUSH\tH"
    let st := gen_whens fuel whens end_label st
    let st := emit st "\tPOP\tH"
    let st := if !elseBody.isEmpty then gen_stmts fuel elseBody st else st
    emit_label st end_label

/-- The when-arm loop of `gen_case`. -/
def gen_whens : Nat → List (List Expr × List Stmt) → String →
    CodeGenerator → CodeGenerator
  | 0, _, _, st => st
  | _fuel + 1, [], _, st => st
  | fuel + 1, (values, body) :: rest, end_label, st =>
    let (next_when, st) := new_label "WHEN" st
    let st := values.foldl (fun s v =>
      let s := emit s "\tPOP\tH"
      let s := emit s "\tPUSH\tH"
      let s := gen_expr ck fuel v "HL" s
      let s := emit s "\tXCHG"
      let s := emit s "\tPOP\tH"
      let s := emit s "\tPUSH\tH"
      let s := emit s "\tMOV\tA,H"
      let s := emit s "\tCMP\tD"
      let s := emit s ("\tJNZ\t" ++ next_when)
      let s := emit s "\tMOV\tA,L"
      let s := emit s "\tCMP\tE"
      emit s ("\tJNZ\t" ++ next_when)) st
    let st := emit st "\tPOP\tH"
    let st := gen_stmts fuel body st
    let st := emit st ("\tJMP\t" ++ end_label)
    let st := emit_label st next_when
    gen_whens fuel rest end_label st

/-- `gen_sub(decl)`. -/
def gen_sub : Nat → SubDecl → CodeGenerator → CodeGenerator
  | 0, _, st => st
  | fuel + 1, decl, st =>
    match decl.body with
    | none => st
    | some body =>
      let st := { st with current_sub := some decl.name }
      let pr : List (String × CowType) × List (String × CowType) :=
        match dictGet decl.name ck.subroutines with
        | some info => (info.params, info.returns)
        | none =>
          (decl.params.map (fun p => (p.1, ck.resolve_type p.2)),
           decl.returns.map (fun r => (r.1, ck.resolve_type r.2)))
      let params := pr.1
      let returns := pr.2
      let st := emit st ""
      let st := emit st ("; Subroutine " ++ decl.name)
      let st := extern_block st decl.extern_name
      let st := emit_label st (mangle_sub_name decl.name)
      let st := params.foldl (fun s p => (allocate_var ck p.1 p.2 s).2) st
      let st := returns.foldl (fun s r => (allocate_var ck r.1 r.2 s).2) st
      let st := sub_prologue params st
      let st := gen_stmts fuel body st
      let st := sub_epilogue returns st
      let st := emit st "\tRET"
      let st :=
        if st.nested_subs.isEmpty then st
        else
          let nested := st.nested_subs
          let st := { st with nested_subs := [] }
          nested.foldl (fun s n => gen_sub fuel n s) st
      { st with current_sub := none }

end

/-- `gen_program(program)`. -/
def gen_program (fuel : Nat) (program : Program) (st : CodeGenerator) :
    CodeGenerator :=
  let st := emit st "; Generated by ucow"
  let st := emit st ""
  let st := emit st "\t.8080"
  let st := emit st ""
  let st := emit st "\tCSEG"
  let st := emit st ""
  let st := emit st "\tJMP\t_main"
  let st := emit st ""
  let st := emit st "\tINCLUDE\t\x27runtime.mac\x27"
  let st := emit st ""
  let st := program.statements.foldl (fun s stm =>
    match stm with
    | .varDecl name _ _ _ =>
      match ck.lookup_var name with
      | some t => (allocate_var ck name t s).2
      | none => s
    | _ => s) st
  let st := program.declarations.foldl (fun s d =>
    match d with
    | .sub decl => gen_sub ck fuel decl s
    | .otherDecl => s) st
  let st := emit st ""
  let st := emit st "; Main program"
  let st := emit_label st "_main"
  let st := gen_stmts ck fuel program.statements st
  let st := emit st "\tJMP\t0"
  let st := emit st ""
  let st := emit st "; Data segment"
  let st := emit_label st "_data"
  let vs := st.vars
  let st := vs.foldl (fun s nv => emit s (ds_line nv)) st
  let sl := st.string_literals
  let st := sl.foldl (fun s vl => emit s (db_line vl)) st
  let st := emit st ""
  emit st "\tEND"

/-- The module-level `generate(program, checker)`: run `gen_program` on a
fresh generator and join the output lines. -/
def generate (fuel : Nat) (program : Program) : String :=
  String.intercalate "\n" (gen_program ck fuel program {}).output

end StmtGen

end UCow

namespace UCow

/-! ## Distinct-key predicate for the two dictionaries -/

def distinctKeys {α : Type} (m : List (String × α)) : Prop :=
  (m.map Prod.fst).Nodup

/-! ## Syntactic side conditions

`stmt_ok` collects, over every statement reachable by the lowering
(including nested and locally declared subroutines), the conditions under
which the statement layer can be proved never to emit the line `_main:` or
the line `\tEND`: no subroutine (or extern alias) is named `_main`, and no
inline-assembly statement renders exactly the `END` directive line.  The
spec reserves `_main` (section 6, "Naming collisions"), so these conditions
delimit exactly the input domain the spec describes. -/

mutual

def stmt_ok (ck : TypeChecker) : Stmt → Bool
  | .varDecl _ _ _ _ => true
  | .constDecl => true
  | .assignment _ _ => true
  | .multiAssignment _ _ => true
  | .ifStmt _ thenBody elseifs elseBody =>
    stmts_ok ck thenBody && elseifs_ok ck elseifs && stmts_ok ck elseBody
  | .whileStmt _ body => stmts_ok ck body
  | .loopStmt body => stmts_ok ck body
  | .breakStmt => true
  | .continueStmt => true
  | .returnStmt => true
  | .caseStmt _ whens elseBody => whens_ok ck whens && stmts_ok ck elseBody
  | .exprStmt _ => true
  | .asmStmt parts => render_asm ck parts != "\tEND"
  | .nestedSubStmt sub => sub_ok ck sub
  | .subDeclStmt sub => sub_ok ck sub
  | .recordDecl => true
  | .typedefDecl => true
  | .otherStmt => true

def stmts_ok (ck : TypeChecker) : List Stmt → Bool
  | [] => true
  | s :: rest => stmt_ok ck s && stmts_ok ck rest

def elseifs_ok (ck : TypeChecker) : List (Expr × List Stmt) → Bool
  | [] => true
  | (_, body) :: rest => stmts_ok ck body && elseifs_ok ck rest

def whens_ok (ck : TypeChecker) : List (List Expr × List Stmt) → Bool
  | [] => true
  | (_, body) :: rest => stmts_ok ck body && whens_ok ck rest

def sub_ok (ck : TypeChecker) : SubDecl → Bool
  | .mk name _ _ body extern_name =>
    name != "_main" && extern_name != some "_main" &&
    (match body with
     | none => true
     | some stmts => stmts_ok ck stmts)

end

def prog_ok (ck : TypeChecker) (p : Program) : Bool :=
  p.declarations.all (fun d => match d with
    | .sub s => sub_ok ck s
    | .otherDecl => true) &&
  stmts_ok ck p.statements

/-! `stmt_allocfree ck v` collects the condition under which the run of the
statement layer never calls `allocate_var` with name `v` while `v` is already
allocated: no reachable subroutine's chosen parameter or return list (the
checker signature when present, else the declared one) mentions `v`.
(`gen_var_decl` itself allocates only names that are still absent.) -/

/-- The parameter/return lists `gen_sub` actually uses for a declaration. -/
def sub_sig (ck : TypeChecker) (decl : SubDecl) :
    List (String × CowType) × List (String × CowType) :=
  match dictGet decl.name ck.subroutines with
  | some info => (info.params, info.returns)
  | none =>
    (decl.params.map (fun p => (p.1, ck.resolve_type p.2)),
     decl.returns.map (fun r => (r.1, ck.resolve_type r.2)))

mutual

def stmt_allocfree (ck : TypeChecker) (v : String) : Stmt → Bool
  | .varDecl _ _ _ _ => true
  | .constDecl => true
  | .assignment _ _ => true
  | .multiAssignment _ _ => true
  | .ifStmt _ thenBody elseifs elseBody =>
    stmts_allocfree ck v thenBody && elseifs_allocfree ck v elseifs &&
      stmts_allocfree ck v elseBody
  | .whileStmt _ body => stmts_allocfree ck v body
  | .loopStmt body => stmts_allocfree ck v body
  | .breakStmt => true
  | .continueStmt => true
  | .returnStmt => true
  | .caseStmt _ whens elseBody =>
    whens_allocfree ck v whens && stmts_allocfree ck v elseBody
  | .exprStmt _ => true
  | .asmStmt _ => true
  | .nestedSubStmt sub => sub_allocfree ck v sub
  | .subDeclStmt sub => sub_allocfree ck v sub
  | .recordDecl => true
  | .typedefDecl => true
  | .otherStmt => true

def stmts_allocfree (ck : TypeChecker) (v : String) : List Stmt → Bool
  | [] => true
  | s :: rest => stmt_allocfree ck v s && stmts_allocfree ck v rest

def elseifs_allocfree (ck : TypeChecker) (v : String) :
    List (Expr × List Stmt) → Bool
  | [] => true
  | (_, body) :: rest =>
    stmts_allocfree ck v body && elseifs_allocfree ck v rest

def whens_allocfree (ck : TypeChecker) (v : String) :
    List (List Expr × List Stmt) → Bool
  | [] => true
  | (_, body) :: rest =>
    stmts_allocfree ck v body && whens_allocfree ck v rest

def sub_allocfree (ck : TypeChecker) (v : String) : SubDecl → Bool
  | .mk name params returns body extern_name =>
    ((sub_sig ck (.mk name params returns body extern_name)).1.map Prod.fst).all
      (· ≠ v) &&
    ((sub_sig ck (.mk name params returns body extern_name)).2.map Prod.fst).all
      (· ≠ v) &&
    (match body with
     | none => true
     | some stmts => stmts_allocfree ck v stmts)

end

def prog_allocfree (ck : TypeChecker) (v : String) (p : Program) : Bool :=
  p.declarations.all (fun d => match d with
    | .sub s => sub_allocfree ck v s
    | .otherDecl => true) &&
  p.statements.all (stmt_allocfree ck v)

/-! ## Relations used by the run inductions -/

/-- A line the statement layer is never allowed to fabricate. -/
def mainEndFree (l : String) : Prop := l ≠ "_main:" ∧ l ≠ "\tEND"

/-- Weak evolution: output only grows, the label counter never decreases,
and distinctness of the string-pool keys and of the variable-table keys is
preserved (both dictionaries are only ever written through `dictInsert`). -/
def WExt (st st' : CodeGenerator) : Prop :=
  (∃ added, st'.output = st.output ++ added) ∧
  st.label_counter ≤ st'.label_counter ∧
  (distinctKeys st.string_literals → distinctKeys st'.string_literals) ∧
  (distinctKeys st.vars → distinctKeys st'.vars)

/-- Output grows only by lines that are neither `_main:` nor `\tEND`. -/
def SafeAdded (st st' : CodeGenerator) : Prop :=
  ∃ added, st'.output = st.output ++ added ∧ ∀ l ∈ added, mainEndFree l

/-- Expression evolution: everything the expression layer guarantees.
Expressions only append (safe) output, intern strings, and bump the label
counter; they never touch the variable table, the nested-subroutine queue,
the loop-label stacks, the current subroutine, or the data offset. -/
def ExprExt (st st' : CodeGenerator) : Prop :=
  SafeAdded st st' ∧
  st.label_counter ≤ st'.label_counter ∧
  st'.vars = st.vars ∧
  st'.nested_subs = st.nested_subs ∧
  st'.break_labels = st.break_labels ∧
  st'.continue_labels = st.continue_labels ∧
  st'.current_sub = st.current_sub ∧
  st'.data_offset = st.data_offset ∧
  (distinctKeys st.string_literals → distinctKeys st'.string_literals)

/-- All queued nested subroutines satisfy `sub_ok`. -/
def QOK (ck : TypeChecker) (st : CodeGenerator) : Prop :=
  ∀ s ∈ st.nested_subs, sub_ok ck s = true

/-- All queued nested subroutines satisfy `sub_allocfree`. -/
def QAF (ck : TypeChecker) (v : String) (st : CodeGenerator) : Prop :=
  ∀ s ∈ st.nested_subs, sub_allocfree ck v s = true

/-- Conditional safe evolution: provided every queued nested subroutine is
`sub_ok`, the step only appends lines that are neither `_main:` nor `END`,
and the queue invariant is maintained. -/
def SOK (ck : TypeChecker) (st st' : CodeGenerator) : Prop :=
  QOK ck st → SafeAdded st st' ∧ QOK ck st'

/-! Reflexivity/transitivity/extension combinators for the four evolution
relations, as definitions so the proofs below can chain them with dot
notation. -/

def SafeAdded.self (st : CodeGenerator) : SafeAdded st st :=
  ⟨[], by simp, by simp⟩

def SafeAdded.trans {a b c : CodeGenerator} (h1 : SafeAdded a b)
    (h2 : SafeAdded b c) : SafeAdded a c := by
  obtain ⟨l1, e1, s1⟩ := h1
  obtain ⟨l2, e2, s2⟩ := h2
  refine ⟨l1 ++ l2, by rw [e2, e1, List.append_assoc], ?_⟩
  intro l hl
  rcases List.mem_append.mp hl with h | h
  · exact s1 l h
  · exact s2 l h

def ExprExt.self (st : CodeGenerator) : ExprExt st st :=
  ⟨SafeAdded.self st, le_rfl, Eq.refl _, Eq.refl _, Eq.refl _, Eq.refl _,
    Eq.refl _, Eq.refl _, id⟩

def ExprExt.trans {a b c : CodeGenerator} (h1 : ExprExt a b)
    (h2 : ExprExt b c) : ExprExt a c := by
  obtain ⟨s1, m1, v1, n1, b1, c1, u1, d1, p1⟩ := h1
  obtain ⟨s2, m2, v2, n2, b2, c2, u2, d2, p2⟩ := h2
  exact ⟨s1.trans s2, le_trans m1 m2, v2.trans v1, n2.trans n1, b2.trans b1,
    c2.trans c1, u2.trans u1, d2.trans d1, fun h => p2 (p1 h)⟩

def WExt.self (st : CodeGenerator) : WExt st st :=
  ⟨⟨[], by simp⟩, le_rfl, id, id⟩

def WExt.trans {a b c : CodeGenerator} (h1 : WExt a b) (h2 : WExt b c) :
    WExt a c := by
  obtain ⟨⟨l1, e1⟩, m1, p1, v1⟩ := h1
  obtain ⟨⟨l2, e2⟩, m2, p2, v2⟩ := h2
  exact ⟨⟨l1 ++ l2, by rw [e2, e1, List.append_assoc]⟩, le_trans m1 m2,
    fun h => p2 (p1 h), fun h => v2 (v1 h)⟩

/-- Chain form: extend a `WExt` evolution by one more emitted line. -/
def WExt.push {st st' : CodeGenerator} (h : WExt st st') (l : String) :
    WExt st (UCow.emit st' l) :=
  h.trans ⟨⟨[l], Eq.refl _⟩, le_rfl, id, id⟩

def SOK.self (ck : TypeChecker) (st : CodeGenerator) : SOK ck st st :=
  fun q => ⟨SafeAdded.self st, q⟩

def SOK.trans {ck : TypeChecker} {a b c : CodeGenerator}
    (h1 : SOK ck a b) (h2 : SOK ck b c) : SOK ck a c := fun q =>
  have x := h1 q
  have y := h2 x.2
  ⟨x.1.trans y.1, y.2⟩

def SOK.push {ck : TypeChecker} {st st' : CodeGenerator}
    (h : SOK ck st st') {l : String} (hl : mainEndFree l) :
    SOK ck st (UCow.emit st' l) :=
  h.trans (fun q => ⟨⟨[l], Eq.refl _, by simpa using hl⟩, q⟩)

/-! ## The data-segment factorization of `gen_program`

`gen_program` is literally `prog_tail` applied to `prog_mid`: `prog_mid` is
the state after the `_data:` label, `prog_tail` the two data folds and the
final `END`. -/

def prog_mid (ck : TypeChecker) (fuel : Nat) (program : Program)
    (st : CodeGenerator) : CodeGenerator :=
  let st := emit st "; Generated by ucow"
  let st := emit st ""
  let st := emit st "\t.8080"
  let st := emit st ""
  let st := emit st "\tCSEG"
  let st := emit st ""
  let st := emit st "\tJMP\t_main"
  let st := emit st ""
  let st := emit st "\tINCLUDE\t\x27runtime.mac\x27"
  let st := emit st ""
  let st := program.statements.foldl (fun s stm =>
    match stm with
    | .varDecl name _ _ _ =>
      match ck.lookup_var name with
      | some t => (allocate_var ck name t s).2
      | none => s
    | _ => s) st
  let st := program.declarations.foldl (fun s d =>
    match d with
    | .sub decl => gen_sub ck fuel decl s
    | .otherDecl => s) st
  let st := emit st ""
  let st := emit st "; Main program"
  let st := emit_label st "_main"
  let st := gen_stmts ck fuel program.statements st
  let st := emit st "\tJMP\t0"
  let st := emit st ""
  let st := emit st "; Data segment"
  emit_label st "_data"

def prog_tail (st : CodeGenerator) : CodeGenerator :=
  let vs := st.vars
  let st := vs.foldl (fun s nv => emit s (ds_line nv)) st
  let sl := st.string_literals
  let st := sl.foldl (fun s vl => emit s (db_line vl)) st
  let st := emit st ""
  emit st "\tEND"

/-- Everything `gen_program` does after the ten fixed header lines:
the pre-pass allocation of top-level variables, the subroutine fold, the
`_main:` block, and the `_data:` label. `prog_mid` is literally this
applied to the header-emitting prefix. -/
def prog_body (ck : TypeChecker) (fuel : Nat) (program : Program)
    (st : CodeGenerator) : CodeGenerator :=
  let st := program.statements.foldl (fun s stm =>
    match stm with
    | .varDecl name _ _ _ =>
      match ck.lookup_var name with
      | some t => (allocate_var ck name t s).2
      | none => s
    | _ => s) st
  let st := program.declarations.foldl (fun s d =>
    match d with
    | .sub decl => gen_sub ck fuel decl s
    | .otherDecl => s) st
  let st := emit st ""
  let st := emit st "; Main program"
  let st := emit_label st "_main"
  let st := gen_stmts ck fuel program.statements st
  let st := emit st "\tJMP\t0"
  let st := emit st ""
  let st := emit st "; Data segment"
  emit_label st "_data"

/-- The part of `prog_body` before the `_main:` label. -/
def prog_pre (ck : TypeChecker) (fuel : Nat) (program : Program)
    (st : CodeGenerator) : CodeGenerator :=
  let st := program.statements.foldl (fun s stm =>
    match stm with
    | .varDecl name _ _ _ =>
      match ck.lookup_var name with
      | some t => (allocate_var ck name t s).2
      | none => s
    | _ => s) st
  let st := program.declarations.foldl (fun s d =>
    match d with
    | .sub decl => gen_sub ck fuel decl s
    | .otherDecl => s) st
  let st := emit st ""
  emit st "; Main program"

/-- The part of `prog_body` after the `_main:` label. -/
def prog_post (ck : TypeChecker) (fuel : Nat) (program : Program)
    (st : CodeGenerator) : CodeGenerator :=
  let st := gen_stmts ck fuel program.statements st
  let st := emit st "\tJMP\t0"
  let st := emit st ""
  let st := emit st "; Data segment"
  emit_label st "_data"

/-- The ten fixed header lines of every generated program. -/
def headerLines : List String :=
  ["; Generated by ucow", "", "\t.8080", "", "\tCSEG", "",
   "\tJMP\t_main", "", "\tINCLUDE\t\x27runtime.mac\x27", ""]

/-! ## A word-granular 8080 machine for the call-cleanup claim

Just enough of the CPU to run the caller-cleanup sequences `gen_call`
emits: the stack pointer, `HL`, `DE` and a word-addressed memory.  `PUSH`
stores a word two below `SP`; `POP` loads the word at `SP`; `DAD SP` adds
`SP` into `HL` modulo 2^16; `SPHL` copies `HL` to `SP`; `LXI H,n` loads an
immediate.  Unrecognised lines leave the machine unchanged. -/

structure M8080 where
  sp : Int
  hl : Int
  de : Int
  mem : Int → Int

/-- Parse a run of decimal digit characters (kernel-evaluable). -/
def charsToNat (cs : List Char) : Nat :=
  cs.foldl (fun acc c => acc * 10 + (c.toNat - 48)) 0

def execLine (m : M8080) (l : String) : M8080 :=
  if l = "\tPUSH\tH" then
    { m with sp := m.sp - 2,
             mem := fun a => if a = m.sp - 2 then m.hl else m.mem a }
  else if l = "\tPOP\tH" then { m with hl := m.mem m.sp, sp := m.sp + 2 }
  else if l = "\tPOP\tD" then { m with de := m.mem m.sp, sp := m.sp + 2 }
  else if l = "\tDAD\tSP" then { m with hl := (m.hl + m.sp).emod 65536 }
  else if l = "\tSPHL" then { m with sp := m.hl }
  else if l.data.take 7 = "\tLXI\tH,".data then
    { m with hl := (charsToNat (l.data.drop 7) : Int) }
  else m

def execLines (ls : List String) (m : M8080) : M8080 := ls.foldl execLine m

/-! ## The push phase of `gen_call`, named

`gen_call` begins by folding exactly this function over `args.reverse`:
evaluate one argument into `HL`, then immediately `PUSH H`. -/

def push_args (ck : TypeChecker) (fuel : Nat) (args : List Expr)
    (st : CodeGenerator) : CodeGenerator :=
  args.foldl (fun s arg => emit (gen_expr ck fuel arg "HL" s) "\tPUSH\tH") st

/-- The operand shapes `&` supports (identifier, field access, array
access); claim C3 is about every other shape. -/
def addrofSupported : ExprNode → Prop
  | .identifier _ => True
  | .fieldAccess _ _ => True
  | .arrayAccess _ _ => True
  | _ => False

instance : DecidablePred addrofSupported := fun n =>
  match n with
  | .identifier _ => .isTrue trivial
  | .fieldAccess _ _ => .isTrue trivial
  | .arrayAccess _ _ => .isTrue trivial
  | .numberLiteral _ => .isFalse id
  | .stringLiteral _ => .isFalse id
  | .nilLiteral => .isFalse id
  | .binaryOp _ _ _ => .isFalse id
  | .unaryOp _ _ => .isFalse id
  | .comparison _ _ _ => .isFalse id
  | .logicalOp _ _ _ => .isFalse id
  | .notOp _ => .isFalse id
  | .castE _ => .isFalse id
  | .dereference _ => .isFalse id
  | .addressOf _ => .isFalse id
  | .call _ _ => .isFalse id
  | .sizeOfE _ => .isFalse id
  | .sizeOfT _ => .isFalse id
  | .bytesOfE _ => .isFalse id
  | .bytesOfT _ => .isFalse id
  | .nextE _ => .isFalse id
  | .prevE _ => .isFalse id
  | .arrayInitializer _ => .isFalse id
  | .otherExpr _ => .isFalse id

/-! ## Concrete fixtures for counterexamples and witnesses -/

def exU8 : CowType := .int "uint8" 1
def exU16 : CowType := .int "uint16" 2

/-- A small concrete checker: known subroutines `foo` (no signature data
needed at call sites), `f` (one `uint16` return), `g1`/`g2` (one parameter
each, named `x`, of sizes 1 and 2), a global `x : uint16`. -/
def exChecker : TypeChecker where
  type_size := fun t =>
    match t with
    | some (.int _ s) => s
    | some (.ptr _) => 2
    | some (.array n e) =>
      n * (match e with | .int _ s => s | _ => 2)
    | some (.record _) => 4
    | some (.intf _) => 2
    | none => 0
  constants := [("K", 7)]
  subroutines :=
    [("foo", ⟨[], []⟩),
     ("f", ⟨[], [("r", exU16)]⟩),
     ("g1", ⟨[("x", exU8)], []⟩),
     ("g2", ⟨[("x", exU16)], []⟩)]
  records := [("R", ⟨[⟨"a", 0⟩, ⟨"b", 2⟩]⟩)]
  resolve_type := fun _ => exU16
  lookup_var := fun n => if n = "x" then some exU16 else none

def exNum (v : Int) : Expr := .mk (some exU16) (.numberLiteral v)

/-- `foo(1, 2)` — the two-argument call of claim C1. -/
def exCall2 : Expr :=
  .mk (some exU16) (.call (.mk none (.identifier "foo")) [exNum 1, exNum 2])

/-- `foo(1, 2, 3)` — the three-argument call of claim C4. -/
def exCall3 : Expr :=
  .mk (some exU16) (.call (.mk none (.identifier "foo")) [exNum 1, exNum 2, exNum 3])

/-- A subroutine `f` with one declared (checker-known) return whose body is
a single bare `return` statement — the failing input of claim C2. -/
def exSubF : SubDecl := .mk "f" [] [] (some [.returnStmt]) none

/-- Subroutines `g1`/`g2`, both with a parameter named `x` (sizes 1 and 2),
with empty bodies — the shared-name scenario of claims C7 and C10. -/
def exSubG1 : SubDecl := .mk "g1" [] [] (some []) none

def exSubG2 : SubDecl := .mk "g2" [] [] (some []) none

/-- Program: `var x: uint16;` at top level plus subroutine `g1` whose
parameter is also named `x` (size 1) — the counterexample input of C7. -/
def exProgX : Program := ⟨[.sub exSubG1], [.varDecl "x" none (some exU16) none]⟩

/-- Program with two subroutines both using a parameter named `x` — the
concrete scenario of claim C10 (last allocation wins: size 2). -/
def exProgShared : Program := ⟨[.sub exSubG1, .sub exSubG2], []⟩

def exProgEmpty : Program := ⟨[], []⟩

/-- The post-`CALL` machine of claim C4: `SP = 1000` (the three argument
words live at 1000..1005, the caller's earlier stack starts at 1006),
`HL = 77` is the callee's return value, and memory holds `5000 + a` at
address `a` so that reads are traceable. -/
def exM : M8080 := ⟨1000, 77, 0, fun a => 5000 + a⟩

end UCow

namespace UCow

/-! # Groundwork lemmas -/

/-! ## Emission and dictionary basics -/

theorem emit_output (st : CodeGenerator) (l : String) :
    (emit st l).output = st.output ++ [l] := rfl

theorem str_data_append (s t : String) : (s ++ t).data = s.data ++ t.data := rfl

theorem foldl_emit_eq {α : Type} (f : α → String) (ls : List α)
    (st : CodeGenerator) :
    ls.foldl (fun s x => emit s (f x)) st =
      { st with output := st.output ++ ls.map f } := by
  induction ls generalizing st with
  | nil => simp
  | cons x rest ih =>
    simp only [List.foldl_cons, List.map_cons]
    rw [ih]
    simp [emit, List.append_assoc]

theorem dictGet_insert_self {α : Type} (k : String) (v : α)
    (m : List (String × α)) : dictGet k (dictInsert k v m) = some v := by
  induction m with
  | nil => simp [dictGet, dictInsert]
  | cons e rest ih =>
    by_cases h : e.1 = k <;> simp [dictGet, dictInsert, h, ih]

theorem dictGet_insert_ne {α : Type} {k k' : String} (v : α)
    (m : List (String × α)) (h : k' ≠ k) :
    dictGet k (dictInsert k' v m) = dictGet k m := by
  induction m with
  | nil => simp [dictGet, dictInsert, h]
  | cons e rest ih =>
    by_cases h2 : e.1 = k' <;> by_cases h3 : e.1 = k <;>
      simp_all [dictGet, dictInsert]

/-- Keys after a Python-dict insert: unchanged when the key was present,
appended otherwise. -/
theorem keys_dictInsert {α : Type} (k : String) (v : α)
    (m : List (String × α)) :
    (dictInsert k v m).map Prod.fst =
      if (dictGet k m).isSome then m.map Prod.fst else m.map Prod.fst ++ [k] := by
  induction m with
  | nil => simp [dictGet, dictInsert]
  | cons e rest ih =>
    by_cases h : e.1 = k <;> simp [dictGet, dictInsert, h, ih] <;>
      by_cases h2 : (dictGet k rest).isSome <;> simp [h2]

theorem distinctKeys_dictInsert {α : Type} (k : String) (v : α)
    {m : List (String × α)} (h : distinctKeys m) :
    distinctKeys (dictInsert k v m) := by
  unfold distinctKeys at *
  rw [keys_dictInsert]
  by_cases hc : (dictGet k m).isSome
  · simpa [hc] using h
  · have hk : k ∉ m.map Prod.fst := by
      intro hmem
      apply hc
      clear hc h
      induction m with
      | nil => simp at hmem
      | cons e rest ih =>
        rcases List.mem_cons.mp hmem with h1 | h2
        · simp [dictGet, h1.symm]
        · by_cases he : e.1 = k <;> simp [dictGet, he, ih h2]
    simp [hc, List.nodup_append, h, hk]

theorem dictGet_isSome_iff_mem_keys {α : Type} (k : String)
    (m : List (String × α)) :
    (dictGet k m).isSome ↔ k ∈ m.map Prod.fst := by
  induction m with
  | nil => simp [dictGet]
  | cons e rest ih =>
    by_cases h : e.1 = k
    · simp [dictGet, h]
    · have h' : ¬k = e.1 := fun hh => h hh.symm
      simp [dictGet, h, h', ih]

/-- Under distinct keys, a present key occurs exactly once. -/
theorem count_keys_of_distinct {α : Type} {m : List (String × α)} {k : String}
    (hd : distinctKeys m) (hs : (dictGet k m).isSome) :
    (m.map Prod.fst).count k = 1 := by
  have hm : k ∈ m.map Prod.fst := (dictGet_isSome_iff_mem_keys k m).mp hs
  have := List.count_eq_one_of_mem hd hm
  exact this

/-! ## Decimal rendering: relation to `Nat.digits` and injectivity -/

theorem natDigitsLE_eq_digits : ∀ f n, n ≤ f → natDigitsLE f n = Nat.digits 10 n := by
  intro f
  induction f with
  | zero =>
    intro n hn
    interval_cases n
    simp [natDigitsLE]
  | succ f ih =>
    intro n hn
    match n with
    | 0 => simp [natDigitsLE]
    | n + 1 =>
      have hdiv : (n + 1) / 10 ≤ f := by
        have := Nat.div_lt_self (Nat.succ_pos n) (by norm_num : 1 < 10)
        omega
      rw [show natDigitsLE (f + 1) (n + 1) =
            (n + 1) % 10 :: natDigitsLE f ((n + 1) / 10) from rfl,
          ih _ hdiv, Nat.digits_def' (by norm_num : 1 < 10) (Nat.succ_pos n)]

theorem digitChar_inj_lt : ∀ d1, d1 < 10 → ∀ d2, d2 < 10 →
    digitChar d1 = digitChar d2 → d1 = d2 := by decide

theorem digitChar_isDigit : ∀ d, d < 10 → (digitChar d).isDigit = true := by decide

theorem natRepr_data_zero : (natRepr 0).data = ['0'] := rfl

theorem natRepr_data_pos {n : Nat} (h : n ≠ 0) :
    (natRepr n).data = ((Nat.digits 10 n).map digitChar).reverse := by
  unfold natRepr
  rw [if_neg h, natDigitsLE_eq_digits n n le_rfl]

theorem natRepr_chars_digit (n : Nat) : ∀ c ∈ (natRepr n).data, c.isDigit = true := by
  intro c hc
  by_cases h : n = 0
  · subst h; simp [natRepr_data_zero] at hc; subst hc; decide
  · rw [natRepr_data_pos h] at hc
    rw [List.mem_reverse, List.mem_map] at hc
    obtain ⟨d, hd, rfl⟩ := hc
    exact digitChar_isDigit d (Nat.digits_lt_base (by norm_num) hd)

theorem natRepr_data_ne_nil (n : Nat) : (natRepr n).data ≠ [] := by
  by_cases h : n = 0
  · subst h; simp [natRepr_data_zero]
  · rw [natRepr_data_pos h]
    simp [Nat.digits_ne_nil_iff_ne_zero.mpr h]

theorem map_digitChar_inj : ∀ (l1 l2 : List Nat), (∀ d ∈ l1, d < 10) →
    (∀ d ∈ l2, d < 10) → l1.map digitChar = l2.map digitChar → l1 = l2 := by
  intro l1
  induction l1 with
  | nil => intro l2 _ _ h; cases l2 <;> simp_all
  | cons d1 t1 ih =>
    intro l2 h1 h2 h
    cases l2 with
    | nil => simp_all
    | cons d2 t2 =>
      simp only [List.map_cons, List.cons.injEq] at h
      have hd := digitChar_inj_lt d1 (h1 d1 (by simp)) d2 (h2 d2 (by simp)) h.1
      have ht := ih t2 (fun d hd => h1 d (by simp [hd]))
        (fun d hd => h2 d (by simp [hd])) h.2
      simp [hd, ht]

theorem digitChar_toNat : ∀ d, d < 10 → (digitChar d).toNat = 48 + d := by decide

theorem map_val_digitChar : ∀ l : List Nat, (∀ d ∈ l, d < 10) →
    l.map (fun d => (digitChar d).toNat - 48) = l := by
  intro l
  induction l with
  | nil => simp
  | cons d t ih =>
    intro h
    simp only [List.map_cons, List.cons.injEq]
    constructor
    · rw [digitChar_toNat d (h d (by simp))]; omega
    · exact ih (fun x hx => h x (by simp [hx]))

/-- Reading the decimal string back: `natRepr` is a section of digit
re-assembly, hence injective. -/
theorem charsVal_natRepr (n : Nat) :
    Nat.ofDigits 10 ((natRepr n).data.reverse.map (fun c => c.toNat - 48)) = n := by
  by_cases h : n = 0
  · subst h
    rw [natRepr_data_zero]
    simp [Nat.ofDigits]
  · rw [natRepr_data_pos h, List.reverse_reverse, List.map_map]
    have heq : (Nat.digits 10 n).map ((fun c => c.toNat - 48) ∘ digitChar) =
        Nat.digits 10 n :=
      map_val_digitChar _ (fun d hd => Nat.digits_lt_base (by norm_num) hd)
    rw [heq, Nat.ofDigits_digits]

theorem natRepr_inj {m n : Nat} (h : natRepr m = natRepr n) : m = n := by
  have h1 := charsVal_natRepr m
  have h2 := charsVal_natRepr n
  rw [h] at h1
  exact h1.symm.trans h2

/-! ## Splitting a label at the prefix/counter boundary -/

theorem append_nondigit_digit_inj :
    ∀ (l1 m1 l2 m2 : List Char), l1 ++ m1 = l2 ++ m2 →
    (∀ c ∈ l1, c.isDigit = false) → (∀ c ∈ l2, c.isDigit = false) →
    (∀ c ∈ m1, c.isDigit = true) → (∀ c ∈ m2, c.isDigit = true) →
    m1 ≠ [] → m2 ≠ [] → l1 = l2 ∧ m1 = m2 := by
  intro l1
  induction l1 with
  | nil =>
    intro m1 l2 m2 heq _ h2 h3 _ hm1 _
    cases l2 with
    | nil => simp_all
    | cons c t =>
      exfalso
      cases m1 with
      | nil => exact hm1 rfl
      | cons c1 t1 =>
        simp only [List.nil_append, List.cons_append, List.cons.injEq] at heq
        have hd : c1.isDigit = true := h3 c1 (by simp)
        have hnd : c.isDigit = false := h2 c (by simp)
        rw [heq.1] at hd
        rw [hd] at hnd
        exact Bool.true_eq_false.mp hnd
  | cons c t ih =>
    intro m1 l2 m2 heq h1 h2 h3 h4 hm1 hm2
    cases l2 with
    | nil =>
      exfalso
      cases m2 with
      | nil => exact hm2 rfl
      | cons c2 t2 =>
        simp only [List.cons_append, List.nil_append, List.cons.injEq] at heq
        have hd : c2.isDigit = true := h4 c2 (by simp)
        have hnd : c.isDigit = false := h1 c (by simp)
        rw [← heq.1] at hd
        rw [hd] at hnd
        exact Bool.true_eq_false.mp hnd
    | cons c2 t2 =>
      simp only [List.cons_append, List.cons.injEq] at heq
      have := ih m1 t2 m2 heq.2 (fun x hx => h1 x (by simp [hx]))
        (fun x hx => h2 x (by simp [hx])) h3 h4 hm1 hm2
      simp [heq.1, this.1, this.2]

/-- Two labels built from digit-free prefixes and distinct counters are
distinct, whatever the prefixes. -/
theorem label_name_inj {p1 p2 : String} {n1 n2 : Nat}
    (h1 : ∀ c ∈ p1.data, c.isDigit = false)
    (h2 : ∀ c ∈ p2.data, c.isDigit = false) (hne : n1 ≠ n2) :
    p1 ++ natRepr n1 ≠ p2 ++ natRepr n2 := by
  intro he
  have hdata : p1.data ++ (natRepr n1).data = p2.data ++ (natRepr n2).data := by
    rw [← str_data_append, ← str_data_append, he]
  have := append_nondigit_digit_inj _ _ _ _ hdata h1 h2
    (natRepr_chars_digit n1) (natRepr_chars_digit n2)
    (natRepr_data_ne_nil n1) (natRepr_data_ne_nil n2)
  apply hne
  apply natRepr_inj
  have h := this.2
  cases hr1 : natRepr n1
  cases hr2 : natRepr n2
  rw [hr1, hr2] at h
  simp_all

end UCow

namespace UCow

/-! # Claim theorems -/

/-- C9: a `break` statement lowered while the break-label stack is empty, and
a `continue` statement lowered while the continue-label stack is empty, emit
no instruction and raise no error: `gen_stmt` returns the state unchanged. -/
theorem c9_break_continue_silent_outside_loop :
    ∀ (ck : TypeChecker) (fuel : Nat) (st : CodeGenerator),
      (st.break_labels = [] → gen_stmt ck fuel Stmt.breakStmt st = st) ∧
      (st.continue_labels = [] → gen_stmt ck fuel Stmt.continueStmt st = st) := by
  intro ck fuel st
  constructor
  · intro h
    cases fuel with
    | zero => rfl
    | succ f => simp [gen_stmt, h]
  · intro h
    cases fuel with
    | zero => rfl
    | succ f => simp [gen_stmt, h]

/-- Witness for C9 at the fresh generator state (both stacks empty). -/
theorem c9_witness :
    gen_stmt exChecker 5 Stmt.breakStmt {} = {} ∧
      gen_stmt exChecker 5 Stmt.continueStmt {} = {} :=
  ⟨(c9_break_continue_silent_outside_loop exChecker 5 {}).1 rfl,
   (c9_break_continue_silent_outside_loop exChecker 5 {}).2 rfl⟩

/-- C3 (counterexample): applying `&` to the number literal `5` — neither an
identifier, a field access, nor an array access — does NOT fail with an
`UnsupportedAddressOf` error: the generator continues silently, emitting
nothing and leaving the state untouched (the implementation has no failure
channel at all). -/
theorem c3_counterexample :
    gen_expr exChecker 8 (.mk none (.addressOf (exNum 5))) "HL" {} = {} ∧
    (gen_expr exChecker 8 (.mk none (.addressOf (exNum 5))) "HL" {}).output = [] := by
  constructor <;> simp [gen_expr, exNum]

set_option maxRecDepth 4000 in
/-- C3 (amended): for every operand shape other than identifier, field
access or array access, `&` is lowered to nothing at all — no instructions,
no state change, and no error. -/
theorem c3_amended_silent_addressof :
    ∀ (ck : TypeChecker) (fuel : Nat) (rt : Option CowType) (operand : Expr)
      (target : String) (st : CodeGenerator),
      ¬addrofSupported operand.node →
      gen_expr ck fuel (.mk rt (.addressOf operand)) target st = st := by
  intro ck fuel rt operand target st h
  cases fuel with
  | zero => rfl
  | succ f =>
    obtain ⟨ort, onode⟩ := operand
    cases onode
    case identifier name => exact absurd trivial h
    case fieldAccess r fn => exact absurd trivial h
    case arrayAccess a i => exact absurd trivial h
    all_goals simp [gen_expr]

/-- Witness for C3's amended theorem at the concrete operand `5`. -/
theorem c3_witness :
    ¬addrofSupported (Expr.node (exNum 5)) ∧
      gen_expr exChecker 8 (.mk none (.addressOf (exNum 5))) "HL" {} = {} :=
  ⟨by decide,
   c3_amended_silent_addressof exChecker 8 none (exNum 5) "HL" {} (by decide)⟩

/-- C2 (code bug): a `return` statement always lowers to the single
instruction `RET`, regardless of the enclosing subroutine's declared
returns; the load of the first return slot into `HL` happens only in the
epilogue `gen_sub` plants after the body.  Concretely, for subroutine `f`
with one declared 2-byte return and body `return`, the emitted code is
`f: RET; LHLD v_r; RET` — the reachable first `RET` returns without loading
the return slot, so the caller (which expects the value in `HL` per
`gen_call`) receives garbage. -/
theorem c2_return_ignores_declared_returns :
    (∀ (ck : TypeChecker) (fuel : Nat) (st : CodeGenerator),
      gen_stmt ck (fuel + 1) Stmt.returnStmt st = emit st "\tRET") ∧
    (gen_sub exChecker 8 exSubF {}).output =
      ["", "; Subroutine f", "f:", "\tRET", "\tLHLD\tv_r", "\tRET"] := by
  constructor
  · intro ck fuel st
    simp [gen_stmt]
  · decide

/-- C4 (code bug): for the three-argument call `foo(1, 2, 3)` the generator
pushes 6 bytes, but the emitted cleanup `PUSH H; LXI H,8; DAD SP; SPHL;
POP H` removes `2n + 2 = 8` bytes and loads `HL` from the word ABOVE the
argument area instead of the saved return value.  Running the cleanup on the
post-`CALL` machine `exM` (`SP = 1000`, return value `HL = 77`, memory
`a ↦ 5000 + a`): the final `SP` is `1008` (the claimed balance is `1006`)
and the final `HL` is `6006 = mem[1006]` (the saved `77` is abandoned below
the stack pointer). -/
theorem c4_cleanup_overpops_for_three_args :
    (gen_expr exChecker 8 exCall3 "HL" {}).output =
      ["\tLXI\tH,3", "\tPUSH\tH", "\tLXI\tH,2", "\tPUSH\tH", "\tLXI\tH,1",
       "\tPUSH\tH", "\tCALL\tfoo", "\tPUSH\tH", "\tLXI\tH,8", "\tDAD\tSP",
       "\tSPHL", "\tPOP\tH"] ∧
    (execLines ((gen_expr exChecker 8 exCall3 "HL" {}).output.drop 7) exM).sp = 1008 ∧
    (execLines ((gen_expr exChecker 8 exCall3 "HL" {}).output.drop 7) exM).hl = 6006 ∧
    ((1008 : Int) ≠ 1000 + 6 ∧ (6006 : Int) ≠ 77) := by
  exact ⟨by decide, by decide, by decide, by decide, by decide⟩

end UCow

namespace UCow

instance (l : String) : Decidable (mainEndFree l) :=
  inferInstanceAs (Decidable (l ≠ "_main:" ∧ l ≠ "\tEND"))

theorem ExprExt.emit {l : String} (st : CodeGenerator) (h : mainEndFree l) :
    ExprExt st (emit st l) :=
  ⟨⟨[l], Eq.refl _, by simpa using h⟩, le_rfl, Eq.refl _, Eq.refl _, Eq.refl _,
    Eq.refl _, Eq.refl _, Eq.refl _, id⟩

/-- Nested `emit` chains, seen as a fold so one lemma covers them all. -/
theorem ExprExt.fold_emits (st : CodeGenerator) (ls : List String)
    (h : ∀ l ∈ ls, mainEndFree l) : ExprExt st (ls.foldl UCow.emit st) := by
  induction ls generalizing st with
  | nil => exact ExprExt.self st
  | cons l rest ih =>
    exact (ExprExt.emit st (h l (by simp))).trans
      (ih (UCow.emit st l) (fun x hx => h x (by simp [hx])))

theorem mef_pre (p x : String)
    (h : 2 ≤ p.data.length ∧ p.data.take 2 ≠ ['_', 'm'] ∧
      p.data.take 2 ≠ ['\t', 'E']) : mainEndFree (p ++ x) := by
  obtain ⟨hlen, hm, he⟩ := h
  constructor
  · intro heq
    have hd := congrArg String.data heq
    rw [str_data_append] at hd
    have := congrArg (List.take 2) hd
    rw [List.take_append_of_le_length hlen] at this
    exact hm (this.trans (by decide))
  · intro heq
    have hd := congrArg String.data heq
    rw [str_data_append] at hd
    have := congrArg (List.take 2) hd
    rw [List.take_append_of_le_length hlen] at this
    exact he (this.trans (by decide))

theorem concat_colon_ne_END (s : String) : s ++ ":" ≠ "\tEND" := by
  intro h
  have hd := congrArg String.data h
  rw [str_data_append] at hd
  have := congrArg List.getLast? hd
  rw [show (":" : String).data = [':'] from rfl, List.getLast?_concat] at this
  simp at this

theorem label_line_mef {pfx : String} (n : Nat) (hp : pfx.data ≠ [])
    (hu : pfx.data.head? ≠ some '_') : mainEndFree (pfx ++ natRepr n ++ ":") := by
  constructor
  · intro h
    have hd := congrArg String.data h
    rw [str_data_append, str_data_append] at hd
    cases hc : pfx.data with
    | nil => exact hp hc
    | cons c t =>
      rw [hc] at hd
      simp only [List.cons_append, show ("_main:" : String).data =
        ['_', 'm', 'a', 'i', 'n', ':'] from rfl, List.cons.injEq] at hd
      exact hu (by rw [hc, hd.1]; rfl)
  · exact concat_colon_ne_END _

theorem new_label_fst {p lbl : String} {st st' : CodeGenerator}
    (h : new_label p st = (lbl, st')) :
    lbl = p ++ natRepr (st.label_counter + 1) := by
  have := congrArg Prod.fst h
  simpa [new_label] using this.symm

theorem new_label_snd {p lbl : String} {st st' : CodeGenerator}
    (h : new_label p st = (lbl, st')) :
    st' = { st with label_counter := st.label_counter + 1 } := by
  have := congrArg Prod.snd h
  simpa [new_label] using this.symm

theorem ExprExt.of_new_label {p lbl : String} {st st' : CodeGenerator}
    (h : new_label p st = (lbl, st')) : ExprExt st st' := by
  rw [new_label_snd h]
  exact ⟨⟨[], by simp, by simp⟩, by simp, Eq.refl _, Eq.refl _, Eq.refl _,
    Eq.refl _, Eq.refl _, Eq.refl _, id⟩

theorem label_mef_of_new_label {p lbl : String} {st st' : CodeGenerator}
    (h : new_label p st = (lbl, st')) (hp : p.data ≠ [])
    (hu : p.data.head? ≠ some '_') : mainEndFree (lbl ++ ":") := by
  rw [new_label_fst h]
  exact label_line_mef _ hp hu

theorem ExprExt.of_gsl {v lbl : String} {st st' : CodeGenerator}
    (h : get_string_label v st = (lbl, st')) : ExprExt st st' := by
  unfold get_string_label at h
  rcases hd : dictGet v st.string_literals with _ | l
  · rw [hd] at h
    simp only [new_label] at h
    cases h
    refine ⟨⟨[], by simp, by simp⟩, by simp, Eq.refl _, Eq.refl _, Eq.refl _,
      Eq.refl _, Eq.refl _, Eq.refl _, fun hk => ?_⟩
    exact distinctKeys_dictInsert _ _ hk
  · rw [hd] at h
    cases h
    exact ExprExt.self st

set_option maxHeartbeats 1000000 in
theorem expr_binop8 (op : String) (st : CodeGenerator) :
    ExprExt st (binop8_op op st) := by
  delta binop8_op
  by_cases h1 : op = "+"
  · rw [if_pos h1]; exact ExprExt.emit _ (by decide)
  rw [if_neg h1]
  by_cases h2 : op = "-"
  · rw [if_pos h2]; exact ExprExt.emit _ (by decide)
  rw [if_neg h2]
  by_cases h3 : op = "&"
  · rw [if_pos h3]; exact ExprExt.emit _ (by decide)
  rw [if_neg h3]
  by_cases h4 : op = "|"
  · rw [if_pos h4]; exact ExprExt.emit _ (by decide)
  rw [if_neg h4]
  by_cases h5 : op = "^"
  · rw [if_pos h5]; exact ExprExt.emit _ (by decide)
  rw [if_neg h5]
  by_cases h6 : op = "*"
  · rw [if_pos h6]; exact ExprExt.emit _ (by decide)
  rw [if_neg h6]
  by_cases h7 : op = "/"
  · rw [if_pos h7]; exact ExprExt.emit _ (by decide)
  rw [if_neg h7]
  by_cases h8 : op = "%"
  · rw [if_pos h8]; exact ExprExt.emit _ (by decide)
  rw [if_neg h8]
  by_cases h9 : op = "<<"
  · rw [if_pos h9]
    rcases hl1 : new_label "SHL" st with ⟨lab, st2⟩
    simp only [hl1]
    rcases hl2 : new_label "SHLE" st2 with ⟨endl, st3⟩
    simp only [hl2]
    exact (ExprExt.of_new_label hl1).trans ((ExprExt.of_new_label hl2).trans
      ((ExprExt.emit _ (label_mef_of_new_label hl1 (by decide) (by decide))).trans
       ((ExprExt.fold_emits _ ["\tMOV\tC,A", "\tMOV\tA,B", "\tORA\tA"] (by decide)).trans
        ((ExprExt.emit _ (mef_pre "\tJZ\t" _ (by decide))).trans
         ((ExprExt.fold_emits _ ["\tDCR\tB", "\tMOV\tA,C", "\tADD\tA"] (by decide)).trans
          ((ExprExt.emit _ (mef_pre "\tJMP\t" _ (by decide))).trans
           (ExprExt.emit _ (label_mef_of_new_label hl2 (by decide) (by decide)))))))))
  rw [if_neg h9]
  by_cases h10 : op = ">>"
  · rw [if_pos h10]
    rcases hl1 : new_label "SHR" st with ⟨lab, st2⟩
    simp only [hl1]
    rcases hl2 : new_label "SHRE" st2 with ⟨endl, st3⟩
    simp only [hl2]
    exact (ExprExt.of_new_label hl1).trans ((ExprExt.of_new_label hl2).trans
      ((ExprExt.emit _ (label_mef_of_new_label hl1 (by decide) (by decide))).trans
       ((ExprExt.fold_emits _ ["\tMOV\tC,A", "\tMOV\tA,B", "\tORA\tA"] (by decide)).trans
        ((ExprExt.emit _ (mef_pre "\tJZ\t" _ (by decide))).trans
         ((ExprExt.fold_emits _ ["\tDCR\tB", "\tMOV\tA,C", "\tORA\tA", "\tRAR"] (by decide)).trans
          ((ExprExt.emit _ (mef_pre "\tJMP\t" _ (by decide))).trans
           (ExprExt.emit _ (label_mef_of_new_label hl2 (by decide) (by decide)))))))))
  rw [if_neg h10]
  exact ExprExt.self st

set_option maxHeartbeats 1000000 in
theorem expr_binop16 (op : String) (st : CodeGenerator) :
    ExprExt st (binop16_op op st) := by
  delta binop16_op
  by_cases h1 : op = "+"
  · rw [if_pos h1]; exact ExprExt.emit _ (by decide)
  rw [if_neg h1]
  by_cases h2 : op = "-"
  · rw [if_pos h2]
    exact ExprExt.fold_emits _ ["\tMOV\tA,L", "\tSUB\tE", "\tMOV\tL,A",
      "\tMOV\tA,H", "\tSBB\tD", "\tMOV\tH,A"] (by decide)
  rw [if_neg h2]
  by_cases h3 : op = "&"
  · rw [if_pos h3]
    exact ExprExt.fold_emits _ ["\tMOV\tA,L", "\tANA\tE", "\tMOV\tL,A",
      "\tMOV\tA,H", "\tANA\tD", "\tMOV\tH,A"] (by decide)
  rw [if_neg h3]
  by_cases h4 : op = "|"
  · rw [if_pos h4]
    exact ExprExt.fold_emits _ ["\tMOV\tA,L", "\tORA\tE", "\tMOV\tL,A",
      "\tMOV\tA,H", "\tORA\tD", "\tMOV\tH,A"] (by decide)
  rw [if_neg h4]
  by_cases h5 : op = "^"
  · rw [if_pos h5]
    exact ExprExt.fold_emits _ ["\tMOV\tA,L", "\tXRA\tE", "\tMOV\tL,A",
      "\tMOV\tA,H", "\tXRA\tD", "\tMOV\tH,A"] (by decide)
  rw [if_neg h5]
  by_cases h6 : op = "*"
  · rw [if_pos h6]; exact ExprExt.emit _ (by decide)
  rw [if_neg h6]
  by_cases h7 : op = "/"
  · rw [if_pos h7]; exact ExprExt.emit _ (by decide)
  rw [if_neg h7]
  by_cases h8 : op = "%"
  · rw [if_pos h8]; exact ExprExt.emit _ (by decide)
  rw [if_neg h8]
  by_cases h9 : op = "<<"
  · rw [if_pos h9]; exact ExprExt.emit _ (by decide)
  rw [if_neg h9]
  by_cases h10 : op = ">>"
  · rw [if_pos h10]; exact ExprExt.emit _ (by decide)
  rw [if_neg h10]
  exact ExprExt.self st

set_option maxHeartbeats 1000000 in
theorem expr_cmp_finish (op : String) (st : CodeGenerator) :
    ExprExt st (cmp_finish op st) := by
  delta cmp_finish
  rcases hl1 : new_label "TRUE" st with ⟨tl, st2⟩
  simp only [hl1]
  rcases hl2 : new_label "END" st2 with ⟨el, st3⟩
  simp only [hl2]
  rcases hl3 : new_label "FALSE" st3 with ⟨fl, st4⟩
  simp only [hl3]
  have hpre : ExprExt st st4 :=
    (ExprExt.of_new_label hl1).trans ((ExprExt.of_new_label hl2).trans
      (ExprExt.of_new_label hl3))
  have htail : ∀ s, ExprExt st s → ExprExt st
      (emit_label (emit (emit_label (emit (emit (emit_label s fl) "\tXRA\tA")
        ("\tJMP\t" ++ el)) tl) "\tMVI\tA,1") el) := by
    intro s hs
    exact hs.trans ((ExprExt.emit _ (label_mef_of_new_label hl3 (by decide) (by decide))).trans
      ((ExprExt.emit _ (by decide)).trans
       ((ExprExt.emit _ (mef_pre "\tJMP\t" _ (by decide))).trans
        ((ExprExt.emit _ (label_mef_of_new_label hl1 (by decide) (by decide))).trans
         ((ExprExt.emit _ (by decide)).trans
          (ExprExt.emit _ (label_mef_of_new_label hl2 (by decide) (by decide))))))))
  apply htail
  by_cases h1 : op = "=="
  · rw [if_pos h1]; exact hpre.trans (ExprExt.emit _ (mef_pre "\tJZ\t" _ (by decide)))
  rw [if_neg h1]
  by_cases h2 : op = "!="
  · rw [if_pos h2]; exact hpre.trans (ExprExt.emit _ (mef_pre "\tJNZ\t" _ (by decide)))
  rw [if_neg h2]
  by_cases h3 : op = "<"
  · rw [if_pos h3]; exact hpre.trans (ExprExt.emit _ (mef_pre "\tJC\t" _ (by decide)))
  rw [if_neg h3]
  by_cases h4 : op = ">="
  · rw [if_pos h4]; exact hpre.trans (ExprExt.emit _ (mef_pre "\tJNC\t" _ (by decide)))
  rw [if_neg h4]
  by_cases h5 : op = ">"
  · rw [if_pos h5]
    exact hpre.trans ((ExprExt.emit _ (mef_pre "\tJZ\t" _ (by decide))).trans
      (ExprExt.emit _ (mef_pre "\tJNC\t" _ (by decide))))
  rw [if_neg h5]
  by_cases h6 : op = "<="
  · rw [if_pos h6]
    exact hpre.trans ((ExprExt.emit _ (mef_pre "\tJZ\t" _ (by decide))).trans
      (ExprExt.emit _ (mef_pre "\tJC\t" _ (by decide))))
  rw [if_neg h6]
  exact hpre

set_option maxHeartbeats 1000000 in
theorem expr_call_cleanup (args : List Expr) (st : CodeGenerator) :
    ExprExt st (call_cleanup args st) := by
  simp only [call_cleanup]
  split
  · exact ExprExt.self st
  split
  · exact ExprExt.emit _ (by decide)
  split
  · exact (ExprExt.emit _ (by decide)).trans (ExprExt.emit _ (by decide))
  exact (ExprExt.emit _ (by decide)).trans
    (ExprExt.emit _ (mef_pre "\tLXI\tH," _ (by decide)))
    |>.trans (ExprExt.emit _ (by decide))
    |>.trans (ExprExt.emit _ (by decide))
    |>.trans (ExprExt.emit _ (by decide))

theorem expr_call_narrow (ck : TypeChecker) (rt : Option CowType)
    (target : String) (st : CodeGenerator) :
    ExprExt st (call_narrow ck rt target st) := by
  simp only [call_narrow]
  split
  · split
    · split
      · exact ExprExt.emit _ (by decide)
      · exact ExprExt.self st
    · exact ExprExt.self st
  · exact ExprExt.self st

set_option maxHeartbeats 1000000 in
theorem expr_pass (ck : TypeChecker) : ∀ fuel : Nat,
    (∀ e target st, ExprExt st (gen_expr ck fuel e target st)) ∧
    (∀ op l r rt target st, ExprExt st (gen_binop ck fuel op l r rt target st)) ∧
    (∀ op l r st, ExprExt st (gen_comparison ck fuel op l r st)) ∧
    (∀ op l r st, ExprExt st (gen_logical ck fuel op l r st)) ∧
    (∀ a i rt target st, ExprExt st (gen_array_access ck fuel a i rt target st)) ∧
    (∀ a i st, ExprExt st (gen_array_address ck fuel a i st)) ∧
    (∀ r fn rt target st, ExprExt st (gen_field_access ck fuel r fn rt target st)) ∧
    (∀ r fn st, ExprExt st (gen_field_address ck fuel r fn st)) ∧
    (∀ t args rt target st, ExprExt st (gen_call ck fuel t args rt target st)) := by
  intro fuel
  induction fuel with
  | zero =>
    refine ⟨?_, ?_, ?_, ?_, ?_, ?_, ?_, ?_, ?_⟩ <;>
      (intros; simp only [gen_expr, gen_binop, gen_comparison, gen_logical,
        gen_array_access, gen_array_address, gen_field_access,
        gen_field_address, gen_call]) <;> exact ExprExt.self _
  | succ f ih =>
    obtain ⟨ihE, ihB, ihC, ihL, ihAA, ihAD, ihFA, ihFD, ihCall⟩ := ih
    refine ⟨?_, ?_, ?_, ?_, ?_, ?_, ?_, ?_, ?_⟩
    -- gen_expr
    · intro e target st
      obtain ⟨rt, node⟩ := e
      cases node
      case numberLiteral v =>
        simp only [gen_expr]
        split <;> exact ExprExt.emit _ (mef_pre _ _ (by decide))
      case stringLiteral v =>
        simp only [gen_expr]
        rcases hg : get_string_label v st with ⟨lbl, st2⟩
        simp only [hg]
        exact (ExprExt.of_gsl hg).trans (ExprExt.emit _ (mef_pre _ _ (by decide)))
      case nilLiteral =>
        simp only [gen_expr]
        split <;> exact ExprExt.emit _ (by decide)
      case identifier name =>
        simp only [gen_expr]
        rcases hv : dictGet name st.vars with _ | var <;> simp only [hv]
        · split
          · split <;> exact ExprExt.emit _ (mef_pre _ _ (by decide))
          · split
            · exact ExprExt.emit _ (mef_pre _ _ (by decide))
            · exact ExprExt.emit _ (mef_pre _ _ (by decide))
        · split
          · split
            · exact (ExprExt.emit _ (mef_pre _ _ (by decide))).trans
                ((ExprExt.emit _ (by decide)).trans (ExprExt.emit _ (by decide)))
            · exact ExprExt.emit _ (mef_pre _ _ (by decide))
          · split
            · exact (ExprExt.emit _ (mef_pre _ _ (by decide))).trans
                (ExprExt.emit _ (by decide))
            · exact ExprExt.emit _ (mef_pre _ _ (by decide))
      case binaryOp op l r => simp only [gen_expr]; exact ihB op l r rt target st
      case unaryOp op operand =>
        simp only [gen_expr]
        split
        · split
          · exact (ihE operand target st).trans
              ((ExprExt.emit _ (by decide)).trans (ExprExt.emit _ (by decide)))
          · exact (ihE operand target st).trans
              (ExprExt.fold_emits _ ["\tMOV\tA,L", "\tCMA", "\tMOV\tL,A",
                "\tMOV\tA,H", "\tCMA", "\tMOV\tH,A", "\tINX\tH"] (by decide))
        · split
          · split
            · exact (ihE operand target st).trans (ExprExt.emit _ (by decide))
            · exact (ihE operand target st).trans
                (ExprExt.fold_emits _ ["\tMOV\tA,L", "\tCMA", "\tMOV\tL,A",
                  "\tMOV\tA,H", "\tCMA", "\tMOV\tH,A"] (by decide))
          · exact ExprExt.self st
      case comparison op l r =>
        simp only [gen_expr]
        split
        · exact (ihC op l r st).trans
            ((ExprExt.emit _ (by decide)).trans (ExprExt.emit _ (by decide)))
        · exact ihC op l r st
      case logicalOp op l r =>
        simp only [gen_expr]
        split
        · exact (ihL op l r st).trans
            ((ExprExt.emit _ (by decide)).trans (ExprExt.emit _ (by decide)))
        · exact ihL op l r st
      case notOp operand =>
        simp only [gen_expr]
        split
        · exact (ihE operand "A" st).trans
            (ExprExt.fold_emits _ ["\tORA\tA", "\tMVI\tA,0", "\tJNZ\t$+4",
              "\tMVI\tA,1", "\tMOV\tL,A", "\tMVI\tH,0"] (by decide))
        · exact (ihE operand "A" st).trans
            (ExprExt.fold_emits _ ["\tORA\tA", "\tMVI\tA,0", "\tJNZ\t$+4",
              "\tMVI\tA,1"] (by decide))
      case castE inner => simp only [gen_expr]; exact ihE inner target st
      case arrayAccess a i => simp only [gen_expr]; exact ihAA a i rt target st
      case fieldAccess r fn => simp only [gen_expr]; exact ihFA r fn rt target st
      case dereference pointer =>
        simp only [gen_expr]
        split
        · split
          · exact (ihE pointer "HL" st).trans
              (ExprExt.fold_emits _ ["\tMOV\tA,M", "\tMOV\tL,A", "\tMVI\tH,0"]
                (by decide))
          · exact (ihE pointer "HL" st).trans (ExprExt.emit _ (by decide))
        · exact (ihE pointer "HL" st).trans
            (ExprExt.fold_emits _ ["\tMOV\tE,M", "\tINX\tH", "\tMOV\tD,M",
              "\tXCHG"] (by decide))
      case addressOf operand =>
        obtain ⟨ort, onode⟩ := operand
        cases onode
        case identifier name =>
          simp only [gen_expr]
          rcases hv : dictGet name st.vars with _ | var <;> simp only [hv]
          · exact ExprExt.self st
          · exact ExprExt.emit _ (mef_pre _ _ (by decide))
        case fieldAccess r fn => simp only [gen_expr]; exact ihFD r fn st
        case arrayAccess a i => simp only [gen_expr]; exact ihAD a i st
        all_goals (simp only [gen_expr]; exact ExprExt.self st)
      case call t args => simp only [gen_expr]; exact ihCall t args rt target st
      case sizeOfE targetE =>
        simp only [gen_expr]
        split
        · split <;> exact ExprExt.emit _ (mef_pre _ _ (by decide))
        · exact ExprExt.self st
      case sizeOfT tname => simp only [gen_expr]; exact ExprExt.self st
      case bytesOfE targetE =>
        simp only [gen_expr]
        split <;> exact ExprExt.emit _ (mef_pre _ _ (by decide))
      case bytesOfT tname =>
        simp only [gen_expr]
        split <;> exact ExprExt.emit _ (mef_pre _ _ (by decide))
      case nextE pointer =>
        simp only [gen_expr]
        split
        · split
          · exact (ihE pointer "HL" st).trans (ExprExt.emit _ (by decide))
          · exact (ihE pointer "HL" st).trans
              ((ExprExt.emit _ (mef_pre _ _ (by decide))).trans
                (ExprExt.emit _ (by decide)))
        · exact ihE pointer "HL" st
      case prevE pointer =>
        simp only [gen_expr]
        split
        · split
          · exact (ihE pointer "HL" st).trans (ExprExt.emit _ (by decide))
          · exact (ihE pointer "HL" st).trans
              ((ExprExt.emit _ (mef_pre _ _ (by decide))).trans
                (ExprExt.emit _ (by decide)))
        · exact ihE pointer "HL" st
      case arrayInitializer elements =>
        simp only [gen_expr]; exact ExprExt.self st
      case otherExpr k =>
        simp only [gen_expr]; exact ExprExt.emit _ (mef_pre _ _ (by decide))
    -- gen_binop
    · intro op l r rt target st
      simp only [gen_binop]
      split
      · have hpre : ExprExt st
            (emit (emit (gen_expr ck f r "A"
              (emit (gen_expr ck f l "A" st) "\tPUSH\tPSW")) "\tMOV\tB,A")
              "\tPOP\tPSW") :=
          (((ihE l "A" st).trans (ExprExt.emit _ (by decide))).trans
            (ihE r "A" _)).trans
            ((ExprExt.emit _ (by decide)).trans (ExprExt.emit _ (by decide)))
        split
        · exact (hpre.trans (expr_binop8 op _)).trans
            ((ExprExt.emit _ (by decide)).trans (ExprExt.emit _ (by decide)))
        · exact hpre.trans (expr_binop8 op _)
      · have hpre : ExprExt st
            (emit (emit (gen_expr ck f r "HL"
              (emit (gen_expr ck f l "HL" st) "\tPUSH\tH")) "\tXCHG")
              "\tPOP\tH") :=
          (((ihE l "HL" st).trans (ExprExt.emit _ (by decide))).trans
            (ihE r "HL" _)).trans
            ((ExprExt.emit _ (by decide)).trans (ExprExt.emit _ (by decide)))
        split
        · exact (hpre.trans (expr_binop16 op _)).trans (ExprExt.emit _ (by decide))
        · exact hpre.trans (expr_binop16 op _)
    -- gen_comparison
    · intro op l r st
      simp only [gen_comparison]
      exact ((((ihE l "HL" st).trans (ExprExt.emit _ (by decide))).trans
        (ihE r "HL" _)).trans
        (ExprExt.fold_emits _ ["\tXCHG", "\tPOP\tH", "\tMOV\tA,H", "\tCMP\tD",
          "\tJNZ\t$+6", "\tMOV\tA,L", "\tCMP\tE"] (by decide))).trans
        (expr_cmp_finish op _)
    -- gen_logical
    · intro op l r st
      simp only [gen_logical]
      by_cases h1 : op = "and"
      · rw [if_pos h1]
        rcases hl1 : new_label "FALSE" st with ⟨fl, st2⟩
        simp only [hl1]
        rcases hl2 : new_label "END" st2 with ⟨el, st3⟩
        simp only [hl2]
        refine ((ExprExt.of_new_label hl1).trans (ExprExt.of_new_label hl2)).trans ?_
        exact ((((ihE l "A" st3).trans
          ((ExprExt.emit _ (by decide)).trans
            (ExprExt.emit _ (mef_pre "\tJZ\t" _ (by decide))))).trans
          (ihE r "A" _)).trans
          ((ExprExt.emit _ (by decide)).trans
            (ExprExt.emit _ (mef_pre "\tJZ\t" _ (by decide))))).trans
          ((ExprExt.emit _ (by decide)).trans
           ((ExprExt.emit _ (mef_pre "\tJMP\t" _ (by decide))).trans
            ((ExprExt.emit _ (label_mef_of_new_label hl1 (by decide) (by decide))).trans
             ((ExprExt.emit _ (by decide)).trans
              (ExprExt.emit _ (label_mef_of_new_label hl2 (by decide) (by decide)))))))
      rw [if_neg h1]
      by_cases h2 : op = "or"
      · rw [if_pos h2]
        rcases hl1 : new_label "TRUE" st with ⟨tl, st2⟩
        simp only [hl1]
        rcases hl2 : new_label "END" st2 with ⟨el, st3⟩
        simp only [hl2]
        refine ((ExprExt.of_new_label hl1).trans (ExprExt.of_new_label hl2)).trans ?_
        exact ((((ihE l "A" st3).trans
          ((ExprExt.emit _ (by decide)).trans
            (ExprExt.emit _ (mef_pre "\tJNZ\t" _ (by decide))))).trans
          (ihE r "A" _)).trans
          ((ExprExt.emit _ (by decide)).trans
            (ExprExt.emit _ (mef_pre "\tJNZ\t" _ (by decide))))).trans
          ((ExprExt.emit _ (by decide)).trans
           ((ExprExt.emit _ (mef_pre "\tJMP\t" _ (by decide))).trans
            ((ExprExt.emit _ (label_mef_of_new_label hl1 (by decide) (by decide))).trans
             ((ExprExt.emit _ (by decide)).trans
              (ExprExt.emit _ (label_mef_of_new_label hl2 (by decide) (by decide)))))))
      rw [if_neg h2]
      exact ExprExt.self st
    -- gen_array_access
    · intro a i rt target st
      simp only [gen_array_access]
      split
      · split
        · exact (ihAD a i st).trans
            (ExprExt.fold_emits _ ["\tMOV\tA,M", "\tMOV\tL,A", "\tMVI\tH,0"]
              (by decide))
        · exact (ihAD a i st).trans (ExprExt.emit _ (by decide))
      · split
        · exact (ihAD a i st).trans
            (ExprExt.fold_emits _ ["\tMOV\tE,M", "\tINX\tH", "\tMOV\tD,M",
              "\tXCHG", "\tMOV\tA,L"] (by decide))
        · exact (ihAD a i st).trans
            (ExprExt.fold_emits _ ["\tMOV\tE,M", "\tINX\tH", "\tMOV\tD,M",
              "\tXCHG"] (by decide))
    -- gen_array_address
    · intro a i st
      simp only [gen_array_address]
      have hidx := ihE i "HL" st
      generalize hX : gen_expr ck f i "HL" st = stI at hidx ⊢
      split
      · -- array is an identifier
        split
        -- dictGet found / not found: same emitted shapes either way
        all_goals
          split
          · -- elem_size > 1
            exact hidx.trans (ExprExt.emit _ (mef_pre "\tLXI\tD," _ (by decide)))
              |>.trans (ExprExt.emit _ (by decide))
              |>.trans (ExprExt.emit _ (by decide))
              |>.trans (ExprExt.emit _ (mef_pre "\tLXI\tH," _ (by decide)))
              |>.trans (ExprExt.emit _ (by decide))
              |>.trans (ExprExt.emit _ (by decide))
          · exact hidx.trans (ExprExt.emit _ (by decide))
              |>.trans (ExprExt.emit _ (mef_pre "\tLXI\tH," _ (by decide)))
              |>.trans (ExprExt.emit _ (by decide))
              |>.trans (ExprExt.emit _ (by decide))
      · -- array is any other expression: recursive lowering for the base
        split
        · exact hidx.trans (ExprExt.emit _ (mef_pre "\tLXI\tD," _ (by decide)))
            |>.trans (ExprExt.emit _ (by decide))
            |>.trans (ExprExt.emit _ (by decide))
            |>.trans (ihE a "HL" _)
            |>.trans (ExprExt.emit _ (by decide))
            |>.trans (ExprExt.emit _ (by decide))
        · exact hidx.trans (ExprExt.emit _ (by decide))
            |>.trans (ihE a "HL" _)
            |>.trans (ExprExt.emit _ (by decide))
            |>.trans (ExprExt.emit _ (by decide))
    -- gen_field_access
    · intro r fn rt target st
      simp only [gen_field_access]
      have hadr := ihFD r fn st
      generalize hX : gen_field_address ck f r fn st = stA at hadr ⊢
      split
      · split
        · exact hadr.trans
            (ExprExt.fold_emits _ ["\tMOV\tA,M", "\tMOV\tL,A", "\tMVI\tH,0"]
              (by decide))
        · exact hadr.trans (ExprExt.emit _ (by decide))
      · split
        · exact hadr.trans
            (ExprExt.fold_emits _ ["\tMOV\tE,M", "\tINX\tH", "\tMOV\tD,M",
              "\tXCHG", "\tMOV\tA,L"] (by decide))
        · exact hadr.trans
            (ExprExt.fold_emits _ ["\tMOV\tE,M", "\tINX\tH", "\tMOV\tD,M",
              "\tXCHG"] (by decide))
    -- gen_field_address
    · intro r fn st
      simp only [gen_field_address]
      have hrec := ihE r "HL" st
      generalize hX : gen_expr ck f r "HL" st = stR at hrec ⊢
      repeat' split
      all_goals
        first
        | exact hrec
        | exact ExprExt.emit _ (mef_pre "\tLXI\tH," _ (by decide))
        | exact hrec.trans
            (ExprExt.emit _ (mef_pre "\tLXI\tD," _ (by decide)))
            |>.trans (ExprExt.emit _ (by decide))
        | exact (ExprExt.emit _ (mef_pre "\tLXI\tH," _ (by decide))).trans
            (ExprExt.emit _ (mef_pre "\tLXI\tD," _ (by decide)))
            |>.trans (ExprExt.emit _ (by decide))
    -- gen_call
    · intro t args rt target st
      have hfold : ∀ (l : List Expr) (s : CodeGenerator), ExprExt s
          (l.foldl (fun s arg => emit (gen_expr ck f arg "HL" s) "\tPUSH\tH") s) := by
        intro l
        induction l with
        | nil => intro s; exact ExprExt.self s
        | cons a rest ihl =>
          intro s
          exact ((ihE a "HL" s).trans (ExprExt.emit _ (by decide))).trans (ihl _)
      simp only [gen_call]
      generalize hX : List.foldl
        (fun s arg => emit (gen_expr ck f arg "HL" s) "\tPUSH\tH") st args.reverse = stF
      have hF : ExprExt st stF := by
        rw [← hX]; exact hfold args.reverse st
      split
      · split
        · exact hF.trans (ExprExt.emit _ (mef_pre "\tCALL\t" _ (by decide)))
            |>.trans (expr_call_cleanup args _)
            |>.trans (expr_call_narrow ck rt target _)
        · split
          · exact hF.trans (ExprExt.emit _ (mef_pre "\tLHLD\t" _ (by decide)))
              |>.trans (ExprExt.emit _ (by decide))
              |>.trans (expr_call_cleanup args _)
              |>.trans (expr_call_narrow ck rt target _)
          · exact hF.trans (ExprExt.emit _ (mef_pre "\tLXI\tH," _ (by decide)))
              |>.trans (ExprExt.emit _ (by decide))
              |>.trans (expr_call_cleanup args _)
              |>.trans (expr_call_narrow ck rt target _)
      · exact hF.trans (ihE t "HL" stF)
          |>.trans (ExprExt.emit _ (by decide))
          |>.trans (expr_call_cleanup args _)
          |>.trans (expr_call_narrow ck rt target _)


/-- C1 (counterexample): for `foo(1, 2)` the generator emits the evaluation
of `args[1]` (`LXI H,2`) FIRST: the push-phase is `LXI H,2; PUSH H;
LXI H,1; PUSH H`, not the claimed source-order arrangement `LXI H,1;
PUSH H; LXI H,2; PUSH H` — arguments are evaluated right-to-left, not
left-to-right. -/
theorem c1_counterexample :
    (gen_expr exChecker 8 exCall2 "HL" {}).output =
      ["\tLXI\tH,2", "\tPUSH\tH", "\tLXI\tH,1", "\tPUSH\tH", "\tCALL\tfoo",
       "\tPOP\tD", "\tPOP\tD"] ∧
    (gen_expr exChecker 8 exCall2 "HL" {}).output.take 4 ≠
      ["\tLXI\tH,1", "\tPUSH\tH", "\tLXI\tH,2", "\tPUSH\tH"] := by
  constructor
  · decide
  · decide

/-- C1 (amended): for every call, the generator folds `push_args` over
`args.reverse` — each argument is evaluated into `HL` and immediately
followed by its `PUSH H`, processing `args[n-1]` first and `args[0]` last —
and the call/cleanup instructions follow that push phase in the output.
So pushes do go `args[n-1]` first and `args[0]` last and each evaluation is
immediately followed by its push, but evaluation order is right-to-left,
the reverse of source order. -/
theorem c1_amended_args_reversed :
    ∀ (ck : TypeChecker) (fuel : Nat) (t : Expr) (args : List Expr)
      (rt : Option CowType) (target : String) (st : CodeGenerator),
      (gen_expr ck (fuel + 1) (.mk rt (.call t args)) target st =
        gen_call ck fuel t args rt target st) ∧
      (∃ rest, (gen_call ck (fuel + 1) t args rt target st).output =
        (push_args ck fuel args.reverse st).output ++ rest) ∧
      (∀ (a : Expr) (l : List Expr) (s : CodeGenerator),
        push_args ck fuel (a :: l) s =
          push_args ck fuel l (emit (gen_expr ck fuel a "HL" s) "\tPUSH\tH")) ∧
      (∀ s : CodeGenerator, push_args ck fuel [] s = s) := by
  intro ck fuel t args rt target st
  refine ⟨by simp [gen_expr], ?_, fun a l s => rfl, fun s => rfl⟩
  simp only [gen_call]
  have hrw : List.foldl
      (fun s arg => emit (gen_expr ck fuel arg "HL" s) "\tPUSH\tH") st
        args.reverse = push_args ck fuel args.reverse st := rfl
  rw [hrw]
  generalize push_args ck fuel args.reverse st = stF
  have hout : ∀ s s2 : CodeGenerator, ExprExt s s2 → ∃ r, s2.output = s.output ++ r := by
    intro s s2 h
    obtain ⟨⟨r, hr, _⟩, _⟩ := h
    exact ⟨r, hr⟩
  split
  · split
    · exact hout _ _ ((ExprExt.emit _ (mef_pre "\tCALL\t" _ (by decide))).trans
        ((expr_call_cleanup args _).trans (expr_call_narrow ck rt target _)))
    · split
      · exact hout _ _ ((ExprExt.emit _ (mef_pre "\tLHLD\t" _ (by decide))).trans
          (ExprExt.emit _ (by decide))
          |>.trans (expr_call_cleanup args _)
          |>.trans (expr_call_narrow ck rt target _))
      · exact hout _ _ ((ExprExt.emit _ (mef_pre "\tLXI\tH," _ (by decide))).trans
          (ExprExt.emit _ (by decide))
          |>.trans (expr_call_cleanup args _)
          |>.trans (expr_call_narrow ck rt target _))
  · exact hout _ _ (((expr_pass ck fuel).1 t "HL" stF).trans
      (ExprExt.emit _ (by decide))
      |>.trans (expr_call_cleanup args _)
      |>.trans (expr_call_narrow ck rt target _))



/-! ## Weak-evolution combinators (statement layer groundwork)

`WExt` is preserved by every state transformation the statement layer
performs: emitting, label allocation, string interning, variable
allocation, and pure record updates of the loop/sub bookkeeping fields. -/

theorem wext_emit (st : CodeGenerator) (l : String) : WExt st (emit st l) :=
  ⟨⟨[l], Eq.refl _⟩, le_rfl, id, id⟩

theorem wext_of_exprext {st st' : CodeGenerator} (h : ExprExt st st') :
    WExt st st' := by
  obtain ⟨⟨l, e, _⟩, m, hv, _, _, _, _, _, hp⟩ := h
  exact ⟨⟨l, e⟩, m, hp, fun hd => by rw [hv]; exact hd⟩

theorem wext_of_new_label {p lbl : String} {st st' : CodeGenerator}
    (h : new_label p st = (lbl, st')) : WExt st st' := by
  rw [new_label_snd h]
  exact ⟨⟨[], by simp⟩, by simp, id, id⟩

theorem wext_alloc (ck : TypeChecker) (n : String) (t : CowType)
    (st : CodeGenerator) : WExt st (allocate_var ck n t st).2 := by
  refine ⟨⟨[], by simp [allocate_var]⟩, ?_, ?_, ?_⟩
  · simp [allocate_var]
  · simp only [allocate_var]
    exact id
  · simp only [allocate_var]
    exact fun h => distinctKeys_dictInsert _ _ h

theorem wext_gsl {v lbl : String} {st st' : CodeGenerator}
    (h : get_string_label v st = (lbl, st')) : WExt st st' :=
  wext_of_exprext (ExprExt.of_gsl h)

/-- A pure record update that leaves the output, counter and both
dictionaries alone is a weak evolution. -/
theorem wext_set {st st' : CodeGenerator} (ho : st'.output = st.output)
    (hc : st'.label_counter = st.label_counter)
    (hp : st'.string_literals = st.string_literals)
    (hv : st'.vars = st.vars) : WExt st st' :=
  ⟨⟨[], by rw [ho]; simp⟩, le_of_eq hc.symm, fun h => by rw [hp]; exact h,
    fun h => by rw [hv]; exact h⟩

theorem wext_foldl {α : Type} (f : CodeGenerator → α → CodeGenerator)
    (hf : ∀ s a, WExt s (f s a)) :
    ∀ (l : List α) (st : CodeGenerator), WExt st (l.foldl f st) := by
  intro l
  induction l with
  | nil => exact fun st => WExt.self st
  | cons a rest ih => exact fun st => (hf st a).trans (ih (f st a))

theorem wext_foldl_pair {α β : Type}
    (f : CodeGenerator × β → α → CodeGenerator × β)
    (hf : ∀ s a, WExt s.1 (f s a).1) :
    ∀ (l : List α) (acc : CodeGenerator × β), WExt acc.1 (l.foldl f acc).1 := by
  intro l
  induction l with
  | nil => exact fun acc => WExt.self acc.1
  | cons a rest ih => exact fun acc => (hf acc a).trans (ih (f acc a))

theorem wext_emit_fold {α : Type} (f : α → String) (ls : List α)
    (st : CodeGenerator) : WExt st (ls.foldl (fun s x => emit s (f x)) st) :=
  wext_foldl _ (fun s a => wext_emit s (f a)) ls st

theorem wext_sub_prologue (params : List (String × CowType))
    (st : CodeGenerator) : WExt st (sub_prologue params st) := by
  unfold sub_prologue
  refine wext_foldl_pair _ ?_ params (st, 2)
  intro s p
  rcases hd : dictGet p.1 s.1.vars with _ | var
  · simp only [hd]
    exact WExt.self s.1
  · simp only [hd]
    by_cases hsz : var.size = 1
    · simp only [if_pos hsz]
      exact ((((WExt.self _).push _).push _).push _).push _
    · simp only [if_neg hsz]
      exact (((((((WExt.self _).push _).push _).push _).push _).push _).push _).push _

theorem wext_sub_epilogue (returns : List (String × CowType))
    (st : CodeGenerator) : WExt st (sub_epilogue returns st) := by
  unfold sub_epilogue
  rcases returns with _ | ⟨⟨rv, rt⟩, rest⟩
  · exact WExt.self st
  · rcases hd : dictGet rv st.vars with _ | var
    · simp only [hd]
      exact (WExt.self _).push _
    · simp only [hd]
      by_cases hsz : var.size = 1
      · simp only [if_pos hsz]
        exact (((WExt.self _).push _).push _).push _
      · simp only [if_neg hsz]
        exact (WExt.self _).push _


/-- Popping/overwriting `current_sub` preserves weak evolution. -/
theorem wext_pop_current {st st' : CodeGenerator} (h : WExt st st')
    (c : Option String) : WExt st { st' with current_sub := c } :=
  h.trans (wext_set rfl rfl rfl rfl)

/-- Rewriting the loop-label stacks preserves weak evolution. -/
theorem wext_setLoop {st st' : CodeGenerator} (h : WExt st st')
    (bl cl : List String) :
    WExt st { st' with break_labels := bl, continue_labels := cl } :=
  h.trans (wext_set rfl rfl rfl rfl)

/-- Rewriting the nested-subroutine queue preserves weak evolution. -/
theorem wext_setNested {st st' : CodeGenerator} (h : WExt st st')
    (ns : List SubDecl) : WExt st { st' with nested_subs := ns } :=
  h.trans (wext_set rfl rfl rfl rfl)

/-- The `extern_name` block at the head of `gen_sub` is a weak evolution. -/
theorem wext_ext_block (st : CodeGenerator) (e : Option String) :
    WExt st (extern_block st e) := by
  unfold extern_block
  rcases e with _ | en
  · exact WExt.self st
  · dsimp only
    split
    · exact WExt.self st
    · exact ((WExt.self st).push _).push _


set_option maxHeartbeats 2000000 in
theorem stmt_pass (ck : TypeChecker) : ∀ fuel : Nat,
    (∀ stmt st, WExt st (gen_stmt ck fuel stmt st)) ∧
    (∀ stmts st, WExt st (gen_stmts ck fuel stmts st)) ∧
    (∀ name tn rt init st, WExt st (gen_var_decl ck fuel name tn rt init st)) ∧
    (∀ var elems st, WExt st (gen_array_init ck fuel var elems st)) ∧
    (∀ t v st, WExt st (gen_assignment ck fuel t v st)) ∧
    (∀ ts v st, WExt st (gen_multi_assignment ck fuel ts v st)) ∧
    (∀ c tb ei eb st, WExt st (gen_if ck fuel c tb ei eb st)) ∧
    (∀ ei heb el endl st, WExt st (gen_elseifs ck fuel ei heb el endl st).2) ∧
    (∀ c b st, WExt st (gen_while ck fuel c b st)) ∧
    (∀ b st, WExt st (gen_loop ck fuel b st)) ∧
    (∀ s w eb st, WExt st (gen_case ck fuel s w eb st)) ∧
    (∀ w el st, WExt st (gen_whens ck fuel w el st)) ∧
    (∀ sub st, WExt st (gen_sub ck fuel sub st)) := by
  intro fuel
  induction fuel with
  | zero =>
    refine ⟨?_, ?_, ?_, ?_, ?_, ?_, ?_, ?_, ?_, ?_, ?_, ?_, ?_⟩ <;>
      (intros; simp only [gen_stmt, gen_stmts, gen_var_decl, gen_array_init,
        gen_assignment, gen_multi_assignment, gen_if, gen_elseifs, gen_while,
        gen_loop, gen_case, gen_whens, gen_sub]) <;> exact WExt.self _
  | succ f ih =>
    obtain ⟨ihStmt, ihStmts, ihVD, ihAI, ihAsg, ihMA, ihIf, ihEI, ihWh, ihLp,
      ihCase, ihWhens, ihSub⟩ := ih
    have hgE : ∀ e tgt s, WExt s (gen_expr ck f e tgt s) :=
      fun e tgt s => wext_of_exprext ((expr_pass ck f).1 e tgt s)
    have hgAD : ∀ a i s, WExt s (gen_array_address ck f a i s) :=
      fun a i s => wext_of_exprext ((expr_pass ck f).2.2.2.2.2.1 a i s)
    have hgFD : ∀ r fn s, WExt s (gen_field_address ck f r fn s) :=
      fun r fn s => wext_of_exprext ((expr_pass ck f).2.2.2.2.2.2.2.1 r fn s)
    refine ⟨?_, ?_, ?_, ?_, ?_, ?_, ?_, ?_, ?_, ?_, ?_, ?_, ?_⟩
    -- gen_stmt
    · intro stmt st
      cases stmt
      case varDecl name tn rt init =>
        simp only [gen_stmt]
        exact ihVD name tn rt init st
      case constDecl => simp only [gen_stmt]; exact WExt.self st
      case assignment t v => simp only [gen_stmt]; exact ihAsg t v st
      case multiAssignment ts v => simp only [gen_stmt]; exact ihMA ts v st
      case ifStmt c tb ei eb => simp only [gen_stmt]; exact ihIf c tb ei eb st
      case whileStmt c b => simp only [gen_stmt]; exact ihWh c b st
      case loopStmt b => simp only [gen_stmt]; exact ihLp b st
      case breakStmt =>
        simp only [gen_stmt]
        rcases hL : st.break_labels.getLast? with _ | l <;> simp only [hL]
        · exact WExt.self st
        · exact wext_emit st _
      case continueStmt =>
        simp only [gen_stmt]
        rcases hL : st.continue_labels.getLast? with _ | l <;> simp only [hL]
        · exact WExt.self st
        · exact wext_emit st _
      case returnStmt => simp only [gen_stmt]; exact wext_emit st _
      case caseStmt s w eb => simp only [gen_stmt]; exact ihCase s w eb st
      case exprStmt e => simp only [gen_stmt]; exact hgE e "HL" st
      case asmStmt parts =>
        simp only [gen_stmt, gen_asm]
        exact wext_emit st _
      case nestedSubStmt sub =>
        simp only [gen_stmt]
        exact wext_setNested (WExt.self st) _
      case subDeclStmt sub => simp only [gen_stmt]; exact ihSub sub st
      case recordDecl => simp only [gen_stmt]; exact WExt.self st
      case typedefDecl => simp only [gen_stmt]; exact WExt.self st
      case otherStmt => simp only [gen_stmt]; exact WExt.self st
    -- gen_stmts
    · intro stmts st
      simp only [gen_stmts]
      exact wext_foldl _ (fun s a => ihStmt a s) stmts st
    -- gen_var_decl
    · intro name tn rt init st
      simp only [gen_var_decl]
      rcases hd : dictGet name st.vars with _ | v <;> simp only [hd]
      · rcases ha : allocate_var ck name (var_decl_type ck tn rt init) st
          with ⟨var, st2⟩
        simp only [ha]
        have hW : WExt st st2 := by
          have h0 := wext_alloc ck name (var_decl_type ck tn rt init) st
          rw [ha] at h0
          exact h0
        rcases init with _ | initE
        · exact hW
        · obtain ⟨irt, inode⟩ := initE
          cases inode
          case arrayInitializer es =>
            dsimp only
            exact hW.trans (ihAI var es st2)
          case stringLiteral v2 =>
            dsimp only
            rcases hg : get_string_label v2 st2 with ⟨lbl, st3⟩
            simp only [hg]
            exact hW.trans (((wext_gsl hg).push _).push _)
          all_goals
            (dsimp only
             split <;>
              first
                | exact hW.trans
                    (((wext_of_exprext ((expr_pass ck f).1 _ "HL" st2)).push _).push _)
                | exact hW.trans
                    ((wext_of_exprext ((expr_pass ck f).1 _ "HL" st2)).push _))
      · exact WExt.self st
    -- gen_array_init
    · intro var elems st
      simp only [gen_array_init]
      refine wext_foldl_pair _ ?_ elems (st, 0)
      intro s e
      dsimp only
      split
      · exact (((wext_of_exprext ((expr_pass ck f).1 e "HL" s.1)).push _).push _)
      · exact ((wext_of_exprext ((expr_pass ck f).1 e "HL" s.1)).push _)
    -- gen_assignment
    · intro t v st
      simp only [gen_assignment]
      have hV : WExt st (gen_expr ck f v "HL" st) := hgE v "HL" st
      obtain ⟨trt, tnode⟩ := t
      cases tnode
      case identifier name =>
        dsimp only
        rcases hd : dictGet name (gen_expr ck f v "HL" st).vars with _ | var <;>
          simp only [hd]
        · exact hV
        · split
          · exact (hV.push _).push _
          · exact hV.push _
      case arrayAccess a i =>
        dsimp only
        split
        · exact (((((hV.push _).trans (hgAD a i _)).push _).push _).push _).push _
        · exact (((((((hV.push _).trans (hgAD a i _)).push _).push _).push _).push _).push _).push _
      case fieldAccess r fn =>
        dsimp only
        split
        · exact (((((hV.push _).trans (hgFD r fn _)).push _).push _).push _).push _
        · exact (((((((hV.push _).trans (hgFD r fn _)).push _).push _).push _).push _).push _).push _
      case dereference ptr =>
        dsimp only
        split
        · exact (((((hV.push _).trans (hgE ptr "HL" _)).push _).push _).push _).push _
        · exact (((((((hV.push _).trans (hgE ptr "HL" _)).push _).push _).push _).push _).push _).push _
      all_goals exact hV
    -- gen_multi_assignment
    · intro ts v st
      simp only [gen_multi_assignment]
      refine (hgE v "HL" st).trans
        (wext_foldl_pair _ ?_ ts (gen_expr ck f v "HL" st, false))
      intro s t
      obtain ⟨trt, tnode⟩ := t
      have h0 : WExt s.1 (if s.2 = true then emit s.1 "\tPOP\tH" else s.1) := by
        split
        · exact wext_emit _ _
        · exact WExt.self _
      cases tnode
      case identifier name =>
        dsimp only
        rcases hd : dictGet name
            (if s.2 = true then emit s.1 "\tPOP\tH" else s.1).vars with _ | var <;>
          simp only [hd]
        · exact h0.push _
        · split
          · exact (h0.push _).push _
          · exact h0.push _
      all_goals exact h0
    -- gen_if
    · intro c tb ei eb st
      simp only [gen_if]
      rcases h1 : new_label "ELSE" st with ⟨el, st1⟩
      simp only [h1]
      rcases h2 : new_label "ENDIF" st1 with ⟨endl, st2⟩
      simp only [h2]
      have w4 : WExt st (emit (gen_expr ck f c "A" st2) "\tORA\tA") :=
        (((wext_of_new_label h1).trans (wext_of_new_label h2)).trans
          (hgE c "A" st2)).push _
      by_cases hM : (!ei.isEmpty || !eb.isEmpty) = true
      · simp only [if_pos hM]
        rcases h3 : gen_elseifs ck f ei (!eb.isEmpty) el endl
            (emit (gen_stmts ck f tb
              (emit (emit (gen_expr ck f c "A" st2) "\tORA\tA") ("\tJZ\t" ++ el)))
              ("\tJMP\t" ++ endl)) with ⟨el2, st6⟩
        simp only [h3]
        have w7 : WExt st st6 := by
          have h9 := ihEI ei (!eb.isEmpty) el endl
            (emit (gen_stmts ck f tb
              (emit (emit (gen_expr ck f c "A" st2) "\tORA\tA") ("\tJZ\t" ++ el)))
              ("\tJMP\t" ++ endl))
          rw [h3] at h9
          exact ((w4.push _).trans (ihStmts tb _)).push _ |>.trans h9
        split
        · exact ((w7.push _).trans (ihStmts eb _)).push _
        · exact w7.push _
      · simp only [if_neg hM]
        rcases h3 : gen_elseifs ck f ei (!eb.isEmpty) el endl
            (gen_stmts ck f tb
              (emit (emit (gen_expr ck f c "A" st2) "\tORA\tA") ("\tJZ\t" ++ endl)))
          with ⟨el2, st6⟩
        simp only [h3]
        have w7 : WExt st st6 := by
          have h9 := ihEI ei (!eb.isEmpty) el endl
            (gen_stmts ck f tb
              (emit (emit (gen_expr ck f c "A" st2) "\tORA\tA") ("\tJZ\t" ++ endl)))
          rw [h3] at h9
          exact ((w4.push _).trans (ihStmts tb _)).trans h9
        split
        · exact ((w7.push _).trans (ihStmts eb _)).push _
        · exact w7.push _
    -- gen_elseifs
    · intro ei heb el endl st
      cases ei with
      | nil =>
        simp only [gen_elseifs]
        exact WExt.self st
      | cons hd rest =>
        rcases hd with ⟨c, body⟩
        simp only [gen_elseifs]
        by_cases hC : (!rest.isEmpty || heb) = true
        · simp only [if_pos hC]
          rcases hn : new_label "ELIF" (emit_label st el) with ⟨nl, st2⟩
          simp only [hn]
          exact (((((((wext_emit st _).trans (wext_of_new_label hn)).trans
            (hgE c "A" st2)).push _).push _).trans (ihStmts body _)).push _).trans
            (ihEI rest heb nl endl _)
        · simp only [if_neg hC]
          exact ((((((wext_emit st _).trans (hgE c "A" _)).push _).push _).trans
            (ihStmts body _)).push _).trans (ihEI rest heb endl endl _)
    -- gen_while
    · intro c b st
      simp only [gen_while]
      rcases h1 : new_label "WHILE" st with ⟨ll, st1⟩
      simp only [h1]
      rcases h2 : new_label "ENDW" st1 with ⟨el, st2⟩
      simp only [h2]
      have w3 : WExt st ({ st2 with break_labels := st2.break_labels ++ [el],
                                    continue_labels := st2.continue_labels ++ [ll] }
          : CodeGenerator) :=
        wext_setLoop ((wext_of_new_label h1).trans (wext_of_new_label h2)) _ _
      exact wext_setLoop (((((((w3.push _).trans (hgE c "A" _)).push _).push _).trans
        (ihStmts b _)).push _).push _) _ _
    -- gen_loop
    · intro b st
      simp only [gen_loop]
      rcases h1 : new_label "LOOP" st with ⟨ll, st1⟩
      simp only [h1]
      rcases h2 : new_label "ENDL" st1 with ⟨el, st2⟩
      simp only [h2]
      have w3 : WExt st ({ st2 with break_labels := st2.break_labels ++ [el],
                                    continue_labels := st2.continue_labels ++ [ll] }
          : CodeGenerator) :=
        wext_setLoop ((wext_of_new_label h1).trans (wext_of_new_label h2)) _ _
      exact wext_setLoop ((((w3.push _).trans (ihStmts b _)).push _).push _) _ _
    -- gen_case
    · intro sc w eb st
      simp only [gen_case]
      rcases h1 : new_label "ENDC" st with ⟨endl, st1⟩
      simp only [h1]
      have w2 : WExt st
          (emit (gen_whens ck f w endl
            (emit (gen_expr ck f sc "HL" st1) "\tPUSH\tH")) "\tPOP\tH") :=
        ((((wext_of_new_label h1).trans (hgE sc "HL" st1)).push _).trans
          (ihWhens w endl _)).push _
      split
      · exact (w2.trans (ihStmts eb _)).push _
      · exact w2.push _
    -- gen_whens
    · intro w el st
      cases w with
      | nil =>
        simp only [gen_whens]
        exact WExt.self st
      | cons hd rest =>
        rcases hd with ⟨values, body⟩
        simp only [gen_whens]
        rcases h1 : new_label "WHEN" st with ⟨nw, st1⟩
        simp only [h1]
        refine ((((((wext_of_new_label h1).trans
          (wext_foldl _ ?_ values st1)).push _).trans (ihStmts body _)).push _).push _).trans
          (ihWhens rest el _)
        intro s v
        dsimp only
        exact ((((((((((((WExt.self s).push _).push _).trans
          (hgE v "HL" _)).push _).push _).push _).push _).push _).push _).push _).push _).push _
    -- gen_sub
    · intro decl st
      simp only [gen_sub]
      rcases hB : decl.body with _ | body <;> simp only [hB]
      · exact WExt.self st
      · refine wext_pop_current ?_ _
        split
        · refine WExt.trans ?_ ((wext_sub_epilogue _ _).push _)
          refine WExt.trans ?_ (ihStmts body _)
          refine WExt.trans ?_ (wext_sub_prologue _ _)
          refine WExt.trans ?_ (wext_foldl _ (fun (s : CodeGenerator) (r : String × CowType) => wext_alloc ck r.1 r.2 s) _ _)
          refine WExt.trans ?_ (wext_foldl _ (fun (s : CodeGenerator) (p : String × CowType) => wext_alloc ck p.1 p.2 s) _ _)
          refine WExt.trans ?_ (wext_emit _ _)
          refine WExt.trans ?_ (wext_ext_block _ decl.extern_name)
          exact ((wext_set rfl rfl rfl rfl).push _).push _
        · refine WExt.trans ?_ (wext_foldl _ (fun s n => ihSub n s) _ _)
          refine wext_setNested ?_ _
          refine WExt.trans ?_ ((wext_sub_epilogue _ _).push _)
          refine WExt.trans ?_ (ihStmts body _)
          refine WExt.trans ?_ (wext_sub_prologue _ _)
          refine WExt.trans ?_ (wext_foldl _ (fun (s : CodeGenerator) (r : String × CowType) => wext_alloc ck r.1 r.2 s) _ _)
          refine WExt.trans ?_ (wext_foldl _ (fun (s : CodeGenerator) (p : String × CowType) => wext_alloc ck p.1 p.2 s) _ _)
          refine WExt.trans ?_ (wext_emit _ _)
          refine WExt.trans ?_ (wext_ext_block _ decl.extern_name)
          exact ((wext_set rfl rfl rfl rfl).push _).push _


/-! ## Weak evolution and output factorization of `gen_program` -/

theorem foldl_emit_id (ls : List String) (st : CodeGenerator) :
    ls.foldl emit st = { st with output := st.output ++ ls } := by
  induction ls generalizing st with
  | nil => simp
  | cons l rest ih =>
    simp only [List.foldl_cons]
    rw [ih]
    simp [emit, List.append_assoc]

theorem gen_program_factored (ck : TypeChecker) (fuel : Nat)
    (program : Program) (st : CodeGenerator) :
    gen_program ck fuel program st = prog_tail (prog_mid ck fuel program st) :=
  rfl

theorem prog_mid_factored (ck : TypeChecker) (fuel : Nat)
    (program : Program) (st : CodeGenerator) :
    prog_mid ck fuel program st =
      prog_body ck fuel program (headerLines.foldl emit st) :=
  rfl

theorem prog_tail_spec (st : CodeGenerator) :
    prog_tail st = { st with output :=
        st.output ++ st.vars.map ds_line ++
          st.string_literals.map db_line ++ ["", "\tEND"] } := by
  simp only [prog_tail]
  rw [foldl_emit_eq]
  rw [foldl_emit_eq]
  simp [emit, List.append_assoc]

theorem wext_decl_fold_step (ck : TypeChecker) (fuel : Nat) :
    ∀ (s : CodeGenerator) (d : TopDecl),
      WExt s (match d with
              | TopDecl.sub decl => gen_sub ck fuel decl s
              | TopDecl.otherDecl => s) := by
  intro s d
  rcases d with decl | _
  · exact (stmt_pass ck fuel).2.2.2.2.2.2.2.2.2.2.2.2 decl s
  · exact WExt.self s

theorem wext_prepass_step (ck : TypeChecker) :
    ∀ (s : CodeGenerator) (stm : Stmt),
      WExt s (match stm with
              | Stmt.varDecl name _ _ _ =>
                (match ck.lookup_var name with
                 | some t => (allocate_var ck name t s).2
                 | none => s)
              | _ => s) := by
  intro s stm
  cases stm
  case varDecl name tn rt init =>
    dsimp only
    rcases hv : ck.lookup_var name with _ | t <;> simp only [hv]
    · exact WExt.self s
    · exact wext_alloc ck name t s
  all_goals exact WExt.self s

theorem prog_body_wext (ck : TypeChecker) (fuel : Nat) (program : Program)
    (st : CodeGenerator) : WExt st (prog_body ck fuel program st) := by
  unfold prog_body
  refine WExt.trans ?_ (wext_emit _ _)
  refine WExt.trans ?_ (wext_emit _ _)
  refine WExt.trans ?_ (wext_emit _ _)
  refine WExt.trans ?_ (wext_emit _ _)
  refine WExt.trans ?_ ((stmt_pass ck fuel).2.1 program.statements _)
  refine WExt.trans ?_ (wext_emit _ _)
  refine WExt.trans ?_ (wext_emit _ _)
  refine WExt.trans ?_ (wext_emit _ _)
  refine WExt.trans ?_
    (wext_foldl _ (wext_decl_fold_step ck fuel) program.declarations _)
  exact wext_foldl _ (wext_prepass_step ck) program.statements st

theorem prog_tail_wext (st : CodeGenerator) : WExt st (prog_tail st) := by
  rw [prog_tail_spec]
  exact ⟨⟨st.vars.map ds_line ++ st.string_literals.map db_line ++
    ["", "\tEND"], by simp⟩, le_rfl, id, id⟩

theorem wext_header_fold (st : CodeGenerator) :
    WExt st (headerLines.foldl emit st) := by
  rw [foldl_emit_id]
  exact ⟨⟨headerLines, rfl⟩, le_rfl, id, id⟩

theorem prog_mid_wext (ck : TypeChecker) (fuel : Nat) (program : Program)
    (st : CodeGenerator) : WExt st (prog_mid ck fuel program st) := by
  rw [prog_mid_factored]
  exact (wext_header_fold st).trans (prog_body_wext ck fuel program _)

theorem prog_pass (ck : TypeChecker) (fuel : Nat) (program : Program)
    (st : CodeGenerator) : WExt st (gen_program ck fuel program st) := by
  rw [gen_program_factored]
  exact (prog_mid_wext ck fuel program st).trans (prog_tail_wext _)


/-- C10: the variable table is keyed by the unmangled name only.
`allocate_var` always `dictInsert`s under the bare name while advancing
`data_offset` by the size (first conjunct, the exact equation of the
method); re-inserting an existing key overwrites its value in place and
adds no new key (second conjunct); concretely, generating the program with
subroutines `g1` (parameter `x`, 1 byte) and `g2` (parameter `x`, 2 bytes)
leaves a single table entry for `x` carrying `g2`\x27s size and offset, a
`data_offset` advanced by both allocations (1 + 2 = 3), and a data segment
with exactly one `v_x` DS line, sized by the last allocation (2), and none
sized by the first (1). -/
theorem c10_var_table_keyed_by_name :
    (∀ (ck : TypeChecker) (n : String) (t : CowType) (st : CodeGenerator),
       allocate_var ck n t st =
         (⟨n, t, st.data_offset, type_size ck (some t)⟩,
          { st with
              vars := dictInsert n
                ⟨n, t, st.data_offset, type_size ck (some t)⟩ st.vars,
              data_offset := st.data_offset + type_size ck (some t) })) ∧
    (∀ {α : Type} (n : String) (v1 v2 : α) (m : List (String × α)),
       dictGet n (dictInsert n v2 (dictInsert n v1 m)) = some v2 ∧
       (dictInsert n v2 (dictInsert n v1 m)).map Prod.fst =
         (dictInsert n v1 m).map Prod.fst) ∧
    (dictGet "x" (gen_program exChecker 8 exProgShared {}).vars =
       some ⟨"x", exU16, 1, 2⟩ ∧
     (gen_program exChecker 8 exProgShared {}).data_offset = 3 ∧
     (gen_program exChecker 8 exProgShared {}).output.count "v_x:\tDS\t2" = 1 ∧
     (gen_program exChecker 8 exProgShared {}).output.count "v_x:\tDS\t1" = 0) := by
  refine ⟨fun ck n t st => rfl, fun n v1 v2 m => ⟨dictGet_insert_self n v2 _, ?_⟩,
    by decide, by decide, by decide, by decide⟩
  rw [keys_dictInsert]
  simp [dictGet_insert_self]

/-- C6: string interning is idempotent and the data segment has one `DB`
line per pool entry.  A second `get_string_label` on an already-interned
value returns the same label and the unchanged state (first conjunct);
the interned value maps to the returned label (second conjunct, so equal
values share one label); and for every generation the final string pool has
pairwise-distinct value keys — one entry per distinct literal value — and
the output ends with exactly the `DB` rendering of that pool followed by
the blank line and `END` (third conjunct). -/
theorem c6_interning_idempotent_one_db_per_value :
    (∀ (v : String) (st : CodeGenerator),
       get_string_label v (get_string_label v st).2 =
         ((get_string_label v st).1, (get_string_label v st).2)) ∧
    (∀ (v : String) (st : CodeGenerator),
       dictGet v (get_string_label v st).2.string_literals =
         some (get_string_label v st).1) ∧
    (∀ (ck : TypeChecker) (fuel : Nat) (program : Program),
       distinctKeys (gen_program ck fuel program {}).string_literals ∧
       ∃ pre, (gen_program ck fuel program {}).output =
         pre ++ (gen_program ck fuel program {}).string_literals.map db_line ++
           ["", "\tEND"]) := by
  refine ⟨?_, ?_, ?_⟩
  · intro v st
    rcases hd : dictGet v st.string_literals with _ | l
    · simp only [get_string_label, hd]
      rcases hn : new_label "STR" st with ⟨lbl, st1⟩
      simp only [hn]
      simp [get_string_label, dictGet_insert_self]
    · simp [get_string_label, hd]
  · intro v st
    rcases hd : dictGet v st.string_literals with _ | l
    · simp only [get_string_label, hd]
      rcases hn : new_label "STR" st with ⟨lbl, st1⟩
      simp only [hn]
      simp [dictGet_insert_self]
    · simp [get_string_label, hd]
  · intro ck fuel program
    constructor
    · exact (prog_pass ck fuel program {}).2.2.1 (by simp [distinctKeys])
    · rw [gen_program_factored, prog_tail_spec]
      exact ⟨(prog_mid ck fuel program {}).output ++
        (prog_mid ck fuel program {}).vars.map ds_line, by simp [List.append_assoc]⟩

/-- C5: `new_label` appends the bumped shared counter to the caller\x27s
prefix (first conjunct, the exact equation of the method); names built from
digit-free prefixes and distinct counter values never collide, even with
equal prefixes (second conjunct); and the counter never decreases across
any expression, statement, or whole-program lowering (remaining conjuncts),
so any two `new_label` calls during one generation see distinct counter
values and hence return distinct labels. -/
theorem c5_shared_counter_labels_distinct :
    (∀ (pfx : String) (st : CodeGenerator),
       new_label pfx st =
         (pfx ++ natRepr (st.label_counter + 1),
          { st with label_counter := st.label_counter + 1 })) ∧
    (∀ (p1 p2 : String) (n1 n2 : Nat),
       (∀ c ∈ p1.data, c.isDigit = false) →
       (∀ c ∈ p2.data, c.isDigit = false) →
       n1 ≠ n2 → p1 ++ natRepr n1 ≠ p2 ++ natRepr n2) ∧
    (∀ (ck : TypeChecker) (fuel : Nat) (e : Expr) (tgt : String)
       (st : CodeGenerator),
       st.label_counter ≤ (gen_expr ck fuel e tgt st).label_counter) ∧
    (∀ (ck : TypeChecker) (fuel : Nat) (stmt : Stmt) (st : CodeGenerator),
       st.label_counter ≤ (gen_stmt ck fuel stmt st).label_counter) ∧
    (∀ (ck : TypeChecker) (fuel : Nat) (program : Program)
       (st : CodeGenerator),
       st.label_counter ≤ (gen_program ck fuel program st).label_counter) :=
  ⟨fun pfx st => rfl,
   fun p1 p2 n1 n2 h1 h2 hne => label_name_inj h1 h2 hne,
   fun ck fuel e tgt st => ((expr_pass ck fuel).1 e tgt st).2.1,
   fun ck fuel stmt st => ((stmt_pass ck fuel).1 stmt st).2.1,
   fun ck fuel program st => (prog_pass ck fuel program st).2.1⟩

/-- Witness for C5: the digit-free-prefix hypotheses of the collision
conjunct hold at `"WHILE"`, and the conjunct separates `WHILE1` from
`WHILE2`. -/
theorem c5_witness :
    (∀ c ∈ ("WHILE" : String).data, c.isDigit = false) ∧
      ("WHILE" : String) ++ natRepr 1 ≠ "WHILE" ++ natRepr 2 :=
  ⟨by decide,
   c5_shared_counter_labels_distinct.2.1 "WHILE" "WHILE" 1 2 (by decide)
     (by decide) (by decide)⟩


/-! ## Injectivity of data-segment `DS` lines in their variable name -/

theorem tab_sep_inj :
    ∀ (l1 l2 r1 r2 : List Char), (∀ c ∈ l1, c ≠ '\t') → (∀ c ∈ l2, c ≠ '\t') →
    l1 ++ '\t' :: r1 = l2 ++ '\t' :: r2 → l1 = l2 ∧ r1 = r2 := by
  intro l1
  induction l1 with
  | nil =>
    intro l2 r1 r2 h1 h2 heq
    cases l2 with
    | nil =>
      simp only [List.nil_append, List.cons.injEq, true_and] at heq
      exact ⟨rfl, heq⟩
    | cons b t2 =>
      simp only [List.nil_append, List.cons_append, List.cons.injEq] at heq
      exact absurd heq.1.symm (h2 b (by simp))
  | cons a t ih =>
    intro l2 r1 r2 h1 h2 heq
    cases l2 with
    | nil =>
      simp only [List.cons_append, List.nil_append, List.cons.injEq] at heq
      exact absurd heq.1 (h1 a (by simp))
    | cons b t2 =>
      simp only [List.cons_append, List.cons.injEq] at heq
      obtain ⟨hab, ht⟩ := heq
      obtain ⟨hteq, hreq⟩ := ih t2 r1 r2 (fun c hc => h1 c (by simp [hc]))
        (fun c hc => h2 c (by simp [hc])) ht
      exact ⟨by rw [hab, hteq], hreq⟩

/-- Two `DS` lines can only coincide when their (tab-free) variable names
coincide: the name ends at the first tab of the rendered line. -/
theorem ds_line_name_inj {k1 k2 : String} {v1 v2 : Variable}
    (h1 : ∀ c ∈ k1.data, c ≠ '\t') (h2 : ∀ c ∈ k2.data, c ≠ '\t')
    (heq : ds_line (k1, v1) = ds_line (k2, v2)) : k1 = k2 := by
  have hd := congrArg String.data heq
  simp only [ds_line, mangle_name, str_data_append,
    show ("v_" : String).data = ['v', '_'] from rfl,
    show (":\tDS\t" : String).data = [':', '\t', 'D', 'S', '\t'] from rfl] at hd
  have hre : ('v' :: '_' :: (k1.data ++ [':'])) ++
      '\t' :: ('D' :: 'S' :: '\t' :: (natRepr v1.size).data) =
      ('v' :: '_' :: (k2.data ++ [':'])) ++
      '\t' :: ('D' :: 'S' :: '\t' :: (natRepr v2.size).data) := by
    simpa [List.append_assoc] using hd
  have tf : ∀ (k : String), (∀ c ∈ k.data, c ≠ '\t') →
      ∀ c ∈ 'v' :: '_' :: (k.data ++ [':']), c ≠ '\t' := by
    intro k hk c hc
    simp only [List.mem_cons, List.mem_append] at hc
    rcases hc with rfl | rfl | hc | rfl | hc
    · decide
    · decide
    · exact hk c hc
    · decide
    · simp at hc
  have htp := tab_sep_inj _ _ _ _ (tf k1 h1) (tf k2 h2) hre
  have hkap : k1.data ++ [':'] = k2.data ++ [':'] := by
    have := htp.1
    simp only [List.cons.injEq, true_and] at this
    exact this
  have hdata : k1.data = k2.data := (List.append_inj' hkap rfl).1
  cases k1
  cases k2
  exact congrArg String.mk hdata

/-- In a table with pairwise-distinct, tab-free names, the `DS` rendering
of the entry found under `k` occurs exactly once among all rendered
lines. -/
theorem count_ds_line_of_distinct :
    ∀ (m : List (String × Variable)) (k : String) (var : Variable),
      distinctKeys m → dictGet k m = some var →
      (∀ e ∈ m, ∀ c ∈ e.1.data, c ≠ '\t') → (∀ c ∈ k.data, c ≠ '\t') →
      (m.map ds_line).count (ds_line (k, var)) = 1 := by
  intro m
  induction m with
  | nil =>
    intro k var _ hg _ _
    simp [dictGet] at hg
  | cons e rest ih =>
    intro k var hd hg htab hk
    obtain ⟨k', v'⟩ := e
    simp only [distinctKeys, List.map_cons, List.nodup_cons] at hd
    obtain ⟨hnotin, hnd⟩ := hd
    simp only [dictGet] at hg
    by_cases hk' : k' = k
    · rw [if_pos hk'] at hg
      have hvv : v' = var := by simpa using hg
      subst hvv
      subst hk'
      have hz : (rest.map ds_line).count (ds_line (k', v')) = 0 := by
        rw [List.count_eq_zero]
        intro hmem
        obtain ⟨e2, he2, heq2⟩ := List.mem_map.mp hmem
        obtain ⟨k2, v2⟩ := e2
        have hk2 : k2 = k' :=
          ds_line_name_inj (htab (k2, v2) (by simp [he2])) hk heq2
        exact hnotin (hk2 ▸ List.mem_map.mpr ⟨(k2, v2), he2, rfl⟩)
      simp [List.count_cons, hz]
    · rw [if_neg hk'] at hg
      have hne : ds_line (k', v') ≠ ds_line (k, var) := by
        intro heq2
        exact hk' (ds_line_name_inj (htab (k', v') (by simp)) hk heq2)
      have hrest := ih k var hnd hg (fun e2 he2 => htab e2 (by simp [he2])) hk
      simp [List.count_cons, hrest, Ne.symm hne]


/-- C7 (counterexample): for the program `var x: uint16;` at top level plus
subroutine `g1` with a 1-byte parameter also named `x`, the data segment
contains NO line `v_x:\tDS\t2` at all: the pre-pass allocation of the
2-byte top-level `x` is overwritten by `g1`\x27s parameter allocation
(the table is keyed by bare name), so the single emitted `DS` line carries
the parameter\x27s size 1, not the declared variable\x27s size 2 as the
claim requires. -/
theorem c7_counterexample :
    (gen_program exChecker 8 exProgX {}).output.count "v_x:\tDS\t2" = 0 ∧
    (gen_program exChecker 8 exProgX {}).output.count "v_x:\tDS\t1" = 1 ∧
    dictGet "x" (gen_program exChecker 8 exProgX {}).vars =
      some ⟨"x", exU8, 2, 1⟩ := by
  refine ⟨?_, ?_, ?_⟩ <;> decide

/-- C7 (amended): the data segment contains exactly one `DS` line per entry
of the FINAL variable table, whose size is the one of the LAST allocation
under that name (a subroutine parameter or return sharing a top-level
variable\x27s name overwrites it).  Formally: the final table of every
generation has pairwise-distinct keys (first conjunct); for every state
whose table has distinct, tab-free names, the `DS` rendering of the entry
found under a name occurs exactly once among the rendered lines (second
conjunct); and the output of every generation is some prefix followed by
exactly those rendered lines, the `DB` lines, the blank line and `END`
(third conjunct). -/
theorem c7_amended_one_ds_per_final_entry :
    (∀ (ck : TypeChecker) (fuel : Nat) (program : Program),
       distinctKeys (gen_program ck fuel program {}).vars) ∧
    (∀ (st : CodeGenerator) (k : String) (var : Variable),
       distinctKeys st.vars → dictGet k st.vars = some var →
       (∀ e ∈ st.vars, ∀ c ∈ (e.1 : String).data, c ≠ '\t') →
       (∀ c ∈ k.data, c ≠ '\t') →
       (st.vars.map ds_line).count (ds_line (k, var)) = 1) ∧
    (∀ (ck : TypeChecker) (fuel : Nat) (program : Program),
       ∃ pre, (gen_program ck fuel program {}).output =
         pre ++ (gen_program ck fuel program {}).vars.map ds_line ++
           (gen_program ck fuel program {}).string_literals.map db_line ++
           ["", "\tEND"]) := by
  refine ⟨?_, ?_, ?_⟩
  · intro ck fuel program
    exact (prog_pass ck fuel program {}).2.2.2 (by simp [distinctKeys])
  · intro st k var hd hg htab hk
    exact count_ds_line_of_distinct st.vars k var hd hg htab hk
  · intro ck fuel program
    rw [gen_program_factored, prog_tail_spec]
    exact ⟨(prog_mid ck fuel program {}).output, by simp [List.append_assoc]⟩

/-- Witness for C7 (amended): the hypotheses of the counting conjunct hold
at a one-entry table for `x`, where the count is 1. -/
theorem c7_witness :
    (distinctKeys ({ vars := [("x", ⟨"x", exU8, 2, 1⟩)] } : CodeGenerator).vars ∧
     dictGet "x" ({ vars := [("x", ⟨"x", exU8, 2, 1⟩)] } : CodeGenerator).vars =
       some ⟨"x", exU8, 2, 1⟩ ∧
     (∀ c ∈ ("x" : String).data, c ≠ '\t')) ∧
    (({ vars := [("x", ⟨"x", exU8, 2, 1⟩)] } : CodeGenerator).vars.map
      ds_line).count (ds_line ("x", ⟨"x", exU8, 2, 1⟩)) = 1 :=
  ⟨⟨by unfold distinctKeys; decide, by decide, by decide⟩,
   c7_amended_one_ds_per_final_entry.2.1
     ({ vars := [("x", ⟨"x", exU8, 2, 1⟩)] } : CodeGenerator) "x"
     ⟨"x", exU8, 2, 1⟩ (by unfold distinctKeys; decide) (by decide)
     (by intro e he c hc
         simp only [List.mem_singleton] at he
         subst he
         simp only [show ("x" : String).data = ['x'] from rfl,
           List.mem_singleton] at hc
         subst hc
         decide)
     (by decide)⟩


/-! ## Conditional-safe-evolution combinators (claim C8 groundwork) -/

theorem sok_emit {ck : TypeChecker} {l : String} (st : CodeGenerator)
    (h : mainEndFree l) : SOK ck st (emit st l) :=
  fun q => ⟨⟨[l], Eq.refl _, by simpa using h⟩, q⟩

theorem sok_of_exprext {ck : TypeChecker} {st st' : CodeGenerator}
    (h : ExprExt st st') : SOK ck st st' := fun q =>
  ⟨h.1, fun s hs => q s (by rw [← h.2.2.2.1]; exact hs)⟩

theorem sok_of_new_label {ck : TypeChecker} {p lbl : String}
    {st st' : CodeGenerator} (h : new_label p st = (lbl, st')) :
    SOK ck st st' := sok_of_exprext (ExprExt.of_new_label h)

theorem sok_gsl {ck : TypeChecker} {v lbl : String} {st st' : CodeGenerator}
    (h : get_string_label v st = (lbl, st')) : SOK ck st st' :=
  sok_of_exprext (ExprExt.of_gsl h)

theorem sok_alloc (ck ck2 : TypeChecker) (n : String) (t : CowType)
    (st : CodeGenerator) : SOK ck st (allocate_var ck2 n t st).2 :=
  fun q => ⟨⟨[], by simp [allocate_var], by simp⟩, q⟩

/-- A record update leaving output and queue alone. -/
theorem sok_set {ck : TypeChecker} {st st' : CodeGenerator}
    (ho : st'.output = st.output) (hn : st'.nested_subs = st.nested_subs) :
    SOK ck st st' :=
  fun q => ⟨⟨[], by rw [ho]; simp, by simp⟩, fun s hs => q s (hn ▸ hs)⟩

/-- Queueing a nested subroutine that itself satisfies `sub_ok`. -/
theorem sok_queue {ck : TypeChecker} {sub : SubDecl} (st : CodeGenerator)
    (h : sub_ok ck sub = true) :
    SOK ck st { st with nested_subs := st.nested_subs ++ [sub] } := fun q =>
  ⟨⟨[], by simp, by simp⟩, fun s hs => by
    rcases List.mem_append.mp hs with hs | hs
    · exact q s hs
    · rw [List.mem_singleton.mp hs]
      exact h⟩

theorem sok_pop_current {ck : TypeChecker} {st st' : CodeGenerator}
    (h : SOK ck st st') (c : Option String) :
    SOK ck st { st' with current_sub := c } :=
  h.trans (sok_set rfl rfl)

theorem sok_setLoop {ck : TypeChecker} {st st' : CodeGenerator}
    (h : SOK ck st st') (bl cl : List String) :
    SOK ck st { st' with break_labels := bl, continue_labels := cl } :=
  h.trans (sok_set rfl rfl)

theorem sok_foldl {α : Type} {ck : TypeChecker}
    (f : CodeGenerator → α → CodeGenerator) :
    ∀ (l : List α), (∀ s a, a ∈ l → SOK ck s (f s a)) →
    ∀ st, SOK ck st (l.foldl f st) := by
  intro l
  induction l with
  | nil => exact fun _ st => SOK.self ck st
  | cons a rest ih =>
    intro hf st
    exact (hf st a (by simp)).trans
      (ih (fun s x hx => hf s x (by simp [hx])) (f st a))

theorem sok_foldl_pair {α β : Type} {ck : TypeChecker}
    (f : CodeGenerator × β → α → CodeGenerator × β)
    (hf : ∀ s a, SOK ck s.1 (f s a).1) :
    ∀ (l : List α) (acc : CodeGenerator × β), SOK ck acc.1 (l.foldl f acc).1 := by
  intro l
  induction l with
  | nil => exact fun acc => SOK.self ck acc.1
  | cons a rest ih => exact fun acc => (hf acc a).trans (ih (f acc a))

/-! ### `mainEndFree` discharge helpers -/

theorem mef_of_cons2 {s : String} {a b : Char} {t : List Char}
    (h : s.data = a :: b :: t) (hm : ¬(a = '_' ∧ b = 'm'))
    (he : ¬(a = '\t' ∧ b = 'E')) : mainEndFree s := by
  constructor
  · intro heq
    rw [heq] at h
    simp only [show ("_main:" : String).data = ['_', 'm', 'a', 'i', 'n', ':']
      from rfl, List.cons.injEq] at h
    exact hm ⟨h.1.symm, h.2.1.symm⟩
  · intro heq
    rw [heq] at h
    simp only [show ("\tEND" : String).data = ['\t', 'E', 'N', 'D'] from rfl,
      List.cons.injEq] at h
    exact he ⟨h.1.symm, h.2.1.symm⟩

theorem mef_of_head_tab {s : String} {t : List Char} (h : s.data = '\t' :: t)
    (hE : s ≠ "\tEND") : mainEndFree s := by
  refine ⟨?_, hE⟩
  intro heq
  rw [heq] at h
  simp only [show ("_main:" : String).data = ['_', 'm', 'a', 'i', 'n', ':']
    from rfl, List.cons.injEq] at h
  exact absurd h.1.symm (by decide)

theorem mef_of_last_zero {s : String} (h : s.data.getLast? = some '0') :
    mainEndFree s := by
  constructor
  · intro heq
    rw [heq] at h
    exact absurd h (by decide)
  · intro heq
    rw [heq] at h
    exact absurd h (by decide)

/-- A declaration-level label line `name ++ ":"` is safe when `name` is not
`_main`. -/
theorem name_colon_mef {name : String} (h : name ≠ "_main") :
    mainEndFree (name ++ ":") := by
  refine ⟨?_, concat_colon_ne_END name⟩
  intro heq
  apply h
  have hd := congrArg String.data heq
  rw [str_data_append] at hd
  have : name.data ++ [':'] = ("_main" : String).data ++ [':'] := by
    simpa using hd
  have hdm := (List.append_inj' this rfl).1
  cases name
  exact congrArg String.mk hdm

/-- The label emitted for a subroutine is safe when the subroutine is not
named `_main`. -/
theorem mangle_label_mef {name : String} (h : name ≠ "_main") :
    mainEndFree (mangle_sub_name name ++ ":") := by
  unfold mangle_sub_name
  split
  · refine ⟨?_, concat_colon_ne_END _⟩
    intro heq
    have hd := congrArg String.data heq
    rw [str_data_append, str_data_append] at hd
    simp only [show ("s_" : String).data = ['s', '_'] from rfl,
      show (":" : String).data = [':'] from rfl,
      show ("_main:" : String).data = ['_', 'm', 'a', 'i', 'n', ':'] from rfl,
      List.cons_append, List.cons.injEq] at hd
    exact absurd hd.1 (by decide)
  · exact name_colon_mef h

/-- The single line `gen_asm` emits is safe as soon as it is not the bare
`END` directive: it always starts with a tab. -/
theorem render_asm_mef (ck : TypeChecker) (parts : List AsmPart)
    (h : render_asm ck parts ≠ "\tEND") : mainEndFree (render_asm ck parts) := by
  have hd : (render_asm ck parts).data =
      '\t' :: (asm_join (parts.map (asm_part ck))).data := by
    rw [render_asm, str_data_append]
    rfl
  exact mef_of_head_tab hd h

theorem ds_line_mef (nv : String × Variable) : mainEndFree (ds_line nv) := by
  have hd : (ds_line nv).data = 'v' :: '_' ::
      (nv.1.data ++ ((":\tDS\t" : String).data ++ (natRepr nv.2.size).data)) := by
    simp [ds_line, mangle_name, str_data_append,
      show ("v_" : String).data = ['v', '_'] from rfl]
  exact mef_of_cons2 hd (by decide) (by decide)

theorem db_line_mef (vl : String × String) : mainEndFree (db_line vl) := by
  refine mef_of_last_zero ?_
  unfold db_line
  split
  · rw [str_data_append,
      show ((",0" : String).data = [','] ++ ['0']) from rfl,
      ← List.append_assoc, List.getLast?_concat]
  · rw [str_data_append,
      show ((":\tDB\t0" : String).data =
        [':', '\t', 'D', 'B', '\t'] ++ ['0']) from rfl,
      ← List.append_assoc, List.getLast?_concat]


/-- Generic first-two-characters test for `mainEndFree`. -/
theorem mef_take2 (c1 c2 : Char) {s : String} (h : s.data.take 2 = [c1, c2])
    (hm : ¬(c1 = '_' ∧ c2 = 'm')) (he : ¬(c1 = '\t' ∧ c2 = 'E')) :
    mainEndFree s := by
  constructor
  · intro heq
    rw [heq] at h
    simp only [show (("_main:" : String).data.take 2 = ['_', 'm']) from rfl,
      List.cons.injEq] at h
    exact hm ⟨h.1.symm, h.2.1.symm⟩
  · intro heq
    rw [heq] at h
    simp only [show (("\tEND" : String).data.take 2 = ['\t', 'E']) from rfl,
      List.cons.injEq] at h
    exact he ⟨h.1.symm, h.2.1.symm⟩

theorem sok_sub_prologue {ck : TypeChecker} (params : List (String × CowType))
    (st : CodeGenerator) : SOK ck st (sub_prologue params st) := by
  unfold sub_prologue
  refine sok_foldl_pair _ ?_ params (st, 2)
  intro s p
  rcases hd : dictGet p.1 s.1.vars with _ | var
  · simp only [hd]
    exact SOK.self ck s.1
  · simp only [hd]
    by_cases hsz : var.size = 1
    · simp only [if_pos hsz]
      exact (SOK.self ck _).push (mef_pre _ _ (by decide)) |>.push (by decide)
        |>.push (by decide) |>.push (mef_pre _ _ (by decide))
    · simp only [if_neg hsz]
      exact (SOK.self ck _).push (mef_pre _ _ (by decide)) |>.push (by decide)
        |>.push (by decide) |>.push (by decide) |>.push (by decide)
        |>.push (by decide) |>.push (mef_pre _ _ (by decide))

theorem sok_sub_epilogue {ck : TypeChecker} (returns : List (String × CowType))
    (st : CodeGenerator) : SOK ck st (sub_epilogue returns st) := by
  unfold sub_epilogue
  rcases returns with _ | ⟨⟨rv, rt⟩, rest⟩
  · exact SOK.self ck st
  · rcases hd : dictGet rv st.vars with _ | var
    · simp only [hd]
      exact (SOK.self ck _).push (mef_pre _ _ (by decide))
    · simp only [hd]
      by_cases hsz : var.size = 1
      · simp only [if_pos hsz]
        exact (SOK.self ck _).push (mef_pre _ _ (by decide)) |>.push (by decide)
          |>.push (by decide)
      · simp only [if_neg hsz]
        exact (SOK.self ck _).push (mef_pre _ _ (by decide))

theorem sok_ext_block {ck : TypeChecker} (st : CodeGenerator) {e : Option String}
    (he : e ≠ some "_main") :
    SOK ck st (extern_block st e) := by
  unfold extern_block
  rcases e with _ | en
  · exact SOK.self ck st
  · dsimp only
    split
    · exact SOK.self ck st
    · have hen : en ≠ "_main" := fun h => he (by rw [h])
      exact ((SOK.self ck st).push (mef_pre _ _ (by decide))).push
        (name_colon_mef hen)

theorem stmts_ok_mem {ck : TypeChecker} :
    ∀ {l : List Stmt}, stmts_ok ck l = true → ∀ s ∈ l, stmt_ok ck s = true := by
  intro l
  induction l with
  | nil => intro _ s hs; simp at hs
  | cons a rest ih =>
    intro h s hs
    simp only [stmts_ok, Bool.and_eq_true] at h
    rcases List.mem_cons.mp hs with rfl | hs
    · exact h.1
    · exact ih h.2 s hs


/-- Draining the nested-subroutine queue: every queued declaration is
`sub_ok` by the queue invariant, so the drain fold is safe. -/
theorem sok_drain_fold {ck : TypeChecker} {fuel : Nat}
    (hsub : ∀ sub s2, sub_ok ck sub = true → SOK ck s2 (gen_sub ck fuel sub s2))
    (stZ : CodeGenerator) :
    SOK ck stZ ((stZ.nested_subs).foldl (fun s n => gen_sub ck fuel n s)
      { stZ with nested_subs := [] }) := by
  intro q
  have h0 := sok_foldl (fun s n => gen_sub ck fuel n s) stZ.nested_subs
    (fun s n hn => hsub n s (q n hn)) { stZ with nested_subs := [] }
  have h1 := h0 (by intro s hs; simp at hs)
  refine ⟨?_, h1.2⟩
  have hset : SafeAdded stZ { stZ with nested_subs := [] } := ⟨[], by simp, by simp⟩
  exact hset.trans h1.1

set_option maxHeartbeats 2000000 in
theorem safe_pass (ck : TypeChecker) : ∀ fuel : Nat,
    (∀ stmt st, stmt_ok ck stmt = true → SOK ck st (gen_stmt ck fuel stmt st)) ∧
    (∀ stmts st, stmts_ok ck stmts = true →
      SOK ck st (gen_stmts ck fuel stmts st)) ∧
    (∀ name tn rt init st, SOK ck st (gen_var_decl ck fuel name tn rt init st)) ∧
    (∀ var elems st, SOK ck st (gen_array_init ck fuel var elems st)) ∧
    (∀ t v st, SOK ck st (gen_assignment ck fuel t v st)) ∧
    (∀ ts v st, SOK ck st (gen_multi_assignment ck fuel ts v st)) ∧
    (∀ c tb ei eb st, stmts_ok ck tb = true → elseifs_ok ck ei = true →
      stmts_ok ck eb = true → SOK ck st (gen_if ck fuel c tb ei eb st)) ∧
    (∀ ei heb el endl st, elseifs_ok ck ei = true → mainEndFree (el ++ ":") →
      mainEndFree (endl ++ ":") →
      SOK ck st (gen_elseifs ck fuel ei heb el endl st).2 ∧
      mainEndFree ((gen_elseifs ck fuel ei heb el endl st).1 ++ ":")) ∧
    (∀ c b st, stmts_ok ck b = true → SOK ck st (gen_while ck fuel c b st)) ∧
    (∀ b st, stmts_ok ck b = true → SOK ck st (gen_loop ck fuel b st)) ∧
    (∀ s w eb st, whens_ok ck w = true → stmts_ok ck eb = true →
      SOK ck st (gen_case ck fuel s w eb st)) ∧
    (∀ w el st, whens_ok ck w = true → SOK ck st (gen_whens ck fuel w el st)) ∧
    (∀ sub st, sub_ok ck sub = true → SOK ck st (gen_sub ck fuel sub st)) := by
  intro fuel
  induction fuel with
  | zero =>
    refine ⟨?_, ?_, ?_, ?_, ?_, ?_, ?_, ?_, ?_, ?_, ?_, ?_, ?_⟩ <;>
      (intros; simp only [gen_stmt, gen_stmts, gen_var_decl, gen_array_init,
        gen_assignment, gen_multi_assignment, gen_if, gen_elseifs, gen_while,
        gen_loop, gen_case, gen_whens, gen_sub]) <;>
      first
        | exact SOK.self ck _
        | exact ⟨SOK.self ck _, by assumption⟩
  | succ f ih =>
    obtain ⟨ihStmt, ihStmts, ihVD, ihAI, ihAsg, ihMA, ihIf, ihEI, ihWh, ihLp,
      ihCase, ihWhens, ihSub⟩ := ih
    have hgE : ∀ e tgt s, SOK ck s (gen_expr ck f e tgt s) :=
      fun e tgt s => sok_of_exprext ((expr_pass ck f).1 e tgt s)
    have hgAD : ∀ a i s, SOK ck s (gen_array_address ck f a i s) :=
      fun a i s => sok_of_exprext ((expr_pass ck f).2.2.2.2.2.1 a i s)
    have hgFD : ∀ r fn s, SOK ck s (gen_field_address ck f r fn s) :=
      fun r fn s => sok_of_exprext ((expr_pass ck f).2.2.2.2.2.2.2.1 r fn s)
    refine ⟨?_, ?_, ?_, ?_, ?_, ?_, ?_, ?_, ?_, ?_, ?_, ?_, ?_⟩
    -- gen_stmt
    · intro stmt st hok
      cases stmt
      case varDecl name tn rt init =>
        simp only [gen_stmt]
        exact ihVD name tn rt init st
      case constDecl => simp only [gen_stmt]; exact SOK.self ck st
      case assignment t v => simp only [gen_stmt]; exact ihAsg t v st
      case multiAssignment ts v => simp only [gen_stmt]; exact ihMA ts v st
      case ifStmt c tb ei eb =>
        simp only [stmt_ok, Bool.and_eq_true] at hok
        simp only [gen_stmt]
        exact ihIf c tb ei eb st hok.1.1 hok.1.2 hok.2
      case whileStmt c b =>
        simp only [stmt_ok] at hok
        simp only [gen_stmt]
        exact ihWh c b st hok
      case loopStmt b =>
        simp only [stmt_ok] at hok
        simp only [gen_stmt]
        exact ihLp b st hok
      case breakStmt =>
        simp only [gen_stmt]
        rcases hL : st.break_labels.getLast? with _ | l <;> simp only [hL]
        · exact SOK.self ck st
        · exact sok_emit st (mef_take2 '\t' 'J' (by rfl) (by decide) (by decide))
      case continueStmt =>
        simp only [gen_stmt]
        rcases hL : st.continue_labels.getLast? with _ | l <;> simp only [hL]
        · exact SOK.self ck st
        · exact sok_emit st (mef_take2 '\t' 'J' (by rfl) (by decide) (by decide))
      case returnStmt => simp only [gen_stmt]; exact sok_emit st (by decide)
      case caseStmt s w eb =>
        simp only [stmt_ok, Bool.and_eq_true] at hok
        simp only [gen_stmt]
        exact ihCase s w eb st hok.1 hok.2
      case exprStmt e => simp only [gen_stmt]; exact hgE e "HL" st
      case asmStmt parts =>
        simp only [stmt_ok, bne_iff_ne] at hok
        simp only [gen_stmt, gen_asm]
        exact sok_emit st (render_asm_mef ck parts hok)
      case nestedSubStmt sub =>
        simp only [stmt_ok] at hok
        simp only [gen_stmt]
        exact sok_queue st hok
      case subDeclStmt sub =>
        simp only [stmt_ok] at hok
        simp only [gen_stmt]
        exact ihSub sub st hok
      case recordDecl => simp only [gen_stmt]; exact SOK.self ck st
      case typedefDecl => simp only [gen_stmt]; exact SOK.self ck st
      case otherStmt => simp only [gen_stmt]; exact SOK.self ck st
    -- gen_stmts
    · intro stmts st hok
      simp only [gen_stmts]
      exact sok_foldl _ stmts
        (fun s a ha => ihStmt a s (stmts_ok_mem hok a ha)) st
    -- gen_var_decl
    · intro name tn rt init st
      simp only [gen_var_decl]
      rcases hd : dictGet name st.vars with _ | v <;> simp only [hd]
      · rcases ha : allocate_var ck name (var_decl_type ck tn rt init) st
          with ⟨var, st2⟩
        simp only [ha]
        have hW : SOK ck st st2 := by
          have h0 := sok_alloc ck ck name (var_decl_type ck tn rt init) st
          rw [ha] at h0
          exact h0
        rcases init with _ | initE
        · exact hW
        · obtain ⟨irt, inode⟩ := initE
          cases inode
          case arrayInitializer es =>
            dsimp only
            exact hW.trans (ihAI var es st2)
          case stringLiteral v2 =>
            dsimp only
            rcases hg : get_string_label v2 st2 with ⟨lbl, st3⟩
            simp only [hg]
            exact hW.trans (((sok_gsl hg).push
              (mef_take2 '\t' 'L' (by rfl) (by decide) (by decide))).push
              (mef_take2 '\t' 'S' (by rfl) (by decide) (by decide)))
          all_goals
            (dsimp only
             split <;>
              first
                | exact hW.trans (((sok_of_exprext
                    ((expr_pass ck f).1 _ "HL" st2)).push (by decide)).push
                    (mef_take2 '\t' 'S' (by rfl) (by decide) (by decide)))
                | exact hW.trans ((sok_of_exprext
                    ((expr_pass ck f).1 _ "HL" st2)).push
                    (mef_take2 '\t' 'S' (by rfl) (by decide) (by decide))))
      · exact SOK.self ck st
    -- gen_array_init
    · intro var elems st
      simp only [gen_array_init]
      refine sok_foldl_pair _ ?_ elems (st, 0)
      intro s e
      dsimp only
      split
      · exact ((sok_of_exprext ((expr_pass ck f).1 e "HL" s.1)).push
          (by decide)).push (mef_take2 '\t' 'S' (by rfl) (by decide) (by decide))
      · exact (sok_of_exprext ((expr_pass ck f).1 e "HL" s.1)).push
          (mef_take2 '\t' 'S' (by rfl) (by decide) (by decide))
    -- gen_assignment
    · intro t v st
      simp only [gen_assignment]
      have hV : SOK ck st (gen_expr ck f v "HL" st) := hgE v "HL" st
      obtain ⟨trt, tnode⟩ := t
      cases tnode
      case identifier name =>
        dsimp only
        rcases hd : dictGet name (gen_expr ck f v "HL" st).vars with _ | var <;>
          simp only [hd]
        · exact hV
        · split
          · exact (hV.push (by decide)).push
              (mef_take2 '\t' 'S' (by rfl) (by decide) (by decide))
          · exact hV.push (mef_take2 '\t' 'S' (by rfl) (by decide) (by decide))
      case arrayAccess a i =>
        dsimp only
        split
        · exact (hV.push (by decide)).trans (hgAD a i _) |>.push (by decide)
            |>.push (by decide) |>.push (by decide) |>.push (by decide)
        · exact (hV.push (by decide)).trans (hgAD a i _) |>.push (by decide)
            |>.push (by decide) |>.push (by decide) |>.push (by decide)
            |>.push (by decide) |>.push (by decide)
      case fieldAccess r fn =>
        dsimp only
        split
        · exact (hV.push (by decide)).trans (hgFD r fn _) |>.push (by decide)
            |>.push (by decide) |>.push (by decide) |>.push (by decide)
        · exact (hV.push (by decide)).trans (hgFD r fn _) |>.push (by decide)
            |>.push (by decide) |>.push (by decide) |>.push (by decide)
            |>.push (by decide) |>.push (by decide)
      case dereference ptr =>
        dsimp only
        split
        · exact (hV.push (by decide)).trans (hgE ptr "HL" _) |>.push (by decide)
            |>.push (by decide) |>.push (by decide) |>.push (by decide)
        · exact (hV.push (by decide)).trans (hgE ptr "HL" _) |>.push (by decide)
            |>.push (by decide) |>.push (by decide) |>.push (by decide)
            |>.push (by decide) |>.push (by decide)
      all_goals exact hV
    -- gen_multi_assignment
    · intro ts v st
      simp only [gen_multi_assignment]
      refine (hgE v "HL" st).trans
        (sok_foldl_pair _ ?_ ts (gen_expr ck f v "HL" st, false))
      intro s t
      obtain ⟨trt, tnode⟩ := t
      have h0 : SOK ck s.1 (if s.2 = true then emit s.1 "\tPOP\tH" else s.1) := by
        split
        · exact sok_emit _ (by decide)
        · exact SOK.self ck _
      cases tnode
      case identifier name =>
        dsimp only
        rcases hd : dictGet name
            (if s.2 = true then emit s.1 "\tPOP\tH" else s.1).vars with _ | var <;>
          simp only [hd]
        · exact h0.push (mef_take2 '\t' 'S' (by rfl) (by decide) (by decide))
        · split
          · exact (h0.push (by decide)).push
              (mef_take2 '\t' 'S' (by rfl) (by decide) (by decide))
          · exact h0.push (mef_take2 '\t' 'S' (by rfl) (by decide) (by decide))
      all_goals exact h0
    -- gen_if
    · intro c tb ei eb st htb hei heb
      simp only [gen_if]
      rcases h1 : new_label "ELSE" st with ⟨el, st1⟩
      simp only [h1]
      rcases h2 : new_label "ENDIF" st1 with ⟨endl, st2⟩
      simp only [h2]
      have hmel : mainEndFree (el ++ ":") :=
        label_mef_of_new_label h1 (by decide) (by decide)
      have hmendl : mainEndFree (endl ++ ":") :=
        label_mef_of_new_label h2 (by decide) (by decide)
      have w4 : SOK ck st (emit (gen_expr ck f c "A" st2) "\tORA\tA") :=
        (((sok_of_new_label h1).trans (sok_of_new_label h2)).trans
          (hgE c "A" st2)).push (by decide)
      by_cases hM : (!ei.isEmpty || !eb.isEmpty) = true
      · simp only [if_pos hM]
        rcases h3 : gen_elseifs ck f ei (!eb.isEmpty) el endl
            (emit (gen_stmts ck f tb
              (emit (emit (gen_expr ck f c "A" st2) "\tORA\tA") ("\tJZ\t" ++ el)))
              ("\tJMP\t" ++ endl)) with ⟨el2, st6⟩
        simp only [h3]
        have h9 := ihEI ei (!eb.isEmpty) el endl
          (emit (gen_stmts ck f tb
            (emit (emit (gen_expr ck f c "A" st2) "\tORA\tA") ("\tJZ\t" ++ el)))
            ("\tJMP\t" ++ endl)) hei hmel hmendl
        rw [h3] at h9
        have w7 : SOK ck st st6 :=
          ((w4.push (mef_take2 '\t' 'J' (by rfl) (by decide) (by decide))).trans
            (ihStmts tb _ htb)).push
            (mef_take2 '\t' 'J' (by rfl) (by decide) (by decide)) |>.trans h9.1
        split
        · exact ((w7.push h9.2).trans (ihStmts eb _ heb)).push hmendl
        · exact w7.push hmendl
      · simp only [if_neg hM]
        rcases h3 : gen_elseifs ck f ei (!eb.isEmpty) el endl
            (gen_stmts ck f tb
              (emit (emit (gen_expr ck f c "A" st2) "\tORA\tA") ("\tJZ\t" ++ endl)))
          with ⟨el2, st6⟩
        simp only [h3]
        have h9 := ihEI ei (!eb.isEmpty) el endl
          (gen_stmts ck f tb
            (emit (emit (gen_expr ck f c "A" st2) "\tORA\tA") ("\tJZ\t" ++ endl)))
          hei hmel hmendl
        rw [h3] at h9
        have w7 : SOK ck st st6 :=
          ((w4.push (mef_take2 '\t' 'J' (by rfl) (by decide) (by decide))).trans
            (ihStmts tb _ htb)).trans h9.1
        split
        · exact ((w7.push h9.2).trans (ihStmts eb _ heb)).push hmendl
        · exact w7.push hmendl
    -- gen_elseifs
    · intro ei heb el endl st hok hel hendl
      cases ei with
      | nil =>
        simp only [gen_elseifs]
        exact ⟨SOK.self ck st, hel⟩
      | cons hd rest =>
        rcases hd with ⟨c, body⟩
        simp only [elseifs_ok, Bool.and_eq_true] at hok
        simp only [gen_elseifs]
        by_cases hC : (!rest.isEmpty || heb) = true
        · simp only [if_pos hC]
          rcases hn : new_label "ELIF" (emit_label st el) with ⟨nl, st2⟩
          simp only [hn]
          have hnl : mainEndFree (nl ++ ":") :=
            label_mef_of_new_label hn (by decide) (by decide)
          have h9 := ihEI rest heb nl endl
            (emit (gen_stmts ck f body
              (emit (emit (gen_expr ck f c "A" st2) "\tORA\tA") ("\tJZ\t" ++ nl)))
              ("\tJMP\t" ++ endl)) hok.2 hnl hendl
          refine ⟨?_, h9.2⟩
          exact (((((sok_emit st hel).trans (sok_of_new_label hn)).trans
            (hgE c "A" st2)).push (by decide)).push
            (mef_take2 '\t' 'J' (by rfl) (by decide) (by decide))).trans
            (ihStmts body _ hok.1) |>.push
            (mef_take2 '\t' 'J' (by rfl) (by decide) (by decide)) |>.trans h9.1
        · simp only [if_neg hC]
          have h9 := ihEI rest heb endl endl
            (emit (gen_stmts ck f body
              (emit (emit (gen_expr ck f c "A" (emit_label st el)) "\tORA\tA")
                ("\tJZ\t" ++ endl))) ("\tJMP\t" ++ endl)) hok.2 hendl hendl
          refine ⟨?_, h9.2⟩
          exact ((((sok_emit st hel).trans (hgE c "A" _)).push (by decide)).push
            (mef_take2 '\t' 'J' (by rfl) (by decide) (by decide))).trans
            (ihStmts body _ hok.1) |>.push
            (mef_take2 '\t' 'J' (by rfl) (by decide) (by decide)) |>.trans h9.1
    -- gen_while
    · intro c b st hok
      simp only [gen_while]
      rcases h1 : new_label "WHILE" st with ⟨ll, st1⟩
      simp only [h1]
      rcases h2 : new_label "ENDW" st1 with ⟨el, st2⟩
      simp only [h2]
      have w3 : SOK ck st ({ st2 with break_labels := st2.break_labels ++ [el],
                                      continue_labels := st2.continue_labels ++ [ll] }
          : CodeGenerator) :=
        sok_setLoop ((sok_of_new_label h1).trans (sok_of_new_label h2)) _ _
      exact sok_setLoop ((((((w3.push
        (label_mef_of_new_label h1 (by decide) (by decide))).trans
        (hgE c "A" _)).push (by decide)).push
        (mef_take2 '\t' 'J' (by rfl) (by decide) (by decide))).trans
        (ihStmts b _ hok)).push
        (mef_take2 '\t' 'J' (by rfl) (by decide) (by decide)) |>.push
        (label_mef_of_new_label h2 (by decide) (by decide))) _ _
    -- gen_loop
    · intro b st hok
      simp only [gen_loop]
      rcases h1 : new_label "LOOP" st with ⟨ll, st1⟩
      simp only [h1]
      rcases h2 : new_label "ENDL" st1 with ⟨el, st2⟩
      simp only [h2]
      have w3 : SOK ck st ({ st2 with break_labels := st2.break_labels ++ [el],
                                      continue_labels := st2.continue_labels ++ [ll] }
          : CodeGenerator) :=
        sok_setLoop ((sok_of_new_label h1).trans (sok_of_new_label h2)) _ _
      exact sok_setLoop (((w3.push
        (label_mef_of_new_label h1 (by decide) (by decide))).trans
        (ihStmts b _ hok)).push
        (mef_take2 '\t' 'J' (by rfl) (by decide) (by decide)) |>.push
        (label_mef_of_new_label h2 (by decide) (by decide))) _ _
    -- gen_case
    · intro sc w eb st hw heb
      simp only [gen_case]
      rcases h1 : new_label "ENDC" st with ⟨endl, st1⟩
      simp only [h1]
      have w2 : SOK ck st
          (emit (gen_whens ck f w endl
            (emit (gen_expr ck f sc "HL" st1) "\tPUSH\tH")) "\tPOP\tH") :=
        ((((sok_of_new_label h1).trans (hgE sc "HL" st1)).push
          (by decide)).trans (ihWhens w endl _ hw)).push (by decide)
      split
      · exact (w2.trans (ihStmts eb _ heb)).push
          (label_mef_of_new_label h1 (by decide) (by decide))
      · exact w2.push (label_mef_of_new_label h1 (by decide) (by decide))
    -- gen_whens
    · intro w el st hok
      cases w with
      | nil =>
        simp only [gen_whens]
        exact SOK.self ck st
      | cons hd rest =>
        rcases hd with ⟨values, body⟩
        simp only [whens_ok, Bool.and_eq_true] at hok
        simp only [gen_whens]
        rcases h1 : new_label "WHEN" st with ⟨nw, st1⟩
        simp only [h1]
        refine (((((sok_of_new_label h1).trans
          (sok_foldl _ values ?_ st1)).push (by decide)).trans
          (ihStmts body _ hok.1)).push
          (mef_take2 '\t' 'J' (by rfl) (by decide) (by decide)) |>.push
          (label_mef_of_new_label h1 (by decide) (by decide))).trans
          (ihWhens rest el _ hok.2)
        intro s v _hv
        dsimp only
        exact ((((SOK.self ck s).push (by decide)).push (by decide)).trans
          (hgE v "HL" _)).push (by decide) |>.push (by decide)
          |>.push (by decide) |>.push (by decide) |>.push (by decide)
          |>.push (mef_take2 '\t' 'J' (by rfl) (by decide) (by decide))
          |>.push (by decide) |>.push (by decide)
          |>.push (mef_take2 '\t' 'J' (by rfl) (by decide) (by decide))
    -- gen_sub
    · intro decl st hok
      obtain ⟨sname, sparams, srets, sbody, sext⟩ := decl
      rcases sbody with _ | body
      · simp only [gen_sub, SubDecl.body]
        exact SOK.self ck st
      · simp only [sub_ok, Bool.and_eq_true, bne_iff_ne] at hok
        obtain ⟨⟨hname, hext⟩, hbody⟩ := hok
        simp only [gen_sub, SubDecl.body, SubDecl.name, SubDecl.extern_name,
          SubDecl.params, SubDecl.returns]
        refine sok_pop_current ?_ _
        split
        · refine SOK.trans ?_ ((sok_sub_epilogue _ _).push (by decide))
          refine SOK.trans ?_ (ihStmts body _ hbody)
          refine SOK.trans ?_ (sok_sub_prologue _ _)
          refine SOK.trans ?_ (sok_foldl _ _
            (fun (s : CodeGenerator) (r : String × CowType) _ => sok_alloc ck ck r.1 r.2 s) _)
          refine SOK.trans ?_ (sok_foldl _ _
            (fun (s : CodeGenerator) (p : String × CowType) _ => sok_alloc ck ck p.1 p.2 s) _)
          refine SOK.trans ?_ (sok_emit _ (mangle_label_mef hname))
          refine SOK.trans ?_ (sok_ext_block _ hext)
          exact ((sok_set rfl rfl).push (by decide)).push
            (mef_take2 ';' ' ' (by rfl) (by decide) (by decide))
        · refine SOK.trans ?_ (sok_drain_fold (fun sub s2 hs => ihSub sub s2 hs) _)
          refine SOK.trans ?_ ((sok_sub_epilogue _ _).push (by decide))
          refine SOK.trans ?_ (ihStmts body _ hbody)
          refine SOK.trans ?_ (sok_sub_prologue _ _)
          refine SOK.trans ?_ (sok_foldl _ _
            (fun (s : CodeGenerator) (r : String × CowType) _ => sok_alloc ck ck r.1 r.2 s) _)
          refine SOK.trans ?_ (sok_foldl _ _
            (fun (s : CodeGenerator) (p : String × CowType) _ => sok_alloc ck ck p.1 p.2 s) _)
          refine SOK.trans ?_ (sok_emit _ (mangle_label_mef hname))
          refine SOK.trans ?_ (sok_ext_block _ hext)
          exact ((sok_set rfl rfl).push (by decide)).push
            (mef_take2 ';' ' ' (by rfl) (by decide) (by decide))


/-! ## The `_main:`/`END` structure of `gen_program`\x27s output -/

theorem prog_body_split (ck : TypeChecker) (fuel : Nat) (program : Program)
    (st : CodeGenerator) :
    prog_body ck fuel program st =
      prog_post ck fuel program
        (emit_label (prog_pre ck fuel program st) "_main") :=
  rfl

theorem sok_prog_pre (ck : TypeChecker) (fuel : Nat) (program : Program)
    (hd : ∀ d ∈ program.declarations,
      (match d with
       | TopDecl.sub s => sub_ok ck s
       | TopDecl.otherDecl => true) = true)
    (st : CodeGenerator) : SOK ck st (prog_pre ck fuel program st) := by
  unfold prog_pre
  refine SOK.trans ?_ (sok_emit _ (by decide))
  refine SOK.trans ?_ (sok_emit _ (by decide))
  refine SOK.trans ?_ (sok_foldl _ program.declarations ?_ _)
  · refine sok_foldl _ program.statements ?_ st
    intro s a ha
    clear ha
    cases a
    case varDecl name tn rt init =>
      dsimp only
      rcases hv : ck.lookup_var name with _ | t <;> simp only [hv]
      · exact SOK.self ck s
      · exact sok_alloc ck ck name t s
    all_goals exact SOK.self ck s
  · intro s d hdm
    rcases d with decl | _
    · dsimp only
      exact (safe_pass ck fuel).2.2.2.2.2.2.2.2.2.2.2.2 decl s
        (by have := hd _ hdm; simpa using this)
    · dsimp only
      exact SOK.self ck s

theorem sok_prog_post (ck : TypeChecker) (fuel : Nat) (program : Program)
    (hs : stmts_ok ck program.statements = true) (st : CodeGenerator) :
    SOK ck st (prog_post ck fuel program st) := by
  unfold prog_post
  refine SOK.trans ?_ (sok_emit _ (by decide))
  refine SOK.trans ?_ (sok_emit _ (by decide))
  refine SOK.trans ?_ (sok_emit _ (by decide))
  refine SOK.trans ?_ (sok_emit _ (by decide))
  exact (safe_pass ck fuel).2.1 program.statements st hs

/-- Every line of a mainEndFree list contributes no `_main:` and no `END`
occurrence. -/
theorem count_main_end {L : List String} (h : ∀ l ∈ L, mainEndFree l) :
    L.count "_main:" = 0 ∧ L.count "\tEND" = 0 := by
  constructor
  · rw [List.count_eq_zero]
    intro hm
    exact absurd rfl (h _ hm).1
  · rw [List.count_eq_zero]
    intro hm
    exact absurd rfl (h _ hm).2

/-- The whole-output decomposition: header, then safe lines, then the
single `_main:`, then safe lines, then the single final `END`. -/
theorem prog_structure (ck : TypeChecker) (fuel : Nat) (program : Program)
    (hok : prog_ok ck program = true) :
    ∃ L1 L2, (gen_program ck fuel program {}).output =
      headerLines ++ L1 ++ "_main:" :: L2 ++ ["\tEND"] ∧
      (∀ l ∈ L1, mainEndFree l) ∧ (∀ l ∈ L2, mainEndFree l) := by
  simp only [prog_ok, Bool.and_eq_true, List.all_eq_true] at hok
  obtain ⟨hd, hs⟩ := hok
  have hfin : ∀ s0 : CodeGenerator, (prog_tail s0).output =
      s0.output ++ s0.vars.map ds_line ++ s0.string_literals.map db_line ++
        ["", "\tEND"] := by
    intro s0
    rw [prog_tail_spec]
  rw [gen_program_factored, prog_mid_factored, prog_body_split, hfin]
  have hQ : QOK ck (headerLines.foldl emit ({} : CodeGenerator)) := by
    intro s hmem
    rw [foldl_emit_id] at hmem
    simp at hmem
  obtain ⟨⟨A1, hA1, sA1⟩, hq1⟩ := sok_prog_pre ck fuel program hd
    (headerLines.foldl emit ({} : CodeGenerator)) hQ
  obtain ⟨⟨A2, hA2, sA2⟩, _⟩ := sok_prog_post ck fuel program hs
    (emit_label (prog_pre ck fuel program
      (headerLines.foldl emit ({} : CodeGenerator))) "_main") hq1
  refine ⟨A1, A2 ++
    (prog_post ck fuel program
      (emit_label (prog_pre ck fuel program
        (headerLines.foldl emit ({} : CodeGenerator))) "_main")).vars.map ds_line ++
    (prog_post ck fuel program
      (emit_label (prog_pre ck fuel program
        (headerLines.foldl emit ({} : CodeGenerator))) "_main")).string_literals.map
       db_line ++ [""], ?_, sA1, ?_⟩
  · rw [hA2,
      show (emit_label (prog_pre ck fuel program
          (headerLines.foldl emit ({} : CodeGenerator))) "_main").output =
        (prog_pre ck fuel program
          (headerLines.foldl emit ({} : CodeGenerator))).output ++ ["_main:"]
        from rfl, hA1, foldl_emit_id]
    simp [List.append_assoc]
  · intro l hl
    simp only [List.mem_append] at hl
    rcases hl with ((hl | hl) | hl) | hl
    · exact sA2 l hl
    · obtain ⟨nv, _, hnv⟩ := List.mem_map.mp hl
      exact hnv ▸ ds_line_mef nv
    · obtain ⟨vl, _, hvl⟩ := List.mem_map.mp hl
      exact hvl ▸ db_line_mef vl
    · simp only [List.mem_singleton] at hl
      subst hl
      decide


/-- C8: every generated output starts with the ten fixed header lines,
whose seventh line — the first instruction of the program — is
`JMP _main` (first two conjuncts, hypothesis-free); for every program in
the domain the spec describes (`prog_ok`: no subroutine named `_main` or
externally exported as `_main`, and no `asm` statement rendering the bare
`END` directive — the spec reserves these), the label `_main:` appears
exactly once, `END` appears exactly once, and `END` is the final line
(third conjunct); and the empty program produces exactly the header plus
the `_main:` block with `JMP 0`, the `_data:` label and `END`, with no
`DS` or `DB` lines (fourth conjunct, computed output). -/
theorem c8_main_once_end_last :
    (∀ (ck : TypeChecker) (fuel : Nat) (program : Program),
       ∃ rest, (gen_program ck fuel program {}).output = headerLines ++ rest) ∧
    (headerLines.get? 6 = some "\tJMP\t_main") ∧
    (∀ (ck : TypeChecker) (fuel : Nat) (program : Program),
       prog_ok ck program = true →
       (gen_program ck fuel program {}).output.count "_main:" = 1 ∧
       (gen_program ck fuel program {}).output.count "\tEND" = 1 ∧
       (gen_program ck fuel program {}).output.getLast? = some "\tEND") ∧
    ((gen_program exChecker 8 exProgEmpty {}).output =
       headerLines ++ ["", "; Main program", "_main:", "\tJMP\t0", "",
         "; Data segment", "_data:", "", "\tEND"]) := by
  refine ⟨?_, by decide, ?_, by decide⟩
  · intro ck fuel program
    rw [gen_program_factored, prog_mid_factored]
    obtain ⟨add, hadd⟩ :=
      ((prog_body_wext ck fuel program _).trans (prog_tail_wext _)).1
    refine ⟨add, ?_⟩
    rw [hadd, foldl_emit_id]
    simp
  · intro ck fuel program hok
    obtain ⟨L1, L2, hout, s1, s2⟩ := prog_structure ck fuel program hok
    rw [hout]
    have hh := count_main_end (L := headerLines) (by decide)
    have h1 := count_main_end s1
    have h2 := count_main_end s2
    refine ⟨?_, ?_, ?_⟩
    · simp only [List.count_append, List.count_cons, hh.1, h1.1, h2.1]
      decide
    · simp only [List.count_append, List.count_cons, hh.2, h1.2, h2.2]
      decide
    · have hre : headerLines ++ L1 ++ "_main:" :: L2 ++ ["\tEND"] =
          (headerLines ++ L1 ++ "_main:" :: L2) ++ ["\tEND"] := by
        simp [List.append_assoc]
      rw [hre, List.getLast?_concat]

/-- Witness for C8: the empty program satisfies `prog_ok`, and the counting
conjunct applies to it. -/
theorem c8_witness :
    prog_ok exChecker exProgEmpty = true ∧
      (gen_program exChecker 8 exProgEmpty {}).output.count "_main:" = 1 :=
  ⟨by decide,
   (c8_main_once_end_last.2.2.1 exChecker 8 exProgEmpty (by decide)).1⟩

end UCow
